import Mathlib

/-!
# YOLOv5 post-processing (`native-lib.cpp`)

A shallow embedding of the detection post-processing code of
`app/src/main/cpp/native-lib.cpp`: the letterbox geometry, the proposal
decoder `generate_proposals`, the ranking `qsort_descent_inplace`, the greedy
suppression `nms_sorted_bboxes` and the coordinate remapping loop of `Detect`,
followed by the properties proved about them.

Conventions of the embedding.
* A C `float` is a rational number (`ℚ`).  In the letterbox block of
  `Detect`, where a `float` is truncated to an `int`, every `float` operation
  is rounded to binary32 by `roundF32`; in the decoder, the suppression and
  the remapping loop the arithmetic is exact.  The one float division whose
  divisor can be zero, the overlap ratio of the suppression, is compared
  through `divGt`, which follows the IEEE result.
* A C `int` is an integer (`ℤ`); `/` on `int` is truncating division
  (`Int.tdiv`), and a `float` to `int` conversion truncates toward zero.
* `sigmoid` is a parameter `sig : ℚ → ℚ` of the decoder.
* A `std::vector<Object>` is a `List Object`; a read outside the vector is
  reported as `none`.
* The loops of the sort carry a step budget; `qsort_descent_inplace_spec`
  shows that the budget given by `qsort_descent_inplace` is never exhausted.
* `scanUpIn`, `scanDownIn`, `partitionLoopIn` and `qsortRangeIn` repeat the
  sort with its reads and recursive calls checked against the index range of
  the current call; they serve to state the safety of the sort.
-/

namespace NcnnYolov5

/-! ## Data model -/

/-- The record `struct Object` of the source: upper-left corner, size, class
index and confidence. -/
structure Object where
  x : ℚ
  y : ℚ
  w : ℚ
  h : ℚ
  label : ℤ
  prob : ℚ
  deriving DecidableEq

/-- A value-initialised `Object` (all fields zero), used as the default of
total list reads at indices that the loops never leave. -/
def Object.zero : Object := ⟨0, 0, 0, 0, 0, 0⟩

instance : Inhabited Object := ⟨Object.zero⟩

/-! ## Overlap of two boxes -/

/-- Source `intersection_area`: zero when the boxes are separated on an axis,
else the product of the overlap extents. -/
def intersection_area (a b : Object) : ℚ :=
  if a.x > b.x + b.w ∨ a.x + a.w < b.x ∨ a.y > b.y + b.h ∨ a.y + a.h < b.y then
    0
  else
    let inter_width := min (a.x + a.w) (b.x + b.w) - max a.x b.x
    let inter_height := min (a.y + a.h) (b.y + b.h) - max a.y b.y
    inter_width * inter_height

/-- The float test `num / den > t`.  For `den ≠ 0` it is the exact quotient
test; for `den = 0` the float quotient is `+inf` when `num > 0` (larger than
every finite `t`) and `-inf` or NaN otherwise (the comparison is false). -/
def divGt (num den t : ℚ) : Bool :=
  if den = 0 then decide (0 < num) else decide (t < num / den)

/-! ## Ranking: `qsort_descent_inplace` -/

/-- Read `v[i]` for a C `int` index; `none` outside the vector. -/
def vecGet (v : List Object) (i : ℤ) : Option Object :=
  if 0 ≤ i then v[i.toNat]? else none

/-- The `std::swap(v[i], v[j])` of the source; `none` when an index is outside
the vector. -/
def vecSwap (v : List Object) (i j : ℤ) : Option (List Object) :=
  match vecGet v i, vecGet v j with
  | some a, some b => some ((v.set i.toNat b).set j.toNat a)
  | _, _ => none

/-- The loop `while (faceobjects[i].prob > p) i++;` with a step budget. -/
def scanUp (v : List Object) (p : ℚ) : ℕ → ℤ → Option ℤ
  | 0, _ => none
  | fuel + 1, i =>
    match vecGet v i with
    | none => none
    | some o => if o.prob > p then scanUp v p fuel (i + 1) else some i

/-- The loop `while (faceobjects[j].prob < p) j--;` with a step budget. -/
def scanDown (v : List Object) (p : ℚ) : ℕ → ℤ → Option ℤ
  | 0, _ => none
  | fuel + 1, j =>
    match vecGet v j with
    | none => none
    | some o => if o.prob < p then scanDown v p fuel (j - 1) else some j

/-- The partition loop `while (i <= j) { ... }` of the source with a step
budget; it returns the vector and the final `i` and `j`. -/
def partitionLoop (p : ℚ) : ℕ → List Object → ℤ → ℤ → Option (List Object × ℤ × ℤ)
  | 0, _, _, _ => none
  | fuel + 1, v, i, j =>
    if i ≤ j then
      match scanUp v p (v.length + 1) i with
      | none => none
      | some i1 =>
        match scanDown v p (v.length + 1) j with
        | none => none
        | some j1 =>
          if i1 ≤ j1 then
            match vecSwap v i1 j1 with
            | none => none
            | some v1 => partitionLoop p fuel v1 (i1 + 1) (j1 - 1)
          else partitionLoop p fuel v i1 j1
    else some (v, i, j)

/-- Source `qsort_descent_inplace(faceobjects, left, right)` with a recursion
budget; the two sections run one after the other (they touch disjoint
ranges). -/
def qsortRange : ℕ → List Object → ℤ → ℤ → Option (List Object)
  | 0, _, _, _ => none
  | fuel + 1, v, left, right =>
    match vecGet v ((left + right).tdiv 2) with
    | none => none
    | some mid =>
      match partitionLoop mid.prob (v.length + 1) v left right with
      | none => none
      | some (v1, i, j) =>
        match (if left < j then qsortRange fuel v1 left j else some v1) with
        | none => none
        | some v2 => if i < right then qsortRange fuel v2 i right else some v2

/-- Source `qsort_descent_inplace(faceobjects)`: nothing to do on an empty
vector, else sort the whole index range. -/
def qsort_descent_inplace (v : List Object) : Option (List Object) :=
  if v.isEmpty then some v
  else qsortRange v.length v 0 ((v.length : ℤ) - 1)

/-! ## Greedy suppression: `nms_sorted_bboxes` -/

/-- The table `areas` of the source: `areas[i] = w * h`. -/
def areasOf (faceobjects : List Object) : List ℚ :=
  faceobjects.map fun o => o.w * o.h

/-- The test `inter_area / union_area > nms_threshold` of the source for the
candidates at indices `i` and `j`. -/
def overlapExceeds (faceobjects : List Object) (nms_threshold : ℚ) (i j : ℕ) : Bool :=
  let a := faceobjects.getD i Object.zero
  let b := faceobjects.getD j Object.zero
  let areas := areasOf faceobjects
  let inter_area := intersection_area a b
  let union_area := areas.getD i 0 + areas.getD j 0 - inter_area
  divGt inter_area union_area nms_threshold

/-- The inner loop `for (int j : picked)` of the source: `keep` starts at 1
and is cleared by every picked box that overlaps too much (no early exit). -/
def keepFlag (faceobjects : List Object) (nms_threshold : ℚ) (picked : List ℕ) (i : ℕ) : Bool :=
  picked.foldl (fun keep j => if overlapExceeds faceobjects nms_threshold i j then false else keep) true

/-- One iteration of the outer loop of `nms_sorted_bboxes`. -/
def nmsStep (faceobjects : List Object) (nms_threshold : ℚ) (picked : List ℕ) (i : ℕ) : List ℕ :=
  if keepFlag faceobjects nms_threshold picked i then picked ++ [i] else picked

/-- Source `nms_sorted_bboxes`: `picked` is cleared and then filled by the
outer loop over `i = 0 .. n-1`. -/
def nms_sorted_bboxes (faceobjects : List Object) (nms_threshold : ℚ) : List ℕ :=
  (List.range faceobjects.length).foldl (nmsStep faceobjects nms_threshold) []

/-! ## Proposal decoder: `generate_proposals` -/

/-- The part of an `ncnn::Mat` that the decoder reads: the three dimensions
and the element at (channel, row, column). -/
structure Mat where
  w : ℤ
  h : ℤ
  c : ℤ
  elem : ℕ → ℕ → ℕ → ℚ

/-- The C constant `FLT_MAX` = (2 - 2^-23) * 2^127. -/
def FLT_MAX : ℚ := (2 ^ 24 - 1) * 2 ^ 104

/-- The grid dimensions `(num_grid_x, num_grid_y)` computed at the top of
`generate_proposals`; `none` when an integer division has a zero divisor. -/
def gridDims (stride : ℤ) (in_pad feat_blob : Mat) : Option (ℤ × ℤ) :=
  let num_grid := feat_blob.h
  if stride = 0 then none
  else if in_pad.w > in_pad.h then
    let num_grid_x := in_pad.w.tdiv stride
    if num_grid_x = 0 then none else some (num_grid_x, num_grid.tdiv num_grid_x)
  else
    let num_grid_y := in_pad.h.tdiv stride
    if num_grid_y = 0 then none else some (num_grid.tdiv num_grid_y, num_grid_y)

/-- The class loop `for (int k = 0; k < num_class; k++)`: the state is
`(class_index, class_score)`, started at `(0, -FLT_MAX)` and replaced by a
strictly larger score. -/
def classLoop (featptr : ℕ → ℚ) (num_class : ℤ) : ℤ × ℚ :=
  (List.range num_class.toNat).foldl
    (fun st k =>
      let score := featptr (5 + k)
      if score > st.2 then ((k : ℤ), score) else st)
    (0, -FLT_MAX)

/-- The body of the innermost cell loop of `generate_proposals` for the row
`featptr` of the cell in grid row `i` and grid column `j`. -/
def decodeCell (sig : ℚ → ℚ) (anchor_w anchor_h : ℚ) (stride : ℤ) (num_class : ℤ)
    (prob_threshold : ℚ) (featptr : ℕ → ℚ) (i j : ℕ) (objects : List Object) : List Object :=
  let cls := classLoop featptr num_class
  let class_index := cls.1
  let class_score := cls.2
  let box_score := featptr 4
  let confidence := sig box_score * sig class_score
  if confidence ≥ prob_threshold then
    let dx := sig (featptr 0)
    let dy := sig (featptr 1)
    let dw := sig (featptr 2)
    let dh := sig (featptr 3)
    let pb_cx := (dx * 2 - 1 / 2 + (j : ℚ)) * (stride : ℚ)
    let pb_cy := (dy * 2 - 1 / 2 + (i : ℚ)) * (stride : ℚ)
    let pb_w := (dw * 2) ^ 2 * anchor_w
    let pb_h := (dh * 2) ^ 2 * anchor_h
    let x0 := pb_cx - pb_w * (1 / 2)
    let y0 := pb_cy - pb_h * (1 / 2)
    let x1 := pb_cx + pb_w * (1 / 2)
    let y1 := pb_cy + pb_h * (1 / 2)
    objects ++ [{ x := x0, y := y0, w := x1 - x0, h := y1 - y0,
                  label := class_index, prob := confidence }]
  else objects

/-- The three nested loops of `generate_proposals` (anchor `q`, grid row `i`,
grid column `j`) for known grid dimensions. -/
def proposalLoops (sig : ℚ → ℚ) (anchors : List ℚ) (stride : ℤ) (feat_blob : Mat)
    (prob_threshold : ℚ) (num_grid_x num_grid_y : ℤ) (objects : List Object) : List Object :=
  let num_class := feat_blob.w - 5
  let num_anchors := (anchors.length : ℤ).tdiv 2
  (List.range num_anchors.toNat).foldl
    (fun objs (q : ℕ) =>
      let anchor_w := anchors.getD (q * 2) 0
      let anchor_h := anchors.getD (q * 2 + 1) 0
      (List.range num_grid_y.toNat).foldl
        (fun objs (i : ℕ) =>
          (List.range num_grid_x.toNat).foldl
            (fun objs (j : ℕ) =>
              let featptr := feat_blob.elem q (((i : ℤ) * num_grid_x + (j : ℤ)).toNat)
              decodeCell sig anchor_w anchor_h stride num_class prob_threshold featptr i j objs)
            objs)
        objs)
    objects

/-- Source `generate_proposals`: the decoded boxes are appended to `objects`;
`none` when the grid computation divides by zero. -/
def generate_proposals (sig : ℚ → ℚ) (anchors : List ℚ) (stride : ℤ) (in_pad feat_blob : Mat)
    (prob_threshold : ℚ) (objects : List Object) : Option (List Object) :=
  match gridDims stride in_pad feat_blob with
  | none => none
  | some (num_grid_x, num_grid_y) =>
    some (proposalLoops sig anchors stride feat_blob prob_threshold num_grid_x num_grid_y objects)

/-! ## The request: `Detect` -/

/-- Conversion of a `float` to `int`: truncation toward zero. -/
def truncToInt (q : ℚ) : ℤ := q.num.tdiv q.den

/-! ### Rounding to `float` -/

/-- The loop of the binary logarithm with a step budget: halve `n` until it
is below 2 and count the steps. -/
def log2Aux : ℕ → ℕ → ℕ
  | 0, _ => 0
  | fuel + 1, n => if n < 2 then 0 else log2Aux fuel (n / 2) + 1

/-- The binary logarithm of a natural number, rounded down (0 at 0). -/
def natLog2 (n : ℕ) : ℕ := log2Aux n n

/-- The binary exponent of a non-zero rational `x`: the integer `e` with
`2^e ≤ |x| < 2^(e+1)`. -/
def binExponent (x : ℚ) : ℤ :=
  let k : ℤ := (natLog2 x.num.natAbs : ℤ) - (natLog2 x.den : ℤ)
  if (2 : ℚ) ^ k ≤ |x| then k else k - 1

/-- Rounding to the nearest integer, ties to the even one. -/
def roundHalfEven (m : ℚ) : ℤ :=
  let f := ⌊m⌋
  let r := m - (f : ℚ)
  if r < 1 / 2 then f else if 1 / 2 < r then f + 1 else if f % 2 = 0 then f else f + 1

/-- The `float` nearest to `x`: rounding to 24 significant bits, ties to
even, as IEEE 754 binary32 does in its normal range.  The exponent range is
not bounded; every value that the letterbox block computes from sizes of at
least 1 lies in the normal range. -/
def roundF32 (x : ℚ) : ℚ :=
  if x = 0 then 0
  else
    let q : ℚ := (2 : ℚ) ^ (binExponent x - 23)
    (roundHalfEven (x / q) : ℚ) * q

/-! ### The letterbox block -/

/-- The letterbox block of `Detect`: the scale and the resized `w`, `h`.
The `int` operands are converted to `float`, and the quotient
`(float)target_size / w` and the product `h * scale` are each rounded to
`float` before the product is truncated to `int`.  A bitmap has a width and
a height of at least 1; for a size of 0 the divisor is 0 and the `float` of
the code is infinite, which this definition does not follow. -/
def letterbox (width height : ℤ) : ℚ × ℤ × ℤ :=
  let target_size : ℤ := 640
  if width > height then
    let scale := roundF32 (roundF32 (target_size : ℚ) / roundF32 (width : ℚ))
    (scale, target_size, truncToInt (roundF32 (roundF32 (height : ℚ) * scale)))
  else
    let scale := roundF32 (roundF32 (target_size : ℚ) / roundF32 (height : ℚ))
    (scale, truncToInt (roundF32 (roundF32 (width : ℚ) * scale)), target_size)

/-- The padding `(d + 31) / 32 * 32 - d` of `Detect` for a resized dimension. -/
def padOf (d : ℤ) : ℤ := (d + 31).tdiv 32 * 32 - d

/-- The two border amounts passed to `copy_make_border` on one axis:
`pad / 2` and `pad - pad / 2`. -/
def padHalves (pad : ℤ) : ℤ × ℤ := (pad.tdiv 2, pad - pad.tdiv 2)

/-- The offset-and-scale part of the remapping loop of `Detect`: the four
corner coordinates before clipping. -/
def unpadBox (scale : ℚ) (wpad hpad : ℤ) (o : Object) : ℚ × ℚ × ℚ × ℚ :=
  let x0 := (o.x - ((wpad.tdiv 2 : ℤ) : ℚ)) / scale
  let y0 := (o.y - ((hpad.tdiv 2 : ℤ) : ℚ)) / scale
  let x1 := (o.x + o.w - ((wpad.tdiv 2 : ℤ) : ℚ)) / scale
  let y1 := (o.y + o.h - ((hpad.tdiv 2 : ℤ) : ℚ)) / scale
  (x0, y0, x1, y1)

/-- The clip `std::max(std::min(v, (float)(dim - 1)), 0.f)`. -/
def clipCoord (v : ℚ) (dim : ℤ) : ℚ := max (min v (((dim - 1 : ℤ)) : ℚ)) 0

/-- The body of the remapping loop of `Detect` for one kept candidate. -/
def remapBox (scale : ℚ) (wpad hpad width height : ℤ) (o : Object) : Object :=
  let c := unpadBox scale wpad hpad o
  let x0 := clipCoord c.1 width
  let y0 := clipCoord c.2.1 height
  let x1 := clipCoord c.2.2.1 width
  let y1 := clipCoord c.2.2.2 height
  { o with x := x0, y := y0, w := x1 - x0, h := y1 - y0 }

/-- The block of `Detect` after the three decoder calls: sort, suppress,
then copy and remap every picked candidate. -/
def rankSuppressRemap (proposals : List Object) (nms_threshold scale : ℚ)
    (wpad hpad width height : ℤ) : Option (List Object) :=
  match qsort_descent_inplace proposals with
  | none => none
  | some sorted =>
    let picked := nms_sorted_bboxes sorted nms_threshold
    some (picked.map fun k => remapBox scale wpad hpad width height (sorted.getD k Object.zero))

/-- The dimensions of the output of `ncnn::copy_make_border` (a library call
outside this repository) for a `w` x `h` image with 3 channels: the borders
are added on each axis.  The decoder reads only `w` and `h` of `in_pad`. -/
def copy_make_border (w h top bottom left right : ℤ) : Mat :=
  { w := w + left + right, h := h + top + bottom, c := 3, elem := fun _ _ _ => 0 }

/-- The anchor table of `Detect` for the stride 8. -/
def anchors8 : List ℚ := [10, 13, 16, 30, 33, 23]

/-- The anchor table of `Detect` for the stride 16. -/
def anchors16 : List ℚ := [30, 61, 62, 45, 59, 119]

/-- The anchor table of `Detect` for the stride 32. -/
def anchors32 : List ℚ := [116, 90, 156, 198, 373, 326]

/-- The value of `ANDROID_BITMAP_FORMAT_RGBA_8888` in the NDK header
`android/bitmap.h`. -/
def ANDROID_BITMAP_FORMAT_RGBA_8888 : ℤ := 1

/-- How a request ends when it does not deliver a list. -/
inductive Fault where
  | nullResult
  | undefinedBehaviour
  deriving DecidableEq

/-- The three decoder calls of `Detect`, each into a fresh vector that is
then appended to `proposals`. -/
def decodeAll (sig : ℚ → ℚ) (in_pad out8 out16 out32 : Mat) (prob_threshold : ℚ) :
    Option (List Object) :=
  match generate_proposals sig anchors8 8 in_pad out8 prob_threshold [] with
  | none => none
  | some objects8 =>
    match generate_proposals sig anchors16 16 in_pad out16 prob_threshold [] with
    | none => none
    | some objects16 =>
      match generate_proposals sig anchors32 32 in_pad out32 prob_threshold [] with
      | none => none
      | some objects32 => some (([] ++ objects8) ++ objects16 ++ objects32)

/-- Source `Java_com_example_ncnnyolov5_YOLOv5_Detect`, from the request
checks to the vector `objects`.  The bitmap contributes its `width`, `height`
and `format`; the three output tensors of the network are inputs. -/
def Detect (sig : ℚ → ℚ) (use_gpu : Bool) (gpu_count : ℤ) (format width height : ℤ)
    (out8 out16 out32 : Mat) : Except Fault (List Object) :=
  if use_gpu = true ∧ gpu_count = 0 then .error .nullResult
  else if format ≠ ANDROID_BITMAP_FORMAT_RGBA_8888 then .error .nullResult
  else
    let lb := letterbox width height
    let scale := lb.1
    let w := lb.2.1
    let h := lb.2.2
    let wpad := padOf w
    let hpad := padOf h
    let in_pad := copy_make_border w h (padHalves hpad).1 (padHalves hpad).2
      (padHalves wpad).1 (padHalves wpad).2
    let prob_threshold : ℚ := 25 / 100
    let nms_threshold : ℚ := 45 / 100
    match decodeAll sig in_pad out8 out16 out32 prob_threshold with
    | none => .error .undefinedBehaviour
    | some proposals =>
      match rankSuppressRemap proposals nms_threshold scale wpad hpad width height with
      | none => .error .undefinedBehaviour
      | some objects => .ok objects

/-- The resized shorter side of the letterbox block: `h` when `width > height`,
else `w`. -/
def resizedShort (width height : ℤ) : ℤ :=
  if width > height then (letterbox width height).2.2 else (letterbox width height).2.1

/-! ## Definitions used to state the properties -/

/-- The element at a C `int` index, `Object.zero` outside the vector. -/
def objAt (v : List Object) (m : ℤ) : Object := v.getD m.toNat Object.zero

/-- The vector `v'` keeps the length of `v`, is a permutation of it, agrees
with it outside the index range `left .. right`, and every property shared by
the elements of `v` in the range is shared by those of `v'`. -/
def RangePerm (v v' : List Object) (left right : ℤ) : Prop :=
  v'.length = v.length ∧ v'.Perm v ∧
  (∀ m : ℤ, 0 ≤ m → (m < left ∨ right < m) → objAt v' m = objAt v m) ∧
  (∀ P : Object → Prop, (∀ m : ℤ, left ≤ m → m ≤ right → P (objAt v m)) →
    ∀ m : ℤ, left ≤ m → m ≤ right → P (objAt v' m))

/-- The overlap test of `nms_sorted_bboxes` on two records: the float test
`inter_area / union_area > nms_threshold` with `union_area` the sum of the two
areas less the intersection. -/
def exceedsObj (a b : Object) (nms_threshold : ℚ) : Bool :=
  divGt (intersection_area a b) (a.w * a.h + b.w * b.h - intersection_area a b) nms_threshold

/-- Intersection over union of two boxes (0 when the union area is 0). -/
def IoU (a b : Object) : ℚ :=
  intersection_area a b / (a.w * a.h + b.w * b.h - intersection_area a b)

/-- The vector `picked` after the outer loop of `nms_sorted_bboxes` has run
for `i = 0 .. k-1`. -/
def nmsPrefix (faceobjects : List Object) (nms_threshold : ℚ) (k : ℕ) : List ℕ :=
  (List.range k).foldl (nmsStep faceobjects nms_threshold) []

/-- Three candidates in descending order of confidence: the second overlaps
the first with IoU 6/10, the third overlaps neither. -/
def nmsExample : List Object :=
  [⟨0, 0, 10, 10, 0, 9 / 10⟩, ⟨0, 0, 6, 10, 0, 6 / 10⟩, ⟨100, 100, 5, 5, 1, 5 / 10⟩]

/-- A rational function used in place of `sigmoid` in concrete examples; its
value at 0 is 1/2, at 9 it is 19/20 and at 17/2 it is 18/19. -/
def sigStandIn (x : ℚ) : ℚ := 1 / 2 + x / (2 * (1 + |x|))

/-- The row of a cell whose four box entries are 0, with objectness 9 and a
single class score 17/2. -/
def decodeExampleRow (k : ℕ) : ℚ := if k = 4 then 9 else if k = 5 then 17 / 2 else 0

/-- The cells decoded by the three loops for one call, in loop order. -/
def cellBoxes (sig : ℚ → ℚ) (anchors : List ℚ) (stride : ℤ) (feat_blob : Mat)
    (prob_threshold : ℚ) (num_grid_x num_grid_y : ℤ) : List Object :=
  (List.range ((anchors.length : ℤ).tdiv 2).toNat).flatMap fun q =>
    (List.range num_grid_y.toNat).flatMap fun i =>
      (List.range num_grid_x.toNat).flatMap fun j =>
        decodeCell sig (anchors.getD (q * 2) 0) (anchors.getD (q * 2 + 1) 0) stride
          (feat_blob.w - 5) prob_threshold
          (feat_blob.elem q (((i : ℤ) * num_grid_x + (j : ℤ)).toNat)) i j []

/-- The Detection of a cell in the words of the specification: size from the
anchor, corner from the cell centre less half the size. -/
def specBox (sig : ℚ → ℚ) (anchor_w anchor_h : ℚ) (stride : ℤ) (featptr : ℕ → ℚ) (i j : ℕ)
    (label : ℤ) (prob : ℚ) : Object :=
  { x := (2 * sig (featptr 0) - 1 / 2 + (j : ℚ)) * (stride : ℚ)
      - (2 * sig (featptr 2)) ^ 2 * anchor_w / 2,
    y := (2 * sig (featptr 1) - 1 / 2 + (i : ℚ)) * (stride : ℚ)
      - (2 * sig (featptr 3)) ^ 2 * anchor_h / 2,
    w := (2 * sig (featptr 2)) ^ 2 * anchor_w,
    h := (2 * sig (featptr 3)) ^ 2 * anchor_h,
    label := label,
    prob := prob }

/-- The confidence of a cell: `sigmoid(box_score) * sigmoid(class_score)`. -/
def cellConfidence (sig : ℚ → ℚ) (featptr : ℕ → ℚ) (num_class : ℤ) : ℚ :=
  sig (featptr 4) * sig (classLoop featptr num_class).2

/-- The kept candidates: the copies `objects[i] = proposals[picked[i]]` of the
picked entries of the sorted vector, before they are remapped. -/
def keptCandidates (sorted : List Object) (nms_threshold : ℚ) : List Object :=
  (nms_sorted_bboxes sorted nms_threshold).map fun k => sorted.getD k Object.zero

/-- Rank & Suppress: `qsort_descent_inplace` followed by `nms_sorted_bboxes`,
returning the kept candidates. -/
def rankSuppress (proposals : List Object) (nms_threshold : ℚ) : Option (List Object) :=
  match qsort_descent_inplace proposals with
  | none => none
  | some sorted => some (keptCandidates sorted nms_threshold)

/-- The `in_pad` of `Detect` for an original image size. -/
def inPadOf (width height : ℤ) : Mat :=
  copy_make_border (letterbox width height).2.1 (letterbox width height).2.2
    (padHalves (padOf (letterbox width height).2.2)).1
    (padHalves (padOf (letterbox width height).2.2)).2
    (padHalves (padOf (letterbox width height).2.1)).1
    (padHalves (padOf (letterbox width height).2.1)).2

/-- The remapping of `Detect` for an original image size. -/
def remapOf (width height : ℤ) (o : Object) : Object :=
  remapBox (letterbox width height).1 (padOf (letterbox width height).2.1)
    (padOf (letterbox width height).2.2) width height o

/-- The remapped box without the clip: offset and scale only. -/
def unpadObject (scale : ℚ) (wpad hpad : ℤ) (o : Object) : Object :=
  let c := unpadBox scale wpad hpad o
  { o with x := c.1, y := c.2.1, w := c.2.2.1 - c.1, h := c.2.2.2 - c.2.1 }

/-- The unclipped remapping for an original image size. -/
def unpadOf (width height : ℤ) (o : Object) : Object :=
  unpadObject (letterbox width height).1 (padOf (letterbox width height).2.1)
    (padOf (letterbox width height).2.2) o

/-- The box lies in `[0, width-1] x [0, height-1]` and has non-negative
size. -/
def InImage (width height : ℤ) (o : Object) : Prop :=
  0 ≤ o.x ∧ 0 ≤ o.y ∧ 0 ≤ o.w ∧ 0 ≤ o.h ∧
  o.x + o.w ≤ (width : ℚ) - 1 ∧ o.y + o.h ≤ (height : ℚ) - 1

/-- An output tensor with 80 classes and `h` grid cells per anchor in which
no cell is active: objectness -100, every other entry 0. -/
def quietBlob (h : ℤ) : Mat :=
  { w := 85, h := h, c := 3, elem := fun _ _ k => if k = 4 then -100 else 0 }

/-- A stride-32 output tensor for a 640 x 640 padded input (20 x 20 grid, 80
classes) with two active cells, objectness 0: anchor 1 at grid row 2, column
2 and anchor 2 at grid row 0, column 0.  Elsewhere the objectness is -100;
every other entry is 0. -/
def overlapBlob32 : Mat :=
  { w := 85, h := 400, c := 3,
    elem := fun q r k =>
      if k = 4 then (if (q = 1 ∧ r = 42) ∨ (q = 2 ∧ r = 0) then 0 else -100) else 0 }

/-- Two candidates of area 0 at the same point. -/
def degenerateExample : List Object := [⟨0, 0, 0, 0, 0, 1 / 2⟩, ⟨0, 0, 0, 0, 0, 1 / 2⟩]

/-- The read `v[i]` checked against the index range `lo .. hi` of the current
call of the sort: `none` when `i` lies outside the range. -/
def vecGetIn (lo hi : ℤ) (v : List Object) (i : ℤ) : Option Object :=
  if lo ≤ i ∧ i ≤ hi then vecGet v i else none

/-- The loop of `scanUp` with every read checked against `lo .. hi`. -/
def scanUpIn (lo hi : ℤ) (v : List Object) (p : ℚ) : ℕ → ℤ → Option ℤ
  | 0, _ => none
  | fuel + 1, i =>
    match vecGetIn lo hi v i with
    | none => none
    | some o => if o.prob > p then scanUpIn lo hi v p fuel (i + 1) else some i

/-- The loop of `scanDown` with every read checked against `lo .. hi`. -/
def scanDownIn (lo hi : ℤ) (v : List Object) (p : ℚ) : ℕ → ℤ → Option ℤ
  | 0, _ => none
  | fuel + 1, j =>
    match vecGetIn lo hi v j with
    | none => none
    | some o => if o.prob < p then scanDownIn lo hi v p fuel (j - 1) else some j

/-- The partition loop with the reads of its two scanning loops checked
against `lo .. hi`. -/
def partitionLoopIn (lo hi : ℤ) (p : ℚ) :
    ℕ → List Object → ℤ → ℤ → Option (List Object × ℤ × ℤ)
  | 0, _, _, _ => none
  | fuel + 1, v, i, j =>
    if i ≤ j then
      match scanUpIn lo hi v p (v.length + 1) i with
      | none => none
      | some i1 =>
        match scanDownIn lo hi v p (v.length + 1) j with
        | none => none
        | some j1 =>
          if i1 ≤ j1 then
            match vecSwap v i1 j1 with
            | none => none
            | some v1 => partitionLoopIn lo hi p fuel v1 (i1 + 1) (j1 - 1)
          else partitionLoopIn lo hi p fuel v i1 j1
    else some (v, i, j)

/-- The recursive sort with its checks: the scanning loops may read only
inside `left .. right`, and a recursive call must be on a non-empty range
strictly inside the current one (`left < j < right`, `left < i < right`);
a violated check gives `none`. -/
def qsortRangeIn : ℕ → List Object → ℤ → ℤ → Option (List Object)
  | 0, _, _, _ => none
  | fuel + 1, v, left, right =>
    match vecGet v ((left + right).tdiv 2) with
    | none => none
    | some mid =>
      match partitionLoopIn left right mid.prob (v.length + 1) v left right with
      | none => none
      | some (v1, i, j) =>
        match (if left < j then
            (if j < right then qsortRangeIn fuel v1 left j else none) else some v1) with
        | none => none
        | some v2 =>
          if i < right then
            (if left < i then qsortRangeIn fuel v2 i right else none)
          else some v2

/-! # Properties -/

/-! ## Rounding to `float` -/

theorem log2Aux_spec :
    ∀ (fuel n : ℕ), 1 ≤ n → n ≤ fuel →
      2 ^ log2Aux fuel n ≤ n ∧ n < 2 ^ (log2Aux fuel n + 1) := by
  intro fuel
  induction fuel with
  | zero => intro n h1 h2; omega
  | succ fuel ih =>
    intro n h1 h2
    unfold log2Aux
    by_cases h : n < 2
    · rw [if_pos h]
      have : n = 1 := by omega
      subst this
      simp
    · rw [if_neg h]
      obtain ⟨a, b⟩ := ih (n / 2) (by omega) (by omega)
      rw [pow_succ] at b
      constructor
      · rw [pow_succ]; omega
      · rw [pow_succ, pow_succ]; omega

theorem natLog2_spec (n : ℕ) (h : 1 ≤ n) :
    2 ^ natLog2 n ≤ n ∧ n < 2 ^ (natLog2 n + 1) :=
  log2Aux_spec n n h (le_refl n)

theorem binExponent_le (x : ℚ) (hx : 0 < x) : (2 : ℚ) ^ binExponent x ≤ x := by
  unfold binExponent
  simp only
  by_cases h : (2 : ℚ) ^ ((natLog2 x.num.natAbs : ℤ) - (natLog2 x.den : ℤ)) ≤ |x|
  · rw [if_pos h]
    rwa [abs_of_pos hx] at h
  · rw [if_neg h]
    have hnum : 0 < x.num := Rat.num_pos.mpr hx
    have hn1 : 1 ≤ x.num.natAbs := by omega
    have hd1 : 1 ≤ x.den := x.den_pos
    obtain ⟨n1, _⟩ := natLog2_spec x.num.natAbs hn1
    obtain ⟨_, d2⟩ := natLog2_spec x.den hd1
    have hn : ((2 : ℚ) ^ natLog2 x.num.natAbs) ≤ (x.num.natAbs : ℚ) := by exact_mod_cast n1
    have hd : (x.den : ℚ) < (2 : ℚ) ^ (natLog2 x.den + 1) := by exact_mod_cast d2
    have hxeq : x = (x.num.natAbs : ℚ) / (x.den : ℚ) := by
      have e : (x.num.natAbs : ℚ) = (x.num : ℚ) := by
        have h' : (x.num.natAbs : ℤ) = x.num := Int.natAbs_of_nonneg (le_of_lt hnum)
        calc (x.num.natAbs : ℚ) = ((x.num.natAbs : ℤ) : ℚ) := (Int.cast_natCast _).symm
          _ = (x.num : ℚ) := by rw [h']
      rw [e]
      exact (Rat.num_div_den x).symm
    have hdpos : (0 : ℚ) < (x.den : ℚ) := by exact_mod_cast x.den_pos
    have e2 : (2 : ℚ) ^ ((natLog2 x.num.natAbs : ℤ) - (natLog2 x.den : ℤ) - 1) =
        (2 : ℚ) ^ natLog2 x.num.natAbs / (2 : ℚ) ^ (natLog2 x.den + 1) := by
      rw [show ((natLog2 x.num.natAbs : ℤ) - (natLog2 x.den : ℤ) - 1) =
        (natLog2 x.num.natAbs : ℤ) - ((natLog2 x.den + 1 : ℕ) : ℤ) by push_cast; ring]
      rw [zpow_sub₀ (by norm_num : (2 : ℚ) ≠ 0), zpow_natCast, zpow_natCast]
    rw [e2]
    conv_rhs => rw [hxeq]
    exact div_le_div₀ (by positivity) hn hdpos (le_of_lt hd)

theorem roundHalfEven_err (m : ℚ) : |((roundHalfEven m : ℤ) : ℚ) - m| ≤ 1 / 2 := by
  have h1 : ((⌊m⌋ : ℤ) : ℚ) ≤ m := Int.floor_le m
  have h2 : m < ((⌊m⌋ : ℤ) : ℚ) + 1 := Int.lt_floor_add_one m
  unfold roundHalfEven
  simp only
  rw [abs_le]
  split_ifs with a b c
  · constructor <;> linarith
  · push_cast; constructor <;> linarith
  · have : m - ((⌊m⌋ : ℤ) : ℚ) = 1 / 2 := le_antisymm (not_lt.mp b) (not_lt.mp a)
    constructor <;> linarith
  · have : m - ((⌊m⌋ : ℤ) : ℚ) = 1 / 2 := le_antisymm (not_lt.mp b) (not_lt.mp a)
    push_cast; constructor <;> linarith

theorem roundF32_err (x : ℚ) (hx : 0 < x) : |roundF32 x - x| ≤ x / 2 ^ 24 := by
  unfold roundF32
  rw [if_neg (ne_of_gt hx)]
  simp only
  have hq : (0 : ℚ) < (2 : ℚ) ^ (binExponent x - 23) := by positivity
  have he := roundHalfEven_err (x / (2 : ℚ) ^ (binExponent x - 23))
  have e1 : ((roundHalfEven (x / (2 : ℚ) ^ (binExponent x - 23)) : ℤ) : ℚ) *
      (2 : ℚ) ^ (binExponent x - 23) - x =
      (((roundHalfEven (x / (2 : ℚ) ^ (binExponent x - 23)) : ℤ) : ℚ) -
        x / (2 : ℚ) ^ (binExponent x - 23)) * (2 : ℚ) ^ (binExponent x - 23) := by
    field_simp
  rw [e1, abs_mul, abs_of_pos hq]
  have e2 : (2 : ℚ) ^ (binExponent x - 23) = (2 : ℚ) ^ binExponent x / 2 ^ 23 := by
    rw [zpow_sub₀ (by norm_num : (2 : ℚ) ≠ 0)]
    norm_num
  have hb := binExponent_le x hx
  calc |((roundHalfEven (x / (2 : ℚ) ^ (binExponent x - 23)) : ℤ) : ℚ) -
          x / (2 : ℚ) ^ (binExponent x - 23)| * (2 : ℚ) ^ (binExponent x - 23)
      ≤ 1 / 2 * (2 : ℚ) ^ (binExponent x - 23) :=
        mul_le_mul_of_nonneg_right he (le_of_lt hq)
    _ = (2 : ℚ) ^ binExponent x / 2 ^ 24 := by rw [e2]; ring
    _ ≤ x / 2 ^ 24 := div_le_div_of_nonneg_right hb (by positivity)

theorem roundF32_bounds (x : ℚ) (hx : 0 < x) :
    x * (1 - 1 / 2 ^ 24) ≤ roundF32 x ∧ roundF32 x ≤ x * (1 + 1 / 2 ^ 24) ∧ 0 < roundF32 x := by
  have h := abs_le.mp (roundF32_err x hx)
  have e : x / 2 ^ 24 = x * (1 / 2 ^ 24) := by ring
  rw [e] at h
  refine ⟨by linarith, by linarith, ?_⟩
  have : x * (1 / 2 ^ 24) < x := by
    have : (1 : ℚ) / 2 ^ 24 < 1 := by norm_num
    nlinarith
  linarith

theorem float_product_close (d M a b s p : ℚ) (hd : 1 ≤ d) (hdM : d ≤ M)
    (ha1 : d * (1 - 1 / 2 ^ 24) ≤ a) (ha2 : a ≤ d * (1 + 1 / 2 ^ 24))
    (hb1 : M * (1 - 1 / 2 ^ 24) ≤ b) (hb2 : b ≤ M * (1 + 1 / 2 ^ 24))
    (hs1 : 640 / b * (1 - 1 / 2 ^ 24) ≤ s) (hs2 : s ≤ 640 / b * (1 + 1 / 2 ^ 24))
    (hp1 : a * s * (1 - 1 / 2 ^ 24) ≤ p) (hp2 : p ≤ a * s * (1 + 1 / 2 ^ 24)) :
    |p - 640 * d / M| ≤ 1 / 4096 ∧
    640 / M * (1 - 1 / 2 ^ 22) ≤ s ∧ s ≤ 640 / M * (1 + 1 / 2 ^ 22) ∧ 0 < s ∧ 0 < p := by
  have hM : 0 < M := by linarith
  have hu1 : (0 : ℚ) < 1 - 1 / 2 ^ 24 := by norm_num
  have hu2 : (0 : ℚ) < 1 + 1 / 2 ^ 24 := by norm_num
  have hbpos : 0 < b := lt_of_lt_of_le (mul_pos hM hu1) hb1
  have hapos : 0 < a := lt_of_lt_of_le (mul_pos (by linarith) hu1) ha1
  have htpos : 0 < 640 / b := by positivity
  have hspos : 0 < s := lt_of_lt_of_le (mul_pos htpos hu1) hs1
  have hppos : 0 < p := lt_of_lt_of_le (mul_pos (mul_pos hapos hspos) hu1) hp1
  -- s * b against 640
  have hsb1 : 640 * (1 - 1 / 2 ^ 24) ≤ s * b := by
    have := mul_le_mul_of_nonneg_right hs1 (le_of_lt hbpos)
    have e : 640 / b * (1 - 1 / 2 ^ 24) * b = 640 * (1 - 1 / 2 ^ 24) := by
      field_simp
      ring
    rw [e] at this
    exact this
  have hsb2 : s * b ≤ 640 * (1 + 1 / 2 ^ 24) := by
    have := mul_le_mul_of_nonneg_right hs2 (le_of_lt hbpos)
    have e : 640 / b * (1 + 1 / 2 ^ 24) * b = 640 * (1 + 1 / 2 ^ 24) := by
      field_simp
      ring
    rw [e] at this
    exact this
  -- s * M against 640
  have hsM2 : s * M * (1 - 1 / 2 ^ 24) ≤ 640 * (1 + 1 / 2 ^ 24) := by
    have := mul_le_mul_of_nonneg_left hb1 (le_of_lt hspos)
    calc s * M * (1 - 1 / 2 ^ 24) = s * (M * (1 - 1 / 2 ^ 24)) := by ring
      _ ≤ s * b := this
      _ ≤ _ := hsb2
  have hsM1 : 640 * (1 - 1 / 2 ^ 24) ≤ s * M * (1 + 1 / 2 ^ 24) := by
    have := mul_le_mul_of_nonneg_left hb2 (le_of_lt hspos)
    calc 640 * (1 - 1 / 2 ^ 24) ≤ s * b := hsb1
      _ ≤ s * (M * (1 + 1 / 2 ^ 24)) := this
      _ = s * M * (1 + 1 / 2 ^ 24) := by ring
  -- the scale
  have hsc1 : 640 / M * (1 - 1 / 2 ^ 22) ≤ s := by
    rw [div_mul_eq_mul_div, div_le_iff₀ hM]
    nlinarith
  have hsc2 : s ≤ 640 / M * (1 + 1 / 2 ^ 22) := by
    rw [div_mul_eq_mul_div, le_div_iff₀ hM]
    nlinarith
  -- the product
  have hE : 640 * d / M * M = 640 * d := by field_simp
  have hE0 : 0 ≤ 640 * d / M := by positivity
  have hE640 : 640 * d / M ≤ 640 := by
    rw [div_le_iff₀ hM]
    nlinarith
  have hp2' : p ≤ d * s * (1 + 1 / 2 ^ 24) ^ 2 := by
    have h1 : a * s ≤ d * (1 + 1 / 2 ^ 24) * s :=
      mul_le_mul_of_nonneg_right ha2 (le_of_lt hspos)
    have h2 := mul_le_mul_of_nonneg_right h1 (le_of_lt hu2)
    calc p ≤ a * s * (1 + 1 / 2 ^ 24) := hp2
      _ ≤ d * (1 + 1 / 2 ^ 24) * s * (1 + 1 / 2 ^ 24) := h2
      _ = d * s * (1 + 1 / 2 ^ 24) ^ 2 := by ring
  have hp1' : d * s * (1 - 1 / 2 ^ 24) ^ 2 ≤ p := by
    have h1 : d * (1 - 1 / 2 ^ 24) * s ≤ a * s :=
      mul_le_mul_of_nonneg_right ha1 (le_of_lt hspos)
    have h2 := mul_le_mul_of_nonneg_right h1 (le_of_lt hu1)
    calc d * s * (1 - 1 / 2 ^ 24) ^ 2 = d * (1 - 1 / 2 ^ 24) * s * (1 - 1 / 2 ^ 24) := by ring
      _ ≤ a * s * (1 - 1 / 2 ^ 24) := h2
      _ ≤ p := hp1
  have hd0 : 0 ≤ d := by linarith
  -- p * M * (1 - u) ≤ 640 d (1 + u)^3
  have hup : p * M * (1 - 1 / 2 ^ 24) ≤ 640 * d / M * M * (1 + 1 / 2 ^ 24) ^ 3 := by
    rw [hE]
    have h1 := mul_le_mul_of_nonneg_right hp2' (le_of_lt (mul_pos hM hu1))
    have h2 : d * (1 + 1 / 2 ^ 24) ^ 2 * (s * M * (1 - 1 / 2 ^ 24)) ≤
        d * (1 + 1 / 2 ^ 24) ^ 2 * (640 * (1 + 1 / 2 ^ 24)) :=
      mul_le_mul_of_nonneg_left hsM2 (by positivity)
    calc p * M * (1 - 1 / 2 ^ 24) = p * (M * (1 - 1 / 2 ^ 24)) := by ring
      _ ≤ d * s * (1 + 1 / 2 ^ 24) ^ 2 * (M * (1 - 1 / 2 ^ 24)) := h1
      _ = d * (1 + 1 / 2 ^ 24) ^ 2 * (s * M * (1 - 1 / 2 ^ 24)) := by ring
      _ ≤ d * (1 + 1 / 2 ^ 24) ^ 2 * (640 * (1 + 1 / 2 ^ 24)) := h2
      _ = 640 * d * (1 + 1 / 2 ^ 24) ^ 3 := by ring
  have hlo : 640 * d / M * M * (1 - 1 / 2 ^ 24) ^ 3 ≤ p * M * (1 + 1 / 2 ^ 24) := by
    rw [hE]
    have h1 := mul_le_mul_of_nonneg_right hp1' (le_of_lt (mul_pos hM hu2))
    have h2 : d * (1 - 1 / 2 ^ 24) ^ 2 * (640 * (1 - 1 / 2 ^ 24)) ≤
        d * (1 - 1 / 2 ^ 24) ^ 2 * (s * M * (1 + 1 / 2 ^ 24)) :=
      mul_le_mul_of_nonneg_left hsM1 (by positivity)
    calc 640 * d * (1 - 1 / 2 ^ 24) ^ 3 = d * (1 - 1 / 2 ^ 24) ^ 2 * (640 * (1 - 1 / 2 ^ 24)) := by
          ring
      _ ≤ d * (1 - 1 / 2 ^ 24) ^ 2 * (s * M * (1 + 1 / 2 ^ 24)) := h2
      _ = d * s * (1 - 1 / 2 ^ 24) ^ 2 * (M * (1 + 1 / 2 ^ 24)) := by ring
      _ ≤ p * (M * (1 + 1 / 2 ^ 24)) := h1
      _ = p * M * (1 + 1 / 2 ^ 24) := by ring
  have hup' : p * (1 - 1 / 2 ^ 24) ≤ 640 * d / M * (1 + 1 / 2 ^ 24) ^ 3 := by
    have : p * (1 - 1 / 2 ^ 24) * M ≤ 640 * d / M * (1 + 1 / 2 ^ 24) ^ 3 * M := by
      calc p * (1 - 1 / 2 ^ 24) * M = p * M * (1 - 1 / 2 ^ 24) := by ring
        _ ≤ 640 * d / M * M * (1 + 1 / 2 ^ 24) ^ 3 := hup
        _ = 640 * d / M * (1 + 1 / 2 ^ 24) ^ 3 * M := by ring
    exact le_of_mul_le_mul_right this hM
  have hlo' : 640 * d / M * (1 - 1 / 2 ^ 24) ^ 3 ≤ p * (1 + 1 / 2 ^ 24) := by
    have : 640 * d / M * (1 - 1 / 2 ^ 24) ^ 3 * M ≤ p * (1 + 1 / 2 ^ 24) * M := by
      calc 640 * d / M * (1 - 1 / 2 ^ 24) ^ 3 * M = 640 * d / M * M * (1 - 1 / 2 ^ 24) ^ 3 := by
            ring
        _ ≤ p * M * (1 + 1 / 2 ^ 24) := hlo
        _ = p * (1 + 1 / 2 ^ 24) * M := by ring
    exact le_of_mul_le_mul_right this hM
  refine ⟨?_, hsc1, hsc2, hspos, hppos⟩
  rw [abs_le]
  generalize 640 * d / M = E at hE0 hE640 hup' hlo'
  norm_num at hup' hlo' ⊢
  constructor <;> linarith

/-! ## Letterbox geometry -/

theorem truncToInt_of_nonneg {q : ℚ} (hq : 0 ≤ q) : truncToInt q = ⌊q⌋ := by
  unfold truncToInt
  rw [Rat.floor_def, Int.tdiv_eq_ediv (Rat.num_nonneg.mpr hq) (by positivity)]

theorem truncToInt_intCast (n : ℤ) : truncToInt (n : ℚ) = n := by
  unfold truncToInt
  simp

theorem binExponent_lt (x : ℚ) (hx : 0 < x) : x < (2 : ℚ) ^ (binExponent x + 1) := by
  unfold binExponent
  simp only
  by_cases h : (2 : ℚ) ^ ((natLog2 x.num.natAbs : ℤ) - (natLog2 x.den : ℤ)) ≤ |x|
  · rw [if_pos h]
    have hnum : 0 < x.num := Rat.num_pos.mpr hx
    have hn1 : 1 ≤ x.num.natAbs := by omega
    have hd1 : 1 ≤ x.den := x.den_pos
    obtain ⟨_, n2⟩ := natLog2_spec x.num.natAbs hn1
    obtain ⟨d1, _⟩ := natLog2_spec x.den hd1
    have hn : (x.num.natAbs : ℚ) < (2 : ℚ) ^ (natLog2 x.num.natAbs + 1) := by exact_mod_cast n2
    have hd : (2 : ℚ) ^ natLog2 x.den ≤ (x.den : ℚ) := by exact_mod_cast d1
    have hxeq : x = (x.num.natAbs : ℚ) / (x.den : ℚ) := by
      have e : (x.num.natAbs : ℚ) = (x.num : ℚ) := by
        have h' : (x.num.natAbs : ℤ) = x.num := Int.natAbs_of_nonneg (le_of_lt hnum)
        calc (x.num.natAbs : ℚ) = ((x.num.natAbs : ℤ) : ℚ) := (Int.cast_natCast _).symm
          _ = (x.num : ℚ) := by rw [h']
      rw [e]
      exact (Rat.num_div_den x).symm
    have e2 : (2 : ℚ) ^ ((natLog2 x.num.natAbs : ℤ) - (natLog2 x.den : ℤ) + 1) =
        (2 : ℚ) ^ (natLog2 x.num.natAbs + 1) / (2 : ℚ) ^ natLog2 x.den := by
      rw [show ((natLog2 x.num.natAbs : ℤ) - (natLog2 x.den : ℤ) + 1) =
        ((natLog2 x.num.natAbs + 1 : ℕ) : ℤ) - ((natLog2 x.den : ℕ) : ℤ) by push_cast; ring]
      rw [zpow_sub₀ (by norm_num : (2 : ℚ) ≠ 0), zpow_natCast, zpow_natCast]
    rw [e2]
    conv_lhs => rw [hxeq]
    have hpos : (0 : ℚ) < (2 : ℚ) ^ natLog2 x.den := by positivity
    calc (x.num.natAbs : ℚ) / (x.den : ℚ)
        ≤ (x.num.natAbs : ℚ) / (2 : ℚ) ^ natLog2 x.den :=
          div_le_div_of_nonneg_left (by positivity) hpos hd
      _ < (2 : ℚ) ^ (natLog2 x.num.natAbs + 1) / (2 : ℚ) ^ natLog2 x.den :=
          div_lt_div_of_pos_right hn hpos
  · rw [if_neg h]
    rw [abs_of_pos hx] at h
    rw [sub_add_cancel]
    exact not_le.mp h

theorem roundF32_examples :
    roundF32 640 = 640 ∧ roundF32 (1 / 10) = 13421773 / 134217728 ∧
    roundF32 16777217 = 16777216 ∧ roundF32 16777219 = 16777220 ∧
    roundF32 (640 / 610) = 4400581 / 4194304 := by
  decide!

theorem roundF32_target : roundF32 ((640 : ℤ) : ℚ) = 640 := by decide!

theorem letterbox_wide (width height : ℤ) (h : width > height) :
    letterbox width height =
      (roundF32 (640 / roundF32 (width : ℚ)), 640,
        truncToInt (roundF32 (roundF32 (height : ℚ) * roundF32 (640 / roundF32 (width : ℚ))))) := by
  unfold letterbox
  simp only [if_pos h, roundF32_target]

theorem letterbox_tall (width height : ℤ) (h : ¬ width > height) :
    letterbox width height =
      (roundF32 (640 / roundF32 (height : ℚ)),
        truncToInt (roundF32 (roundF32 (width : ℚ) * roundF32 (640 / roundF32 (height : ℚ)))),
        640) := by
  unfold letterbox
  simp only [if_neg h, roundF32_target]

theorem letterbox_core (d M : ℤ) (hd : 1 ≤ d) (hdM : d ≤ M) :
    |roundF32 (roundF32 (d : ℚ) * roundF32 (640 / roundF32 (M : ℚ))) - 640 * (d : ℚ) / (M : ℚ)|
      ≤ 1 / 4096 ∧
    640 / (M : ℚ) * (1 - 1 / 2 ^ 22) ≤ roundF32 (640 / roundF32 (M : ℚ)) ∧
    roundF32 (640 / roundF32 (M : ℚ)) ≤ 640 / (M : ℚ) * (1 + 1 / 2 ^ 22) ∧
    0 < roundF32 (640 / roundF32 (M : ℚ)) ∧
    0 < roundF32 (roundF32 (d : ℚ) * roundF32 (640 / roundF32 (M : ℚ))) := by
  have hdq : (1 : ℚ) ≤ (d : ℚ) := by exact_mod_cast hd
  have hdMq : (d : ℚ) ≤ (M : ℚ) := by exact_mod_cast hdM
  have hMq : (0 : ℚ) < (M : ℚ) := by linarith
  obtain ⟨a1, a2, a3⟩ := roundF32_bounds (d : ℚ) (by linarith)
  obtain ⟨b1, b2, b3⟩ := roundF32_bounds (M : ℚ) hMq
  obtain ⟨s1, s2, s3⟩ := roundF32_bounds (640 / roundF32 (M : ℚ)) (by positivity)
  obtain ⟨p1, p2, _⟩ := roundF32_bounds (roundF32 (d : ℚ) * roundF32 (640 / roundF32 (M : ℚ)))
    (mul_pos a3 s3)
  exact float_product_close (d : ℚ) (M : ℚ) (roundF32 (d : ℚ)) (roundF32 (M : ℚ))
    (roundF32 (640 / roundF32 (M : ℚ)))
    (roundF32 (roundF32 (d : ℚ) * roundF32 (640 / roundF32 (M : ℚ))))
    hdq hdMq a1 a2 b1 b2 s1 s2 p1 p2

theorem letterbox_scale_eq (width height : ℤ) :
    (letterbox width height).1 = roundF32 (640 / roundF32 ((max width height : ℤ) : ℚ)) := by
  by_cases h : width > height
  · rw [letterbox_wide width height h, max_eq_left (le_of_lt h)]
  · rw [letterbox_tall width height h, max_eq_right (not_lt.mp h)]

theorem resizedShort_eq (width height : ℤ) :
    resizedShort width height =
      truncToInt (roundF32 (roundF32 ((min width height : ℤ) : ℚ) *
        roundF32 (640 / roundF32 ((max width height : ℤ) : ℚ)))) := by
  unfold resizedShort
  by_cases h : width > height
  · rw [if_pos h, letterbox_wide width height h, max_eq_left (le_of_lt h),
      min_eq_right (le_of_lt h)]
  · rw [if_neg h, letterbox_tall width height h, max_eq_right (not_lt.mp h),
      min_eq_left (not_lt.mp h)]

theorem letterbox_scale_pos (width height : ℤ) (hw : 1 ≤ width) (hh : 1 ≤ height) :
    0 < (letterbox width height).1 := by
  rw [letterbox_scale_eq]
  exact (letterbox_core (max width height) (max width height) (by omega) (le_refl _)).2.2.2.1

theorem resizedShort_spec (width height : ℤ) (hw : 1 ≤ width) (hh : 1 ≤ height) :
    ⌊((min width height : ℤ) : ℚ) * 640 / ((max width height : ℤ) : ℚ) - 1 / 4096⌋
      ≤ resizedShort width height ∧
    resizedShort width height
      ≤ ⌊((min width height : ℤ) : ℚ) * 640 / ((max width height : ℤ) : ℚ) + 1 / 4096⌋ ∧
    0 ≤ resizedShort width height ∧ resizedShort width height ≤ 640 := by
  obtain ⟨c1, _, _, _, c5⟩ :=
    letterbox_core (min width height) (max width height) (by omega) (by omega)
  rw [resizedShort_eq, truncToInt_of_nonneg (le_of_lt c5)]
  have hab := abs_le.mp c1
  have hMq : (0 : ℚ) < ((max width height : ℤ) : ℚ) := by
    exact_mod_cast (by omega : (0 : ℤ) < max width height)
  have hmM : ((min width height : ℤ) : ℚ) ≤ ((max width height : ℤ) : ℚ) := by
    exact_mod_cast (by omega : min width height ≤ max width height)
  have hE : ((min width height : ℤ) : ℚ) * 640 / ((max width height : ℤ) : ℚ) ≤ 640 := by
    rw [div_le_iff₀ hMq]
    linarith
  have e : 640 * ((min width height : ℤ) : ℚ) / ((max width height : ℤ) : ℚ) =
      ((min width height : ℤ) : ℚ) * 640 / ((max width height : ℤ) : ℚ) := by ring
  rw [e] at hab
  refine ⟨Int.floor_le_floor (by linarith), Int.floor_le_floor (by linarith),
    Int.floor_nonneg.mpr (le_of_lt c5), ?_⟩
  have : ⌊roundF32 (roundF32 ((min width height : ℤ) : ℚ) *
      roundF32 (640 / roundF32 ((max width height : ℤ) : ℚ)))⌋ < 641 := by
    rw [Int.floor_lt]
    have e641 : ((641 : ℤ) : ℚ) = 641 := by norm_num
    rw [e641]
    linarith [hab.2]
  omega

theorem letterbox_resized_bounds (width height : ℤ) (hw : 1 ≤ width) (hh : 1 ≤ height) :
    (width > height → (letterbox width height).2.1 = 640 ∧
      0 ≤ (letterbox width height).2.2 ∧ (letterbox width height).2.2 ≤ 640) ∧
    (¬ width > height → (letterbox width height).2.2 = 640 ∧
      0 ≤ (letterbox width height).2.1 ∧ (letterbox width height).2.1 ≤ 640) := by
  obtain ⟨_, _, s3, s4⟩ := resizedShort_spec width height hw hh
  unfold resizedShort at s3 s4
  constructor
  · intro h
    rw [if_pos h] at s3 s4
    refine ⟨?_, s3, s4⟩
    rw [letterbox_wide width height h]
  · intro h
    rw [if_neg h] at s3 s4
    refine ⟨?_, s3, s4⟩
    rw [letterbox_tall width height h]

theorem letterbox_square (width : ℤ) (hw : 1 ≤ width) :
    ((letterbox width width).2.1 = 639 ∨ (letterbox width width).2.1 = 640) ∧
    (letterbox width width).2.2 = 640 := by
  obtain ⟨s1, s2, _, _⟩ := resizedShort_spec width width hw hw
  have hq : (0 : ℚ) < (width : ℚ) := by exact_mod_cast (by omega : (0 : ℤ) < width)
  have e : ((min width width : ℤ) : ℚ) * 640 / ((max width width : ℤ) : ℚ) = 640 := by
    rw [min_self, max_self]
    field_simp
  rw [e] at s1 s2
  have f1 : ⌊(640 : ℚ) - 1 / 4096⌋ = 639 := by
    rw [Int.floor_eq_iff]
    norm_num
  have f2 : ⌊(640 : ℚ) + 1 / 4096⌋ = 640 := by
    rw [Int.floor_eq_iff]
    norm_num
  rw [f1] at s1
  rw [f2] at s2
  unfold resizedShort at s1 s2
  rw [if_neg (lt_irrefl width)] at s1 s2
  refine ⟨by omega, ?_⟩
  rw [letterbox_tall width width (lt_irrefl width)]

/-- C6, counterexample. For the square original 610 x 610 the code computes
the `float` scale 4400581 / 4194304, which is not 640 / 610, and resizes the
width to 639, not to 640 (the height is set to 640). -/
theorem letterbox_scaling_counterexample :
    letterbox 610 610 = (4400581 / 4194304, 639, 640) ∧
    (letterbox 610 610).1 ≠ 640 / ((max 610 610 : ℤ) : ℚ) ∧
    (letterbox 610 610).2.1 ≠ 640 := by
  decide!

/-- C6, amended. For an image of width and height at least 1 the scale is the
`float` quotient of 640 by the `float` of `max(width, height)`; it is positive
and differs from `640 / max(width, height)` by at most that value times
`2^-22`.  The side that the code assigns is exactly 640: the width when
`width > height`, the height otherwise (also when the sides are equal).  The
other side lies in `0 .. 640`, and for equal sides the width is 639 or 640.
The original 1280 x 720 gives the scale 1/2 and the resized size 640 x 360,
and 640 x 640 gives the scale 1 and 640 x 640. -/
theorem letterbox_scaling_float (width height : ℤ) (hw : 1 ≤ width) (hh : 1 ≤ height) :
    (letterbox width height).1 = roundF32 (640 / roundF32 ((max width height : ℤ) : ℚ)) ∧
    0 < (letterbox width height).1 ∧
    |(letterbox width height).1 - 640 / ((max width height : ℤ) : ℚ)|
      ≤ 640 / ((max width height : ℤ) : ℚ) / 2 ^ 22 ∧
    (width > height → (letterbox width height).2.1 = 640) ∧
    (width ≤ height → (letterbox width height).2.2 = 640) ∧
    0 ≤ resizedShort width height ∧ resizedShort width height ≤ 640 ∧
    (width = height →
      (letterbox width height).2.1 = 639 ∨ (letterbox width height).2.1 = 640) ∧
    letterbox 1280 720 = (1 / 2, 640, 360) ∧ letterbox 640 640 = (1, 640, 640) := by
  obtain ⟨_, c2, c3, c4, _⟩ :=
    letterbox_core (max width height) (max width height) (by omega) (le_refl _)
  obtain ⟨s1, s2, s3, s4⟩ := resizedShort_spec width height hw hh
  have hb := letterbox_resized_bounds width height hw hh
  refine ⟨letterbox_scale_eq width height, ?_, ?_, fun h => (hb.1 h).1,
    fun h => (hb.2 (not_lt.mpr h)).1, s3, s4, ?_, by decide!, by decide!⟩
  · rw [letterbox_scale_eq]
    exact c4
  · rw [letterbox_scale_eq, abs_le]
    constructor <;> linarith
  · intro he
    subst he
    exact (letterbox_square width hw).1

/-- Witness of the amended C6 at the original size 1280 x 720. -/
theorem letterbox_scaling_float_witness :
    (letterbox 1280 720).1 = roundF32 (640 / roundF32 ((max 1280 720 : ℤ) : ℚ)) ∧
    0 < (letterbox 1280 720).1 ∧
    |(letterbox 1280 720).1 - 640 / ((max 1280 720 : ℤ) : ℚ)|
      ≤ 640 / ((max 1280 720 : ℤ) : ℚ) / 2 ^ 22 ∧
    ((1280 : ℤ) > 720 → (letterbox 1280 720).2.1 = 640) ∧
    ((1280 : ℤ) ≤ 720 → (letterbox 1280 720).2.2 = 640) ∧
    0 ≤ resizedShort 1280 720 ∧ resizedShort 1280 720 ≤ 640 ∧
    ((1280 : ℤ) = 720 →
      (letterbox 1280 720).2.1 = 639 ∨ (letterbox 1280 720).2.1 = 640) ∧
    letterbox 1280 720 = (1 / 2, 640, 360) ∧ letterbox 640 640 = (1, 640, 640) :=
  letterbox_scaling_float 1280 720 (by decide) (by decide)

/-- C7, counterexample. For the original 2560 x 1003 the shorter side is
resized to 250, while `round(1003 * 0.25) = round(250.75)` is 251. -/
theorem resized_short_not_round :
    resizedShort 2560 1003 = 250 ∧
    round (((min 2560 1003 : ℤ) : ℚ) * (640 / ((max 2560 1003 : ℤ) : ℚ))) = 251 := by
  refine ⟨by decide!, ?_⟩
  rw [round_eq, Int.floor_eq_iff]
  norm_num

/-- C7, amended. For an image of width and height at least 1 the resized
shorter side is the `float` product of `dim` and the `float` scale, truncated
to an integer, where `dim` is the shorter original side.  With
`e = dim * 640 / max(width, height)` it lies between `floor(e - 1/4096)` and
`floor(e + 1/4096)`, so it is `floor(e)` whenever these two agree; it is not
`floor(e)` in general: the original 92 x 69 has `e = 480` and is resized to
479. -/
theorem resized_short_trunc (width height : ℤ) (hw : 1 ≤ width) (hh : 1 ≤ height) :
    resizedShort width height =
      ⌊roundF32 (roundF32 ((min width height : ℤ) : ℚ) * (letterbox width height).1)⌋ ∧
    ⌊((min width height : ℤ) : ℚ) * 640 / ((max width height : ℤ) : ℚ) - 1 / 4096⌋
      ≤ resizedShort width height ∧
    resizedShort width height
      ≤ ⌊((min width height : ℤ) : ℚ) * 640 / ((max width height : ℤ) : ℚ) + 1 / 4096⌋ ∧
    (⌊((min width height : ℤ) : ℚ) * 640 / ((max width height : ℤ) : ℚ) - 1 / 4096⌋ =
        ⌊((min width height : ℤ) : ℚ) * 640 / ((max width height : ℤ) : ℚ) + 1 / 4096⌋ →
      resizedShort width height
        = ⌊((min width height : ℤ) : ℚ) * 640 / ((max width height : ℤ) : ℚ)⌋) ∧
    resizedShort 92 69 = 479 ∧
    ⌊((min 92 69 : ℤ) : ℚ) * 640 / ((max 92 69 : ℤ) : ℚ)⌋ = 480 := by
  obtain ⟨s1, s2, _, _⟩ := resizedShort_spec width height hw hh
  obtain ⟨_, _, _, _, c5⟩ :=
    letterbox_core (min width height) (max width height) (by omega) (by omega)
  refine ⟨?_, s1, s2, ?_, by decide!, ?_⟩
  · rw [letterbox_scale_eq, resizedShort_eq, truncToInt_of_nonneg (le_of_lt c5)]
  · intro he
    have l1 : ⌊((min width height : ℤ) : ℚ) * 640 / ((max width height : ℤ) : ℚ) - 1 / 4096⌋ ≤
        ⌊((min width height : ℤ) : ℚ) * 640 / ((max width height : ℤ) : ℚ)⌋ :=
      Int.floor_le_floor (by linarith)
    have l2 : ⌊((min width height : ℤ) : ℚ) * 640 / ((max width height : ℤ) : ℚ)⌋ ≤
        ⌊((min width height : ℤ) : ℚ) * 640 / ((max width height : ℤ) : ℚ) + 1 / 4096⌋ :=
      Int.floor_le_floor (by linarith)
    omega
  · rw [Int.floor_eq_iff]
    norm_num

/-- Witness of the amended C7 at the original size 2560 x 1003. -/
theorem resized_short_trunc_witness :
    resizedShort 2560 1003 =
      ⌊roundF32 (roundF32 ((min 2560 1003 : ℤ) : ℚ) * (letterbox 2560 1003).1)⌋ ∧
    ⌊((min 2560 1003 : ℤ) : ℚ) * 640 / ((max 2560 1003 : ℤ) : ℚ) - 1 / 4096⌋
      ≤ resizedShort 2560 1003 ∧
    resizedShort 2560 1003
      ≤ ⌊((min 2560 1003 : ℤ) : ℚ) * 640 / ((max 2560 1003 : ℤ) : ℚ) + 1 / 4096⌋ ∧
    (⌊((min 2560 1003 : ℤ) : ℚ) * 640 / ((max 2560 1003 : ℤ) : ℚ) - 1 / 4096⌋ =
        ⌊((min 2560 1003 : ℤ) : ℚ) * 640 / ((max 2560 1003 : ℤ) : ℚ) + 1 / 4096⌋ →
      resizedShort 2560 1003
        = ⌊((min 2560 1003 : ℤ) : ℚ) * 640 / ((max 2560 1003 : ℤ) : ℚ)⌋) ∧
    resizedShort 92 69 = 479 ∧
    ⌊((min 92 69 : ℤ) : ℚ) * 640 / ((max 92 69 : ℤ) : ℚ)⌋ = 480 :=
  resized_short_trunc 2560 1003 (by decide) (by decide)

/-- C8 (letterbox padding). For a resized dimension `d ≥ 0` the pad lies in
`0 .. 31`, `d + pad` is the least multiple of 32 that is at least `d`, and the
two border amounts are `pad / 2` (floor) and `pad - pad / 2`: they sum to the
pad and differ by at most 1.  `d = 360` gives 24 and the halves (12, 12);
`d = 640` gives 0. -/
theorem letterbox_padding (d : ℤ) (hd : 0 ≤ d) :
    0 ≤ padOf d ∧ padOf d ≤ 31 ∧ (32 : ℤ) ∣ d + padOf d ∧
    (∀ m : ℤ, (32 : ℤ) ∣ m → d ≤ m → d + padOf d ≤ m) ∧
    (padHalves (padOf d)).1 = padOf d / 2 ∧
    (padHalves (padOf d)).2 = padOf d - padOf d / 2 ∧
    (padHalves (padOf d)).1 + (padHalves (padOf d)).2 = padOf d ∧
    (padHalves (padOf d)).1 ≤ (padHalves (padOf d)).2 ∧
    (padHalves (padOf d)).2 ≤ (padHalves (padOf d)).1 + 1 ∧
    padOf 360 = 24 ∧ padHalves (padOf 360) = (12, 12) ∧ padOf 640 = 0 := by
  have h1 : padOf d = (d + 31) / 32 * 32 - d := by
    unfold padOf
    rw [Int.tdiv_eq_ediv (by omega) (by decide)]
  have h0 : 0 ≤ padOf d := by omega
  have h2 : (padHalves (padOf d)).1 = padOf d / 2 := by
    unfold padHalves
    simp only
    rw [Int.tdiv_eq_ediv h0 (by decide)]
  have h3 : (padHalves (padOf d)).2 = padOf d - padOf d / 2 := by
    unfold padHalves
    simp only
    rw [Int.tdiv_eq_ediv h0 (by decide)]
  refine ⟨h0, by omega, ?_, ?_, h2, h3, by omega, by omega, by omega,
    by decide, by decide, by decide⟩
  · rw [h1]
    exact ⟨(d + 31) / 32, by ring⟩
  · rintro m ⟨k, rfl⟩ hle
    omega

/-- Witness of C8 at the resized dimension 360. -/
theorem letterbox_padding_witness :
    padOf 360 = 24 ∧ padHalves (padOf 360) = (12, 12) ∧ (32 : ℤ) ∣ 360 + padOf 360 :=
  have h := letterbox_padding 360 (by decide)
  ⟨h.2.2.2.2.2.2.2.2.2.1, h.2.2.2.2.2.2.2.2.2.2.1, h.2.2.1⟩

/-! ## Ranking -/

theorem vecGet_eq {v : List Object} {m : ℤ} (h0 : 0 ≤ m) (h1 : m < v.length) :
    vecGet v m = some (objAt v m) := by
  have hlt : m.toNat < v.length := by omega
  simp [vecGet, h0, objAt, List.getD_eq_getElem?_getD, List.getElem?_eq_getElem hlt]

theorem scanUp_spec (v : List Object) (p : ℚ) :
    ∀ (fuel : ℕ) (i k : ℤ), 0 ≤ i → i ≤ k → k < v.length → (objAt v k).prob ≤ p →
      (k - i).toNat < fuel →
      ∃ i1, scanUp v p fuel i = some i1 ∧ i ≤ i1 ∧ i1 ≤ k ∧ (objAt v i1).prob ≤ p ∧
        ∀ m, i ≤ m → m < i1 → p < (objAt v m).prob := by
  intro fuel
  induction fuel with
  | zero => intro i k _ _ _ _ hf; omega
  | succ fuel ih =>
    intro i k hi hik hk hpk hf
    have hget : vecGet v i = some (objAt v i) := vecGet_eq hi (by omega)
    by_cases hgt : (objAt v i).prob > p
    · have hne : i ≠ k := by
        rintro rfl
        exact absurd hpk (not_le.mpr hgt)
      obtain ⟨i1, h1, h2, h3, h4, h5⟩ := ih (i + 1) k (by omega) (by omega) hk hpk (by omega)
      refine ⟨i1, ?_, by omega, h3, h4, ?_⟩
      · simp [scanUp, hget, hgt, h1]
      · intro m hm1 hm2
        by_cases hmi : m = i
        · subst hmi; exact hgt
        · exact h5 m (by omega) hm2
    · refine ⟨i, ?_, le_refl _, hik, not_lt.mp hgt, ?_⟩
      · simp [scanUp, hget, hgt]
      · intro m hm1 hm2; omega

theorem scanDown_spec (v : List Object) (p : ℚ) :
    ∀ (fuel : ℕ) (j k : ℤ), 0 ≤ k → k ≤ j → j < v.length → p ≤ (objAt v k).prob →
      (j - k).toNat < fuel →
      ∃ j1, scanDown v p fuel j = some j1 ∧ k ≤ j1 ∧ j1 ≤ j ∧ p ≤ (objAt v j1).prob ∧
        ∀ m, j1 < m → m ≤ j → (objAt v m).prob < p := by
  intro fuel
  induction fuel with
  | zero => intro j k _ _ _ _ hf; omega
  | succ fuel ih =>
    intro j k hk hkj hj hpk hf
    have hget : vecGet v j = some (objAt v j) := vecGet_eq (by omega) hj
    by_cases hlt : (objAt v j).prob < p
    · have hne : j ≠ k := by
        rintro rfl
        exact absurd hpk (not_le.mpr hlt)
      obtain ⟨j1, h1, h2, h3, h4, h5⟩ := ih (j - 1) k hk (by omega) (by omega) hpk (by omega)
      refine ⟨j1, ?_, h2, by omega, h4, ?_⟩
      · simp [scanDown, hget, hlt, h1]
      · intro m hm1 hm2
        by_cases hmj : m = j
        · subst hmj; exact hlt
        · exact h5 m hm1 (by omega)
    · refine ⟨j, ?_, hkj, le_refl _, not_lt.mp hlt, ?_⟩
      · simp [scanDown, hget, hlt]
      · intro m hm1 hm2; omega

theorem set_cons_perm {α : Type} (x y : α) :
    ∀ (t : List α) (k : ℕ), t[k]? = some y → (y :: t.set k x).Perm (x :: t) := by
  intro t
  induction t with
  | nil => intro k h; simp at h
  | cons z t ih =>
    intro k h
    cases k with
    | zero =>
      simp at h
      subst h
      simpa using List.Perm.swap x z t
    | succ k =>
      simp at h
      have h1 := ih k h
      calc (y :: (z :: t).set (k + 1) x) = y :: z :: t.set k x := by simp
        _ |>.Perm (z :: y :: t.set k x) := List.Perm.swap _ _ _
        _ |>.Perm (z :: x :: t) := List.Perm.cons z h1
        _ |>.Perm (x :: z :: t) := List.Perm.swap _ _ _

theorem set_set_perm {α : Type} (x y : α) :
    ∀ (v : List α) (a b : ℕ), v[a]? = some x → v[b]? = some y →
      ((v.set a y).set b x).Perm v := by
  intro v
  induction v with
  | nil => intro a b h; simp at h
  | cons z t ih =>
    intro a b ha hb
    cases a with
    | zero =>
      simp at ha
      subst ha
      cases b with
      | zero =>
        simp at hb
        subst hb
        simp
      | succ k =>
        simp at hb
        simpa using set_cons_perm z y t k hb
    | succ k =>
      simp at ha
      cases b with
      | zero =>
        simp at hb
        subst hb
        simpa using set_cons_perm z x t k ha
      | succ l =>
        simp at hb
        simpa using ih k l ha hb

theorem RangePerm.refl (v : List Object) (left right : ℤ) : RangePerm v v left right :=
  ⟨rfl, List.Perm.refl _, fun _ _ _ => rfl, fun _ h => h⟩

theorem RangePerm.trans {v v1 v2 : List Object} {left right : ℤ}
    (h1 : RangePerm v v1 left right) (h2 : RangePerm v1 v2 left right) :
    RangePerm v v2 left right :=
  ⟨h2.1.trans h1.1, h2.2.1.trans h1.2.1,
    fun m hm ho => (h2.2.2.1 m hm ho).trans (h1.2.2.1 m hm ho),
    fun P hP => h2.2.2.2 P (h1.2.2.2 P hP)⟩

theorem RangePerm.mono {v v' : List Object} {l r left right : ℤ}
    (h : RangePerm v v' l r) (h0 : 0 ≤ left) (hl : left ≤ l) (hr : r ≤ right) :
    RangePerm v v' left right := by
  refine ⟨h.1, h.2.1, fun m hm ho => h.2.2.1 m hm (by omega), ?_⟩
  intro P hP m hm1 hm2
  by_cases hin : l ≤ m ∧ m ≤ r
  · exact h.2.2.2 P (fun n hn1 hn2 => hP n (by omega) (by omega)) m hin.1 hin.2
  · rw [h.2.2.1 m (by omega) (by omega)]
    exact hP m hm1 hm2

theorem objAt_set (v : List Object) (a : ℕ) (o : Object) (m : ℤ) (hm : 0 ≤ m)
    (ha : a < v.length) :
    objAt (v.set a o) m = if m = (a : ℤ) then o else objAt v m := by
  unfold objAt
  by_cases h : m = (a : ℤ)
  · subst h
    simp [List.getD_eq_getElem?_getD, List.getElem?_set, ha]
  · have : a ≠ m.toNat := by omega
    simp [List.getD_eq_getElem?_getD, List.getElem?_set, h, this]

theorem vecSwap_spec (v : List Object) (a b : ℤ) (ha0 : 0 ≤ a) (ha : a < v.length)
    (hb0 : 0 ≤ b) (hb : b < v.length) :
    ∃ v1, vecSwap v a b = some v1 ∧ v1.length = v.length ∧ v1.Perm v ∧
      ∀ m : ℤ, 0 ≤ m →
        objAt v1 m = if m = b then objAt v a else if m = a then objAt v b else objAt v m := by
  refine ⟨(v.set a.toNat (objAt v b)).set b.toNat (objAt v a), ?_, by simp, ?_, ?_⟩
  · simp [vecSwap, vecGet_eq ha0 ha, vecGet_eq hb0 hb]
  · apply set_set_perm
    · have := vecGet_eq ha0 ha
      simpa [vecGet, ha0] using this
    · have := vecGet_eq hb0 hb
      simpa [vecGet, hb0] using this
  · intro m hm
    rw [objAt_set _ _ _ _ hm (by simp; omega), objAt_set _ _ _ _ hm (by omega)]
    have e1 : ((b.toNat : ℕ) : ℤ) = b := Int.toNat_of_nonneg hb0
    have e2 : ((a.toNat : ℕ) : ℤ) = a := Int.toNat_of_nonneg ha0
    rw [e1, e2]

theorem vecSwap_rangePerm (v : List Object) (a b left right : ℤ) (h0 : 0 ≤ left)
    (hr : right < v.length) (ha1 : left ≤ a) (ha2 : a ≤ right) (hb1 : left ≤ b)
    (hb2 : b ≤ right) :
    ∃ v1, vecSwap v a b = some v1 ∧ RangePerm v v1 left right ∧
      objAt v1 a = objAt v b ∧ objAt v1 b = objAt v a ∧
      ∀ m : ℤ, 0 ≤ m → m ≠ a → m ≠ b → objAt v1 m = objAt v m := by
  obtain ⟨v1, h1, h2, h3, h4⟩ := vecSwap_spec v a b (by omega) (by omega) (by omega) (by omega)
  refine ⟨v1, h1, ⟨h2, h3, ?_, ?_⟩, ?_, ?_, ?_⟩
  · intro m hm ho
    rw [h4 m hm, if_neg (by omega), if_neg (by omega)]
  · intro P hP m hm1 hm2
    rw [h4 m (by omega)]
    split
    · exact hP a ha1 ha2
    · split
      · exact hP b hb1 hb2
      · exact hP m hm1 hm2
  · rw [h4 a (by omega)]
    by_cases hab : a = b
    · simp [hab]
    · simp [hab]
  · rw [h4 b (by omega)]
    simp
  · intro m hm hma hmb
    rw [h4 m hm, if_neg hmb, if_neg hma]

theorem partitionLoop_spec (p : ℚ) (left right : ℤ) :
    ∀ (fuel : ℕ) (v : List Object) (i j : ℤ),
      0 ≤ left → right < v.length → left ≤ i → j ≤ right → i ≤ right + 1 → left - 1 ≤ j →
      (i ≤ j → ∃ k, i ≤ k ∧ k ≤ right ∧ (objAt v k).prob ≤ p) →
      (i ≤ j → ∃ k, left ≤ k ∧ k ≤ j ∧ p ≤ (objAt v k).prob) →
      (∀ m, left ≤ m → m < i → p ≤ (objAt v m).prob) →
      (∀ m, j < m → m ≤ right → (objAt v m).prob ≤ p) →
      (j + 1 - i).toNat < fuel →
      ∃ v' i' j', partitionLoop p fuel v i j = some (v', i', j') ∧
        RangePerm v v' left right ∧
        i ≤ i' ∧ j' ≤ j ∧ j' < i' ∧ i' ≤ right + 1 ∧ left - 1 ≤ j' ∧
        ((∃ k, i ≤ k ∧ k ≤ j ∧ (objAt v k).prob = p) → i < i' ∧ j' < j) ∧
        (∀ m, left ≤ m → m < i' → p ≤ (objAt v' m).prob) ∧
        (∀ m, j' < m → m ≤ right → (objAt v' m).prob ≤ p) := by
  intro fuel
  induction fuel with
  | zero => intro v i j _ _ _ _ _ _ _ _ _ _ hf; omega
  | succ fuel ih =>
    intro v i j h0 hr hli hjr hir hlj hsu hsd hA hB hf
    by_cases hij : i ≤ j
    · obtain ⟨ku, hku1, hku2, hku3⟩ := hsu hij
      obtain ⟨kd, hkd1, hkd2, hkd3⟩ := hsd hij
      obtain ⟨i1, hi1, hi2, hi3, hi4, hi5⟩ :=
        scanUp_spec v p (v.length + 1) i ku (by omega) hku1 (by omega) hku3 (by omega)
      obtain ⟨j1, hj1, hj2, hj3, hj4, hj5⟩ :=
        scanDown_spec v p (v.length + 1) j kd (by omega) hkd2 (by omega) hkd3 (by omega)
      by_cases hs : i1 ≤ j1
      · obtain ⟨v1, hsw, hrp, hsa, hsb, hso⟩ :=
          vecSwap_rangePerm v i1 j1 left right h0 hr (by omega) (by omega) (by omega) (by omega)
        have hlen : v1.length = v.length := hrp.1
        obtain ⟨v', i', j', hres, hrp', g1, g2, g3, g4, g5, _, g7, g8⟩ :=
          ih v1 (i1 + 1) (j1 - 1) h0 (by omega) (by omega) (by omega) (by omega) (by omega)
            (fun _ => ⟨j1, by omega, by omega, by rw [hsb]; exact hi4⟩)
            (fun _ => ⟨i1, by omega, by omega, by rw [hsa]; exact hj4⟩)
            (by
              intro m hm1 hm2
              by_cases hmi : m = i1
              · subst hmi; rw [hsa]; exact hj4
              · rw [hso m (by omega) hmi (by omega)]
                by_cases hmlt : m < i
                · exact hA m hm1 hmlt
                · exact le_of_lt (hi5 m (by omega) (by omega)))
            (by
              intro m hm1 hm2
              by_cases hmj : m = j1
              · subst hmj; rw [hsb]; exact hi4
              · rw [hso m (by omega) (by omega) hmj]
                by_cases hmgt : j < m
                · exact hB m hmgt hm2
                · exact le_of_lt (hj5 m (by omega) (by omega)))
            (by omega)
        refine ⟨v', i', j', ?_, hrp.trans hrp', by omega, by omega, g3, g4, g5,
          fun _ => ⟨by omega, by omega⟩, g7, g8⟩
        simp [partitionLoop, hij, hi1, hj1, hs, hsw, hres]
      · obtain ⟨v', i', j', hres, hrp', g1, g2, g3, g4, g5, _, g7, g8⟩ :=
          ih v i1 j1 h0 hr (by omega) (by omega) (by omega) (by omega)
            (fun h => absurd h hs) (fun h => absurd h hs)
            (by
              intro m hm1 hm2
              by_cases hmlt : m < i
              · exact hA m hm1 hmlt
              · exact le_of_lt (hi5 m (by omega) hm2))
            (by
              intro m hm1 hm2
              by_cases hmgt : j < m
              · exact hB m hmgt hm2
              · exact le_of_lt (hj5 m hm1 (by omega)))
            (by omega)
        refine ⟨v', i', j', ?_, hrp', by omega, by omega, g3, g4, g5, ?_, g7, g8⟩
        · simp [partitionLoop, hij, hi1, hj1, hs, hres]
        · rintro ⟨k, hk1, hk2, hk3⟩
          exfalso
          obtain ⟨a, ha1, _, ha3, _, _⟩ :=
            scanUp_spec v p (v.length + 1) i k (by omega) hk1 (by omega) (le_of_eq hk3)
              (by omega)
          obtain ⟨b, hb1, hb2, _, _, _⟩ :=
            scanDown_spec v p (v.length + 1) j k (by omega) hk2 (by omega) (le_of_eq hk3.symm)
              (by omega)
          rw [hi1] at ha1
          rw [hj1] at hb1
          have ea : i1 = a := Option.some.inj ha1
          have eb : j1 = b := Option.some.inj hb1
          omega
    · refine ⟨v, i, j, ?_, RangePerm.refl v left right, le_refl _, le_refl _, by omega, hir,
        hlj, ?_, hA, hB⟩
      · simp [partitionLoop, hij]
      · rintro ⟨k, hk1, hk2, _⟩
        omega

theorem qsortRange_spec :
    ∀ (fuel : ℕ) (v : List Object) (left right : ℤ),
      0 ≤ left → left ≤ right → right < v.length → (right - left).toNat < fuel →
      ∃ v', qsortRange fuel v left right = some v' ∧ RangePerm v v' left right ∧
        ∀ m n, left ≤ m → m ≤ n → n ≤ right → (objAt v' n).prob ≤ (objAt v' m).prob := by
  intro fuel
  induction fuel with
  | zero => intro v left right _ _ _ hf; omega
  | succ fuel ih =>
    intro v left right h0 hlr hr hf
    have hmid : (left + right).tdiv 2 = (left + right) / 2 :=
      Int.tdiv_eq_ediv (by omega) (by decide)
    have hget : vecGet v ((left + right).tdiv 2) = some (objAt v ((left + right) / 2)) := by
      rw [hmid]
      exact vecGet_eq (by omega) (by omega)
    obtain ⟨v1, i, j, hpart, hrp1, _, _, hji, hi2, hj2, hprog, hA, hB⟩ :=
      partitionLoop_spec (objAt v ((left + right) / 2)).prob left right (v.length + 1) v
        left right h0 hr (le_refl _) (le_refl _) (by omega) (by omega)
        (fun _ => ⟨(left + right) / 2, by omega, by omega, le_refl _⟩)
        (fun _ => ⟨(left + right) / 2, by omega, by omega, le_refl _⟩)
        (fun m hm1 hm2 => by omega) (fun m hm1 hm2 => by omega) (by omega)
    obtain ⟨hil, hjr⟩ := hprog ⟨(left + right) / 2, by omega, by omega, rfl⟩
    have hlen1 : v1.length = v.length := hrp1.1
    have step2 : ∃ v2, (if left < j then qsortRange fuel v1 left j else some v1) = some v2 ∧
        RangePerm v1 v2 left j ∧
        ∀ m n, left ≤ m → m ≤ n → n ≤ j → (objAt v2 n).prob ≤ (objAt v2 m).prob := by
      by_cases hlj : left < j
      · obtain ⟨v2, e, hrp, hs⟩ := ih v1 left j h0 (by omega) (by omega) (by omega)
        exact ⟨v2, by simp [hlj, e], hrp, hs⟩
      · refine ⟨v1, by simp [hlj], RangePerm.refl _ _ _, ?_⟩
        intro m n hm hmn hn
        have : m = n := by omega
        subst this
        exact le_refl _
    obtain ⟨v2, e2, hrp2, hs2⟩ := step2
    have hlen2 : v2.length = v.length := hrp2.1.trans hlen1
    have step3 : ∃ v3, (if i < right then qsortRange fuel v2 i right else some v2) = some v3 ∧
        RangePerm v2 v3 i right ∧
        ∀ m n, i ≤ m → m ≤ n → n ≤ right → (objAt v3 n).prob ≤ (objAt v3 m).prob := by
      by_cases hir : i < right
      · obtain ⟨v3, e, hrp, hs⟩ := ih v2 i right (by omega) (by omega) (by omega) (by omega)
        exact ⟨v3, by simp [hir, e], hrp, hs⟩
      · refine ⟨v2, by simp [hir], RangePerm.refl _ _ _, ?_⟩
        intro m n hm hmn hn
        have : m = n := by omega
        subst this
        exact le_refl _
    obtain ⟨v3, e3, hrp3, hs3⟩ := step3
    have hA2 : ∀ m, left ≤ m → m < i →
        (objAt v ((left + right) / 2)).prob ≤ (objAt v2 m).prob := by
      intro m hm1 hm2
      by_cases hmj : m ≤ j
      · exact hrp2.2.2.2 (fun o => (objAt v ((left + right) / 2)).prob ≤ o.prob)
          (fun n hn1 hn2 => hA n hn1 (by omega)) m hm1 hmj
      · rw [hrp2.2.2.1 m (by omega) (by omega)]
        exact hA m hm1 hm2
    have hB2 : ∀ m, j < m → m ≤ right →
        (objAt v2 m).prob ≤ (objAt v ((left + right) / 2)).prob := by
      intro m hm1 hm2
      rw [hrp2.2.2.1 m (by omega) (by omega)]
      exact hB m hm1 hm2
    have hA3 : ∀ m, left ≤ m → m < i →
        (objAt v ((left + right) / 2)).prob ≤ (objAt v3 m).prob := by
      intro m hm1 hm2
      rw [hrp3.2.2.1 m (by omega) (by omega)]
      exact hA2 m hm1 hm2
    have hB3 : ∀ m, j < m → m ≤ right →
        (objAt v3 m).prob ≤ (objAt v ((left + right) / 2)).prob := by
      intro m hm1 hm2
      by_cases hmi : i ≤ m
      · exact hrp3.2.2.2 (fun o => o.prob ≤ (objAt v ((left + right) / 2)).prob)
          (fun n hn1 hn2 => hB2 n (by omega) hn2) m hmi hm2
      · rw [hrp3.2.2.1 m (by omega) (by omega)]
        exact hB2 m hm1 hm2
    refine ⟨v3, ?_, ?_, ?_⟩
    · simp only [qsortRange, hget, hpart, e2, e3]
    · exact hrp1.trans
        ((hrp2.mono h0 (le_refl _) (by omega)).trans (hrp3.mono h0 (by omega) (le_refl _)))
    · intro m n hm hmn hn
      by_cases hnj : n ≤ j
      · rw [hrp3.2.2.1 m (by omega) (by omega), hrp3.2.2.1 n (by omega) (by omega)]
        exact hs2 m n hm hmn hnj
      · by_cases hmi : i ≤ m
        · exact hs3 m n hmi hmn hn
        · exact le_trans (hB3 n (by omega) hn) (hA3 m hm (by omega))

theorem objAt_natCast (v : List Object) (n : ℕ) (h : n < v.length) :
    objAt v (n : ℤ) = v[n] := by
  simp [objAt, List.getD_eq_getElem?_getD, List.getElem?_eq_getElem h]

/-- The ranking returns on every vector; its result is a permutation of the
input in non-increasing order of `prob`. -/
theorem qsort_descent_inplace_spec (v : List Object) :
    ∃ v', qsort_descent_inplace v = some v' ∧ v'.Perm v ∧ v'.length = v.length ∧
      v'.Pairwise (fun a b => b.prob ≤ a.prob) := by
  by_cases he : v = []
  · subst he
    exact ⟨[], by simp [qsort_descent_inplace], List.Perm.refl _, rfl, List.Pairwise.nil⟩
  · have hpos : 0 < v.length := List.length_pos.mpr he
    obtain ⟨v', e, hrp, hs⟩ :=
      qsortRange_spec v.length v 0 ((v.length : ℤ) - 1) (le_refl _) (by omega) (by omega)
        (by omega)
    refine ⟨v', ?_, hrp.2.1, hrp.1, ?_⟩
    · simp [qsort_descent_inplace, he, e]
    · rw [List.pairwise_iff_getElem]
      intro a b ha hb hab
      have := hs (a : ℤ) (b : ℤ) (by omega) (by omega) (by have := hrp.1; omega)
      rwa [objAt_natCast v' a ha, objAt_natCast v' b hb] at this

/-! ## Greedy suppression -/

theorem overlapExceeds_eq (v : List Object) (t : ℚ) (i j : ℕ) :
    overlapExceeds v t i j = exceedsObj (v.getD i Object.zero) (v.getD j Object.zero) t := by
  have h : ∀ n, (areasOf v).getD n 0 = (v.getD n Object.zero).w * (v.getD n Object.zero).h := by
    intro n
    unfold areasOf
    by_cases hn : n < v.length
    · simp [List.getD_eq_getElem?_getD, List.getElem?_eq_getElem, hn]
    · simp [List.getD_eq_getElem?_getD, List.getElem?_eq_none (not_lt.mp hn), Object.zero]
  simp only [overlapExceeds, exceedsObj, h]

theorem intersection_area_comm (a b : Object) : intersection_area a b = intersection_area b a := by
  unfold intersection_area
  have hc : (a.x > b.x + b.w ∨ a.x + a.w < b.x ∨ a.y > b.y + b.h ∨ a.y + a.h < b.y) ↔
      (b.x > a.x + a.w ∨ b.x + b.w < a.x ∨ b.y > a.y + a.h ∨ b.y + b.h < a.y) := by
    constructor <;> rintro (h | h | h | h) <;> simp [h]
  by_cases h : a.x > b.x + b.w ∨ a.x + a.w < b.x ∨ a.y > b.y + b.h ∨ a.y + a.h < b.y
  · rw [if_pos h, if_pos (hc.mp h)]
  · rw [if_neg h, if_neg (fun h' => h (hc.mpr h'))]
    simp only [min_comm (a.x + a.w), max_comm a.x, min_comm (a.y + a.h), max_comm a.y]

theorem exceedsObj_comm (a b : Object) (t : ℚ) : exceedsObj a b t = exceedsObj b a t := by
  unfold exceedsObj
  rw [intersection_area_comm a b, add_comm (a.w * a.h)]

theorem nmsPrefix_succ (v : List Object) (t : ℚ) (k : ℕ) :
    nmsPrefix v t (k + 1) = nmsStep v t (nmsPrefix v t k) k := by
  simp [nmsPrefix, List.range_succ, List.foldl_append]

theorem nms_as_loop (v : List Object) (t : ℚ) :
    nms_sorted_bboxes v t = nmsPrefix v t v.length := rfl

theorem keepFlag_foldl (v : List Object) (t : ℚ) (i : ℕ) (picked : List ℕ) (b : Bool) :
    picked.foldl (fun keep j => if overlapExceeds v t i j then false else keep) b = true ↔
      b = true ∧ ∀ j ∈ picked, overlapExceeds v t i j = false := by
  induction picked generalizing b with
  | nil => simp
  | cons j js ih =>
    rw [List.foldl_cons, ih]
    by_cases h : overlapExceeds v t i j = true
    · simp [h]
    · simp [h]

theorem keepFlag_iff (v : List Object) (t : ℚ) (picked : List ℕ) (i : ℕ) :
    keepFlag v t picked i = true ↔ ∀ j ∈ picked, overlapExceeds v t i j = false := by
  unfold keepFlag
  rw [keepFlag_foldl]
  simp

theorem mem_nmsStep (v : List Object) (t : ℚ) (picked : List ℕ) (k x : ℕ) :
    x ∈ nmsStep v t picked k ↔ x ∈ picked ∨ (x = k ∧ keepFlag v t picked k = true) := by
  unfold nmsStep
  by_cases h : keepFlag v t picked k = true
  · simp [h]
  · simp [h]

theorem mem_nmsPrefix_lt (v : List Object) (t : ℚ) :
    ∀ (k x : ℕ), x ∈ nmsPrefix v t k → x < k := by
  intro k
  induction k with
  | zero => intro x h; simp [nmsPrefix] at h
  | succ k ih =>
    intro x h
    rw [nmsPrefix_succ, mem_nmsStep] at h
    rcases h with h | ⟨h, _⟩
    · have := ih x h; omega
    · omega

theorem mem_nmsPrefix_mono (v : List Object) (t : ℚ) (i x : ℕ) :
    ∀ k, i ≤ k → (x ∈ nmsPrefix v t i ↔ x ∈ nmsPrefix v t k ∧ x < i) := by
  intro k hk
  induction k with
  | zero =>
    have : i = 0 := by omega
    subst this
    simp [nmsPrefix]
  | succ k ih =>
    by_cases hik : i = k + 1
    · subst hik
      exact ⟨fun h => ⟨h, mem_nmsPrefix_lt v t _ x h⟩, fun h => h.1⟩
    · rw [ih (by omega), nmsPrefix_succ, mem_nmsStep]
      constructor
      · rintro ⟨h1, h2⟩; exact ⟨Or.inl h1, h2⟩
      · rintro ⟨h1 | ⟨h1, _⟩, h2⟩
        · exact ⟨h1, h2⟩
        · omega

theorem mem_nmsPrefix_self (v : List Object) (t : ℚ) (i : ℕ) :
    ∀ k, i < k → (i ∈ nmsPrefix v t k ↔ keepFlag v t (nmsPrefix v t i) i = true) := by
  intro k hk
  induction k with
  | zero => omega
  | succ k ih =>
    rw [nmsPrefix_succ, mem_nmsStep]
    by_cases hik : i = k
    · subst hik
      constructor
      · rintro (h | ⟨_, h⟩)
        · exact absurd (mem_nmsPrefix_lt v t _ _ h) (lt_irrefl _)
        · exact h
      · intro h; exact Or.inr ⟨rfl, h⟩
    · rw [← ih (by omega)]
      constructor
      · rintro (h | ⟨h, _⟩)
        · exact h
        · exact absurd h hik
      · intro h; exact Or.inl h

theorem nmsPrefix_pairwise (v : List Object) (t : ℚ) :
    ∀ k, (nmsPrefix v t k).Pairwise (· < ·) := by
  intro k
  induction k with
  | zero => simp [nmsPrefix]
  | succ k ih =>
    rw [nmsPrefix_succ]
    unfold nmsStep
    split
    · rw [List.pairwise_append]
      refine ⟨ih, by simp, ?_⟩
      intro a ha b hb
      simp at hb
      rw [hb]
      exact mem_nmsPrefix_lt v t k a ha
    · exact ih

theorem mem_nms_iff (v : List Object) (t : ℚ) (i : ℕ) :
    i ∈ nms_sorted_bboxes v t ↔
      i < v.length ∧
        ∀ j ∈ nms_sorted_bboxes v t, j < i → overlapExceeds v t i j = false := by
  rw [nms_as_loop]
  constructor
  · intro h
    have hlt := mem_nmsPrefix_lt v t _ i h
    refine ⟨hlt, ?_⟩
    intro j hj hji
    have hk := (mem_nmsPrefix_self v t i _ hlt).mp h
    rw [keepFlag_iff] at hk
    exact hk j ((mem_nmsPrefix_mono v t i j _ (le_of_lt hlt)).mpr ⟨hj, hji⟩)
  · rintro ⟨hlt, h⟩
    rw [mem_nmsPrefix_self v t i _ hlt, keepFlag_iff]
    intro j hj
    have := (mem_nmsPrefix_mono v t i j _ (le_of_lt hlt)).mp hj
    exact h j this.1 this.2

theorem exceedsObj_of_IoU_gt (a b : Object) (t : ℚ) (ht : 0 ≤ t) (h : t < IoU a b) :
    exceedsObj a b t = true := by
  unfold IoU at h
  unfold exceedsObj divGt
  by_cases hd : a.w * a.h + b.w * b.h - intersection_area a b = 0
  · rw [hd, div_zero] at h
    exact absurd h (not_lt.mpr ht)
  · rw [if_neg hd]
    simpa using h

theorem exceedsObj_of_disjoint (a b : Object) (t : ℚ) (ht : 0 ≤ t)
    (h : intersection_area a b = 0) : exceedsObj a b t = false := by
  unfold exceedsObj divGt
  rw [h]
  split
  · simp
  · simpa using ht

/-- C4 (greedy suppression). An index is picked exactly when it is an index
of the list and no index picked before it (the picked list is strictly
increasing, so: no smaller picked index) passes the test
`intersection_area / (area_i + area_j - intersection_area) > nms_threshold`
against it.  For three candidates where the second has IoU 0.6 with the
first and the third overlaps neither, the picked list is `[0, 2]` at
threshold 0.45; `nmsExample` is such a list with confidence 0.9, 0.6, 0.5. -/
theorem nms_greedy (faceobjects : List Object) (nms_threshold : ℚ) :
    (nms_sorted_bboxes faceobjects nms_threshold).Pairwise (· < ·) ∧
    (∀ i : ℕ, i ∈ nms_sorted_bboxes faceobjects nms_threshold ↔
      i < faceobjects.length ∧
        ∀ j ∈ nms_sorted_bboxes faceobjects nms_threshold, j < i →
          divGt
            (intersection_area (faceobjects.getD i Object.zero) (faceobjects.getD j Object.zero))
            ((areasOf faceobjects).getD i 0 + (areasOf faceobjects).getD j 0
              - intersection_area (faceobjects.getD i Object.zero)
                  (faceobjects.getD j Object.zero))
            nms_threshold = false) ∧
    (∀ a b c : Object, IoU b a = 6 / 10 → intersection_area c a = 0 →
      intersection_area c b = 0 → nms_sorted_bboxes [a, b, c] (45 / 100) = [0, 2]) ∧
    (nmsExample.map (·.prob) = [9 / 10, 6 / 10, 5 / 10] ∧
      IoU (nmsExample.getD 1 Object.zero) (nmsExample.getD 0 Object.zero) = 6 / 10 ∧
      intersection_area (nmsExample.getD 2 Object.zero) (nmsExample.getD 0 Object.zero) = 0 ∧
      intersection_area (nmsExample.getD 2 Object.zero) (nmsExample.getD 1 Object.zero) = 0 ∧
      nms_sorted_bboxes nmsExample (45 / 100) = [0, 2]) := by
  refine ⟨nmsPrefix_pairwise _ _ _, fun i => mem_nms_iff _ _ i, ?_, by decide!⟩
  intro a b c hba hca _
  have h10 : overlapExceeds [a, b, c] (45 / 100) 1 0 = true := by
    rw [overlapExceeds_eq]
    exact exceedsObj_of_IoU_gt b a _ (by norm_num) (by rw [hba]; norm_num)
  have h20 : overlapExceeds [a, b, c] (45 / 100) 2 0 = false := by
    rw [overlapExceeds_eq]
    exact exceedsObj_of_disjoint c a _ (by norm_num) hca
  simp [nms_sorted_bboxes, List.range_succ, nmsStep, keepFlag, h10, h20]

/-! ## Proposal decoder -/

theorem classLoop_range (s : ℕ → ℚ) (n : ℕ) (hs : ∀ k, k < n → -FLT_MAX ≤ s (5 + k)) :
    let st := (List.range n).foldl
      (fun (st : ℤ × ℚ) k => if s (5 + k) > st.2 then ((k : ℤ), s (5 + k)) else st)
      (0, -FLT_MAX)
    (∀ k, k < n → s (5 + k) ≤ st.2) ∧
    ((n = 0 ∧ st = (0, -FLT_MAX)) ∨
      ∃ k0, k0 < n ∧ st = ((k0 : ℤ), s (5 + k0)) ∧ ∀ k, k < k0 → s (5 + k) < s (5 + k0)) := by
  induction n with
  | zero => simp
  | succ n ih =>
    have ih' := ih (fun k hk => hs k (by omega))
    simp only [List.range_succ, List.foldl_append, List.foldl_cons, List.foldl_nil]
    generalize (List.range n).foldl
      (fun (st : ℤ × ℚ) k => if s (5 + k) > st.2 then ((k : ℤ), s (5 + k)) else st)
      (0, -FLT_MAX) = st at ih'
    obtain ⟨hmax, hcase⟩ := ih'
    by_cases hgt : s (5 + n) > st.2
    · simp only [hgt, if_true]
      refine ⟨?_, Or.inr ⟨n, by omega, rfl, ?_⟩⟩
      · intro k hk
        by_cases hkn : k = n
        · subst hkn; exact le_refl _
        · exact le_of_lt (lt_of_le_of_lt (hmax k (by omega)) hgt)
      · intro k hk
        exact lt_of_le_of_lt (hmax k hk) hgt
    · simp only [hgt, if_false]
      have hle : s (5 + n) ≤ st.2 := not_lt.mp hgt
      refine ⟨?_, ?_⟩
      · intro k hk
        by_cases hkn : k = n
        · subst hkn; exact hle
        · exact hmax k (by omega)
      · rcases hcase with ⟨hn, hst⟩ | ⟨k0, hk0, hst, hlt⟩
        · subst hn
          refine Or.inr ⟨0, by omega, ?_, by intro k hk; omega⟩
          have h1 : s (5 + 0) = -FLT_MAX := by
            apply le_antisymm
            · rw [hst] at hle; exact hle
            · exact hs 0 (by omega)
          rw [hst, h1]
          rfl
        · exact Or.inr ⟨k0, by omega, hst, hlt⟩

/-- C10 (class selection). For a cell with `num_class ≥ 1` class scores, each
at least `-FLT_MAX`, the class loop returns as label the smallest index in
`0 .. num_class - 1` whose raw score is the maximum raw score, and as
`class_score` that maximum; every Detection that the cell body appends has
this label, so `0 ≤ label < num_class`. -/
theorem class_selection (featptr : ℕ → ℚ) (num_class : ℤ) (hn : 1 ≤ num_class)
    (hs : ∀ k : ℕ, (k : ℤ) < num_class → -FLT_MAX ≤ featptr (5 + k)) :
    0 ≤ (classLoop featptr num_class).1 ∧ (classLoop featptr num_class).1 < num_class ∧
    (classLoop featptr num_class).2 = featptr (5 + (classLoop featptr num_class).1.toNat) ∧
    (∀ k : ℕ, (k : ℤ) < num_class → featptr (5 + k) ≤ (classLoop featptr num_class).2) ∧
    (∀ k : ℕ, (k : ℤ) < (classLoop featptr num_class).1 →
      featptr (5 + k) < (classLoop featptr num_class).2) ∧
    (∀ (sig : ℚ → ℚ) (anchor_w anchor_h : ℚ) (stride : ℤ) (prob_threshold : ℚ) (i j : ℕ)
      (o : Object),
      o ∈ decodeCell sig anchor_w anchor_h stride num_class prob_threshold featptr i j [] →
        o.label = (classLoop featptr num_class).1 ∧ 0 ≤ o.label ∧ o.label < num_class) := by
  have h := classLoop_range featptr num_class.toNat (fun k hk => hs k (by omega))
  simp only at h
  obtain ⟨hmax, hcase⟩ := h
  have hcl : classLoop featptr num_class = (List.range num_class.toNat).foldl
      (fun (st : ℤ × ℚ) k => if featptr (5 + k) > st.2 then ((k : ℤ), featptr (5 + k)) else st)
      (0, -FLT_MAX) := rfl
  rw [← hcl] at hmax hcase
  rcases hcase with ⟨h0, _⟩ | ⟨k0, hk0, hst, hlt⟩
  · omega
  · have e1 : (classLoop featptr num_class).1 = (k0 : ℤ) := by rw [hst]
    have e2 : (classLoop featptr num_class).2 = featptr (5 + k0) := by rw [hst]
    have r1 : 0 ≤ (classLoop featptr num_class).1 := by rw [e1]; omega
    have r2 : (classLoop featptr num_class).1 < num_class := by rw [e1]; omega
    refine ⟨r1, r2, ?_, ?_, ?_, ?_⟩
    · rw [e2, e1]; simp
    · intro k hk
      exact hmax k (by omega)
    · intro k hk
      rw [e2]
      exact hlt k (by rw [e1] at hk; omega)
    · intro sig aw ah stride thr i j o ho
      have : o.label = (classLoop featptr num_class).1 := by
        unfold decodeCell at ho
        simp only at ho
        split at ho
        · simp at ho
          rw [ho]
        · simp at ho
      exact ⟨this, by rw [this]; exact r1, by rw [this]; exact r2⟩

/-- Witness of C10: three class scores 1, 3, 3 select the label 1. -/
theorem class_selection_witness :
    0 ≤ (classLoop (fun k => if k = 5 then 1 else 3) 3).1 ∧
    (classLoop (fun k => if k = 5 then 1 else 3) 3).1 < 3 ∧
    (classLoop (fun k => if k = 5 then 1 else 3) 3).1 = 1 ∧
    (classLoop (fun k => if k = 5 then 1 else 3) 3).2 = 3 :=
  have h := class_selection (fun k => if k = 5 then 1 else 3) 3 (by decide)
    (by
      intro k _
      have hF : (0 : ℚ) ≤ FLT_MAX := by unfold FLT_MAX; norm_num
      by_cases hk : 5 + k = 5
      · simp only [hk, if_true]; linarith
      · simp only [hk, if_false]; linarith)
  ⟨h.1, h.2.1, by decide!, by decide!⟩


theorem decodeCell_eq (sig : ℚ → ℚ) (anchor_w anchor_h : ℚ) (stride num_class : ℤ)
    (prob_threshold : ℚ) (featptr : ℕ → ℚ) (i j : ℕ) (objects : List Object) :
    decodeCell sig anchor_w anchor_h stride num_class prob_threshold featptr i j objects =
      if prob_threshold ≤ cellConfidence sig featptr num_class then
        objects ++ [specBox sig anchor_w anchor_h stride featptr i j
          (classLoop featptr num_class).1 (cellConfidence sig featptr num_class)]
      else objects := by
  unfold decodeCell cellConfidence specBox
  by_cases h : prob_threshold ≤ sig (featptr 4) * sig (classLoop featptr num_class).2
  · simp only [ge_iff_le, h, if_true]
    congr 2
    simp only [Object.mk.injEq, and_true, true_and]
    refine ⟨by ring, by ring, by ring, by ring⟩
  · simp only [ge_iff_le, h, if_false]

theorem decodeCell_append (sig : ℚ → ℚ) (anchor_w anchor_h : ℚ) (stride num_class : ℤ)
    (prob_threshold : ℚ) (featptr : ℕ → ℚ) (i j : ℕ) (objects : List Object) :
    decodeCell sig anchor_w anchor_h stride num_class prob_threshold featptr i j objects =
      objects ++
        decodeCell sig anchor_w anchor_h stride num_class prob_threshold featptr i j [] := by
  rw [decodeCell_eq, decodeCell_eq]
  split <;> simp

theorem foldl_append_flatMap {α β : Type} (g : β → List α) (f : List α → β → List α)
    (hf : ∀ acc x, f acc x = acc ++ g x) :
    ∀ (l : List β) (init : List α), l.foldl f init = init ++ l.flatMap g := by
  intro l
  induction l with
  | nil => intro init; simp
  | cons a l ih =>
    intro init
    rw [List.foldl_cons, ih, hf]
    simp [List.flatMap_cons, List.append_assoc]

theorem proposalLoops_eq (sig : ℚ → ℚ) (anchors : List ℚ) (stride : ℤ) (feat_blob : Mat)
    (prob_threshold : ℚ) (num_grid_x num_grid_y : ℤ) (objects : List Object) :
    proposalLoops sig anchors stride feat_blob prob_threshold num_grid_x num_grid_y objects =
      objects ++ cellBoxes sig anchors stride feat_blob prob_threshold num_grid_x num_grid_y := by
  unfold proposalLoops cellBoxes
  simp only
  apply foldl_append_flatMap
  intro acc q
  apply foldl_append_flatMap
  intro acc i
  apply foldl_append_flatMap
  intro acc j
  exact decodeCell_append _ _ _ _ _ _ _ _ _ _

theorem generate_proposals_eq (sig : ℚ → ℚ) (anchors : List ℚ) (stride : ℤ)
    (in_pad feat_blob : Mat) (prob_threshold : ℚ) (objects : List Object) :
    generate_proposals sig anchors stride in_pad feat_blob prob_threshold objects =
      (gridDims stride in_pad feat_blob).map fun g =>
        objects ++ cellBoxes sig anchors stride feat_blob prob_threshold g.1 g.2 := by
  unfold generate_proposals
  cases h : gridDims stride in_pad feat_blob with
  | none => simp
  | some g =>
    obtain ⟨gx, gy⟩ := g
    simp [proposalLoops_eq]

theorem mem_cellBoxes (sig : ℚ → ℚ) (anchors : List ℚ) (stride : ℤ) (feat_blob : Mat)
    (prob_threshold : ℚ) (num_grid_x num_grid_y : ℤ) (o : Object) :
    o ∈ cellBoxes sig anchors stride feat_blob prob_threshold num_grid_x num_grid_y ↔
      ∃ q i j : ℕ, (q : ℤ) < (anchors.length : ℤ).tdiv 2 ∧ (i : ℤ) < num_grid_y ∧
        (j : ℤ) < num_grid_x ∧
        o ∈ decodeCell sig (anchors.getD (q * 2) 0) (anchors.getD (q * 2 + 1) 0) stride
          (feat_blob.w - 5) prob_threshold
          (feat_blob.elem q (((i : ℤ) * num_grid_x + (j : ℤ)).toNat)) i j [] := by
  unfold cellBoxes
  simp only [List.mem_flatMap, List.mem_range]
  constructor
  · rintro ⟨q, hq, i, hi, j, hj, h⟩
    exact ⟨q, i, j, by omega, by omega, by omega, h⟩
  · rintro ⟨q, i, j, hq, hi, hj, h⟩
    exact ⟨q, by omega, i, by omega, j, by omega, h⟩

theorem mem_decodeCell_nil (sig : ℚ → ℚ) (anchor_w anchor_h : ℚ) (stride num_class : ℤ)
    (prob_threshold : ℚ) (featptr : ℕ → ℚ) (i j : ℕ) (o : Object) :
    o ∈ decodeCell sig anchor_w anchor_h stride num_class prob_threshold featptr i j [] ↔
      prob_threshold ≤ cellConfidence sig featptr num_class ∧
      o = specBox sig anchor_w anchor_h stride featptr i j
        (classLoop featptr num_class).1 (cellConfidence sig featptr num_class) := by
  rw [decodeCell_eq]
  split <;> simp [*]

/-- C9 (box decoding). When the confidence of a cell clears the threshold,
the cell body appends exactly one Detection with
`w = (2*sigmoid(dw))^2 * anchor_w`, `h = (2*sigmoid(dh))^2 * anchor_h`,
`x = (2*sigmoid(dx) - 0.5 + j)*s - w/2`, `y = (2*sigmoid(dy) - 0.5 + i)*s - h/2`
and `prob = sigmoid(objectness) * sigmoid(class_score)`, and
`generate_proposals` returns a list that contains it when the cell lies in
the grid.  For `j = i = 0`, `s = 8`, anchor (10, 13) and all four sigmoids
equal to 1/2 the box is `x = -1`, `y = -5/2`, `w = 10`, `h = 13`. -/
theorem decode_box (sig : ℚ → ℚ) (anchors : List ℚ) (stride : ℤ) (in_pad feat_blob : Mat)
    (prob_threshold : ℚ) (gx : ℤ) (q i j : ℕ)
    (hconf : prob_threshold ≤
      cellConfidence sig (feat_blob.elem q (((i : ℤ) * gx + (j : ℤ)).toNat))
        (feat_blob.w - 5)) :
    (∀ objects : List Object,
      decodeCell sig (anchors.getD (q * 2) 0) (anchors.getD (q * 2 + 1) 0) stride
          (feat_blob.w - 5) prob_threshold
          (feat_blob.elem q (((i : ℤ) * gx + (j : ℤ)).toNat)) i j objects =
        objects ++
          [specBox sig (anchors.getD (q * 2) 0) (anchors.getD (q * 2 + 1) 0) stride
            (feat_blob.elem q (((i : ℤ) * gx + (j : ℤ)).toNat)) i j
            (classLoop (feat_blob.elem q (((i : ℤ) * gx + (j : ℤ)).toNat)) (feat_blob.w - 5)).1
            (sig (feat_blob.elem q (((i : ℤ) * gx + (j : ℤ)).toNat) 4) *
              sig (classLoop (feat_blob.elem q (((i : ℤ) * gx + (j : ℤ)).toNat))
                (feat_blob.w - 5)).2)]) ∧
    (∀ (gy : ℤ) (objects : List Object), gridDims stride in_pad feat_blob = some (gx, gy) →
      (q : ℤ) < (anchors.length : ℤ).tdiv 2 → (i : ℤ) < gy → (j : ℤ) < gx →
      ∃ out, generate_proposals sig anchors stride in_pad feat_blob prob_threshold objects
            = some out ∧
        specBox sig (anchors.getD (q * 2) 0) (anchors.getD (q * 2 + 1) 0) stride
            (feat_blob.elem q (((i : ℤ) * gx + (j : ℤ)).toNat)) i j
            (classLoop (feat_blob.elem q (((i : ℤ) * gx + (j : ℤ)).toNat)) (feat_blob.w - 5)).1
            (sig (feat_blob.elem q (((i : ℤ) * gx + (j : ℤ)).toNat) 4) *
              sig (classLoop (feat_blob.elem q (((i : ℤ) * gx + (j : ℤ)).toNat))
                (feat_blob.w - 5)).2) ∈ out) ∧
    (∀ (s : ℚ → ℚ) (f : ℕ → ℚ) (label : ℤ) (prob : ℚ),
      s (f 0) = 1 / 2 → s (f 1) = 1 / 2 → s (f 2) = 1 / 2 → s (f 3) = 1 / 2 →
      specBox s 10 13 8 f 0 0 label prob = ⟨-1, -5 / 2, 10, 13, label, prob⟩) := by
  refine ⟨?_, ?_, ?_⟩
  · intro objects
    rw [decodeCell_eq, if_pos hconf]
    rfl
  · intro gy objects hg hq hi hj
    rw [generate_proposals_eq, hg]
    refine ⟨_, rfl, ?_⟩
    apply List.mem_append_right
    rw [mem_cellBoxes]
    refine ⟨q, i, j, hq, hi, hj, ?_⟩
    rw [mem_decodeCell_nil]
    exact ⟨hconf, rfl⟩
  · intro s f label prob h0 h1 h2 h3
    unfold specBox
    rw [h0, h1, h2, h3]
    norm_num

/-- Witness of C9: one anchor (10, 13), stride 8, a 1 x 1 grid whose cell has
box entries 0, objectness 9 and class score 17/2; with the stand-in sigmoid
the confidence is 9/10 and the decoded box is (-1, -5/2, 10, 13). -/
theorem decode_box_witness :
    generate_proposals sigStandIn [10, 13] 8 ⟨8, 8, 3, fun _ _ _ => 0⟩
        ⟨6, 1, 1, fun _ _ k => decodeExampleRow k⟩ (25 / 100) []
      = some [⟨-1, -5 / 2, 10, 13, 0, 9 / 10⟩] ∧
    ∃ out, generate_proposals sigStandIn [10, 13] 8 ⟨8, 8, 3, fun _ _ _ => 0⟩
        ⟨6, 1, 1, fun _ _ k => decodeExampleRow k⟩ (25 / 100) [] = some out ∧
      specBox sigStandIn 10 13 8 decodeExampleRow 0 0 (classLoop decodeExampleRow 1).1
        (sigStandIn (decodeExampleRow 4) * sigStandIn (classLoop decodeExampleRow 1).2) ∈ out :=
  ⟨by decide!,
   (decode_box sigStandIn [10, 13] 8 ⟨8, 8, 3, fun _ _ _ => 0⟩
      ⟨6, 1, 1, fun _ _ k => decodeExampleRow k⟩ (25 / 100) 1 0 0 0 (by decide!)).2.1 1 []
      (by decide!) (by decide!) (by decide!) (by decide!)⟩

/-! ## Rank & Suppress -/

theorem getD_mem_of_lt (v : List Object) (k : ℕ) (h : k < v.length) :
    v.getD k Object.zero ∈ v := by
  rw [List.getD_eq_getElem?_getD, List.getElem?_eq_getElem h]
  exact List.getElem_mem h

theorem mem_keptCandidates (sorted : List Object) (t : ℚ) (o : Object)
    (h : o ∈ keptCandidates sorted t) : o ∈ sorted := by
  unfold keptCandidates at h
  rw [List.mem_map] at h
  obtain ⟨k, hk, rfl⟩ := h
  exact getD_mem_of_lt sorted k ((mem_nms_iff sorted t k).mp hk).1

theorem keptCandidates_pairwise (sorted : List Object) (t : ℚ) :
    (keptCandidates sorted t).Pairwise
      (fun a b => exceedsObj a b t = false ∧ exceedsObj b a t = false) := by
  unfold keptCandidates
  rw [List.pairwise_map]
  have hp : (nms_sorted_bboxes sorted t).Pairwise (· < ·) := nmsPrefix_pairwise _ _ _
  refine List.Pairwise.imp_of_mem ?_ hp
  intro a b _ hb hab
  have h := ((mem_nms_iff sorted t b).mp hb).2 a ‹a ∈ _› hab
  rw [overlapExceeds_eq] at h
  exact ⟨by rw [exceedsObj_comm]; exact h, h⟩

theorem nmsPrefix_of_pairwise (v : List Object) (t : ℚ)
    (hv : v.Pairwise (fun a b => exceedsObj a b t = false ∧ exceedsObj b a t = false)) :
    ∀ k, k ≤ v.length → nmsPrefix v t k = List.range k := by
  intro k
  induction k with
  | zero => intro _; simp [nmsPrefix]
  | succ k ih =>
    intro hk
    rw [nmsPrefix_succ, ih (by omega), List.range_succ]
    have hkeep : keepFlag v t (List.range k) k = true := by
      rw [keepFlag_iff]
      intro j hj
      rw [List.mem_range] at hj
      rw [overlapExceeds_eq]
      have h := List.pairwise_iff_getElem.mp hv j k (by omega) (by omega) hj
      have ej : v.getD j Object.zero = v[j] := by
        rw [List.getD_eq_getElem?_getD, List.getElem?_eq_getElem (by omega)]; rfl
      have ek : v.getD k Object.zero = v[k] := by
        rw [List.getD_eq_getElem?_getD, List.getElem?_eq_getElem (by omega)]; rfl
      rw [ej, ek]
      exact h.2
    simp [nmsStep, hkeep]

theorem map_getD_range (v : List Object) :
    (List.range v.length).map (fun k => v.getD k Object.zero) = v := by
  apply List.ext_getElem
  · simp
  · intro n h1 h2
    simp [List.getD_eq_getElem?_getD, List.getElem?_eq_getElem h2]

theorem keptCandidates_of_pairwise (v : List Object) (t : ℚ)
    (hv : v.Pairwise (fun a b => exceedsObj a b t = false ∧ exceedsObj b a t = false)) :
    keptCandidates v t = v := by
  unfold keptCandidates
  rw [nms_as_loop, nmsPrefix_of_pairwise v t hv _ (le_refl _)]
  exact map_getD_range v

theorem rankSuppress_spec (proposals : List Object) (t : ℚ) :
    ∃ sorted, qsort_descent_inplace proposals = some sorted ∧ sorted.Perm proposals ∧
      sorted.Pairwise (fun a b => b.prob ≤ a.prob) ∧
      rankSuppress proposals t = some (keptCandidates sorted t) := by
  obtain ⟨sorted, e, hp, _, hs⟩ := qsort_descent_inplace_spec proposals
  exact ⟨sorted, e, hp, hs, by simp [rankSuppress, e]⟩

/-- C5 (suppression idempotence). For every candidate list and threshold,
Rank & Suppress returns a list `K` of kept candidates, and Rank & Suppress on
`K` returns a permutation of `K`: every element of `K` is kept again. -/
theorem rank_suppress_idempotent (proposals : List Object) (nms_threshold : ℚ) :
    ∃ K, rankSuppress proposals nms_threshold = some K ∧
      ∃ K', rankSuppress K nms_threshold = some K' ∧ K'.Perm K ∧ K'.length = K.length := by
  obtain ⟨sorted, _, _, _, e1⟩ := rankSuppress_spec proposals nms_threshold
  refine ⟨keptCandidates sorted nms_threshold, e1, ?_⟩
  obtain ⟨sorted2, _, hp2, _, e2⟩ :=
    rankSuppress_spec (keptCandidates sorted nms_threshold) nms_threshold
  have hpw : sorted2.Pairwise
      (fun a b => exceedsObj a b nms_threshold = false ∧ exceedsObj b a nms_threshold = false) :=
    (List.Perm.pairwise_iff (fun h => ⟨h.2, h.1⟩) hp2).mpr
      (keptCandidates_pairwise sorted nms_threshold)
  rw [keptCandidates_of_pairwise sorted2 nms_threshold hpw] at e2
  exact ⟨sorted2, e2, hp2, hp2.length_eq⟩

/-! ## The request -/

theorem rankSuppressRemap_eq (proposals : List Object) (t scale : ℚ)
    (wpad hpad width height : ℤ) :
    rankSuppressRemap proposals t scale wpad hpad width height =
      (rankSuppress proposals t).map (List.map (remapBox scale wpad hpad width height)) := by
  unfold rankSuppressRemap rankSuppress keptCandidates
  cases qsort_descent_inplace proposals with
  | none => rfl
  | some sorted => simp [List.map_map, Function.comp_def]

theorem Detect_unfold (sig : ℚ → ℚ) (use_gpu : Bool) (gpu_count format width height : ℤ)
    (out8 out16 out32 : Mat) (h1 : ¬ (use_gpu = true ∧ gpu_count = 0))
    (h2 : format = ANDROID_BITMAP_FORMAT_RGBA_8888) :
    Detect sig use_gpu gpu_count format width height out8 out16 out32 =
      match decodeAll sig (inPadOf width height) out8 out16 out32 (25 / 100) with
      | none => .error .undefinedBehaviour
      | some proposals =>
        match rankSuppressRemap proposals (45 / 100) (letterbox width height).1
            (padOf (letterbox width height).2.1) (padOf (letterbox width height).2.2)
            width height with
        | none => .error .undefinedBehaviour
        | some objects => .ok objects := by
  unfold Detect
  rw [if_neg h1, if_neg (not_not.mpr h2)]
  rfl

theorem Detect_of_decode (sig : ℚ → ℚ) (use_gpu : Bool) (gpu_count format width height : ℤ)
    (out8 out16 out32 : Mat) (h1 : ¬ (use_gpu = true ∧ gpu_count = 0))
    (h2 : format = ANDROID_BITMAP_FORMAT_RGBA_8888) (proposals kept : List Object)
    (hd : decodeAll sig (inPadOf width height) out8 out16 out32 (25 / 100) = some proposals)
    (hk : rankSuppress proposals (45 / 100) = some kept) :
    Detect sig use_gpu gpu_count format width height out8 out16 out32 =
      .ok (kept.map (remapOf width height)) := by
  rw [Detect_unfold sig use_gpu gpu_count format width height out8 out16 out32 h1 h2, hd]
  simp only [rankSuppressRemap_eq, hk, Option.map_some']
  rfl

theorem Detect_ok_elim (sig : ℚ → ℚ) (use_gpu : Bool) (gpu_count format width height : ℤ)
    (out8 out16 out32 : Mat) (objs : List Object)
    (h : Detect sig use_gpu gpu_count format width height out8 out16 out32 = .ok objs) :
    ∃ proposals sorted,
      decodeAll sig (inPadOf width height) out8 out16 out32 (25 / 100) = some proposals ∧
      qsort_descent_inplace proposals = some sorted ∧ sorted.Perm proposals ∧
      objs = (keptCandidates sorted (45 / 100)).map (remapOf width height) := by
  by_cases h1 : use_gpu = true ∧ gpu_count = 0
  · simp [Detect, h1] at h
  by_cases h2 : format = ANDROID_BITMAP_FORMAT_RGBA_8888
  · cases hd : decodeAll sig (inPadOf width height) out8 out16 out32 (25 / 100) with
    | none =>
      rw [Detect_unfold sig use_gpu gpu_count format width height out8 out16 out32 h1 h2,
        hd] at h
      simp at h
    | some proposals =>
      obtain ⟨sorted, e, hp, _, e2⟩ := rankSuppress_spec proposals (45 / 100)
      rw [Detect_of_decode sig use_gpu gpu_count format width height out8 out16 out32 h1 h2
        proposals _ hd e2] at h
      simp only [Except.ok.injEq] at h
      exact ⟨proposals, sorted, rfl, e, hp, h.symm⟩
  · simp [Detect, h1, h2] at h

theorem getD_nonneg (l : List ℚ) (hl : ∀ a ∈ l, 0 ≤ a) (n : ℕ) : 0 ≤ l.getD n 0 := by
  by_cases h : n < l.length
  · rw [List.getD_eq_getElem?_getD, List.getElem?_eq_getElem h]
    exact hl _ (List.getElem_mem h)
  · rw [List.getD_eq_getElem?_getD, List.getElem?_eq_none (not_lt.mp h)]
    exact le_refl _

theorem mem_cellBoxes_props (sig : ℚ → ℚ) (anchors : List ℚ) (stride : ℤ) (feat_blob : Mat)
    (prob_threshold : ℚ) (num_grid_x num_grid_y : ℤ) (ha : ∀ a ∈ anchors, 0 ≤ a) (o : Object)
    (h : o ∈ cellBoxes sig anchors stride feat_blob prob_threshold num_grid_x num_grid_y) :
    prob_threshold ≤ o.prob ∧ 0 ≤ o.w ∧ 0 ≤ o.h := by
  rw [mem_cellBoxes] at h
  obtain ⟨q, i, j, _, _, _, h⟩ := h
  rw [mem_decodeCell_nil] at h
  obtain ⟨hc, rfl⟩ := h
  refine ⟨hc, ?_, ?_⟩
  · exact mul_nonneg (sq_nonneg _) (getD_nonneg anchors ha _)
  · exact mul_nonneg (sq_nonneg _) (getD_nonneg anchors ha _)

theorem mem_generate_proposals_nil (sig : ℚ → ℚ) (anchors : List ℚ) (stride : ℤ)
    (in_pad feat_blob : Mat) (prob_threshold : ℚ) (ha : ∀ a ∈ anchors, 0 ≤ a)
    (out : List Object)
    (h : generate_proposals sig anchors stride in_pad feat_blob prob_threshold [] = some out)
    (o : Object) (ho : o ∈ out) : prob_threshold ≤ o.prob ∧ 0 ≤ o.w ∧ 0 ≤ o.h := by
  rw [generate_proposals_eq] at h
  cases hg : gridDims stride in_pad feat_blob with
  | none => rw [hg] at h; simp at h
  | some g =>
    rw [hg] at h
    simp only [Option.map_some', Option.some.injEq, List.nil_append] at h
    subst h
    exact mem_cellBoxes_props sig anchors stride feat_blob prob_threshold g.1 g.2 ha o ho

theorem mem_decodeAll (sig : ℚ → ℚ) (in_pad out8 out16 out32 : Mat) (prob_threshold : ℚ)
    (proposals : List Object)
    (h : decodeAll sig in_pad out8 out16 out32 prob_threshold = some proposals)
    (o : Object) (ho : o ∈ proposals) : prob_threshold ≤ o.prob ∧ 0 ≤ o.w ∧ 0 ≤ o.h := by
  unfold decodeAll at h
  cases h8 : generate_proposals sig anchors8 8 in_pad out8 prob_threshold [] with
  | none => rw [h8] at h; simp at h
  | some p8 =>
    cases h16 : generate_proposals sig anchors16 16 in_pad out16 prob_threshold [] with
    | none => rw [h8, h16] at h; simp at h
    | some p16 =>
      cases h32 : generate_proposals sig anchors32 32 in_pad out32 prob_threshold [] with
      | none => rw [h8, h16, h32] at h; simp at h
      | some p32 =>
        rw [h8, h16, h32] at h
        simp only [Option.some.injEq] at h
        subst h
        simp only [List.nil_append, List.mem_append] at ho
        rcases ho with (ho | ho) | ho
        · exact mem_generate_proposals_nil sig anchors8 8 in_pad out8 prob_threshold
            (by unfold anchors8; intro a ha; simp at ha; rcases ha with h | h | h | h | h | h <;>
              rw [h] <;> norm_num) p8 h8 o ho
        · exact mem_generate_proposals_nil sig anchors16 16 in_pad out16 prob_threshold
            (by unfold anchors16; intro a ha; simp at ha; rcases ha with h | h | h | h | h | h <;>
              rw [h] <;> norm_num) p16 h16 o ho
        · exact mem_generate_proposals_nil sig anchors32 32 in_pad out32 prob_threshold
            (by unfold anchors32; intro a ha; simp at ha; rcases ha with h | h | h | h | h | h <;>
              rw [h] <;> norm_num) p32 h32 o ho

theorem remapBox_prob (scale : ℚ) (wpad hpad width height : ℤ) (o : Object) :
    (remapBox scale wpad hpad width height o).prob = o.prob ∧
    (remapBox scale wpad hpad width height o).label = o.label := ⟨rfl, rfl⟩

theorem clipCoord_bounds (v : ℚ) (dim : ℤ) (hd : 1 ≤ dim) :
    0 ≤ clipCoord v dim ∧ clipCoord v dim ≤ (dim : ℚ) - 1 := by
  unfold clipCoord
  have h : (0 : ℚ) ≤ ((dim - 1 : ℤ) : ℚ) := by exact_mod_cast (by omega : (0 : ℤ) ≤ dim - 1)
  have e : ((dim - 1 : ℤ) : ℚ) = (dim : ℚ) - 1 := by push_cast; ring
  refine ⟨le_max_right _ _, ?_⟩
  rw [← e]
  exact max_le (min_le_right _ _) h

theorem clipCoord_mono (u v : ℚ) (dim : ℤ) (h : u ≤ v) : clipCoord u dim ≤ clipCoord v dim := by
  unfold clipCoord
  exact max_le_max (min_le_min h (le_refl _)) (le_refl _)

theorem remapBox_inImage (scale : ℚ) (wpad hpad width height : ℤ) (o : Object)
    (hs : 0 < scale) (hw : 0 ≤ o.w) (hh : 0 ≤ o.h) (h1 : 1 ≤ width) (h2 : 1 ≤ height) :
    InImage width height (remapBox scale wpad hpad width height o) := by
  unfold InImage remapBox unpadBox
  simp only
  have hx : (o.x - ((wpad.tdiv 2 : ℤ) : ℚ)) / scale ≤ (o.x + o.w - ((wpad.tdiv 2 : ℤ) : ℚ)) / scale :=
    div_le_div_of_nonneg_right (by linarith) (le_of_lt hs)
  have hy : (o.y - ((hpad.tdiv 2 : ℤ) : ℚ)) / scale ≤ (o.y + o.h - ((hpad.tdiv 2 : ℤ) : ℚ)) / scale :=
    div_le_div_of_nonneg_right (by linarith) (le_of_lt hs)
  have mx := clipCoord_mono _ _ width hx
  have my := clipCoord_mono _ _ height hy
  have bx0 := clipCoord_bounds ((o.x - ((wpad.tdiv 2 : ℤ) : ℚ)) / scale) width h1
  have bx1 := clipCoord_bounds ((o.x + o.w - ((wpad.tdiv 2 : ℤ) : ℚ)) / scale) width h1
  have by0 := clipCoord_bounds ((o.y - ((hpad.tdiv 2 : ℤ) : ℚ)) / scale) height h2
  have by1 := clipCoord_bounds ((o.y + o.h - ((hpad.tdiv 2 : ℤ) : ℚ)) / scale) height h2
  refine ⟨bx0.1, by0.1, by linarith, by linarith, by linarith, by linarith⟩

theorem mem_Detect (sig : ℚ → ℚ) (use_gpu : Bool) (gpu_count format width height : ℤ)
    (out8 out16 out32 : Mat) (objs : List Object)
    (h : Detect sig use_gpu gpu_count format width height out8 out16 out32 = .ok objs)
    (o : Object) (ho : o ∈ objs) :
    ∃ c : Object, o = remapOf width height c ∧ 25 / 100 ≤ c.prob ∧ 0 ≤ c.w ∧ 0 ≤ c.h := by
  obtain ⟨proposals, sorted, hd, _, hp, rfl⟩ :=
    Detect_ok_elim sig use_gpu gpu_count format width height out8 out16 out32 objs h
  rw [List.mem_map] at ho
  obtain ⟨c, hc, rfl⟩ := ho
  have hc' : c ∈ proposals := hp.mem_iff.mp (mem_keptCandidates sorted _ c hc)
  exact ⟨c, rfl, mem_decodeAll sig _ out8 out16 out32 _ proposals hd c hc'⟩

/-! ## The request returns -/

theorem padOf_eq (d : ℤ) (hd : 0 ≤ d) : padOf d = (d + 31) / 32 * 32 - d := by
  unfold padOf
  rw [Int.tdiv_eq_ediv (by omega) (by decide)]

theorem padHalves_sum (p : ℤ) : (padHalves p).1 + (padHalves p).2 = p := by
  unfold padHalves
  simp

theorem inPadOf_w (width height : ℤ) :
    (inPadOf width height).w =
      (letterbox width height).2.1 + padOf (letterbox width height).2.1 := by
  unfold inPadOf copy_make_border
  simp only
  rw [add_assoc, padHalves_sum]

theorem inPadOf_h (width height : ℤ) :
    (inPadOf width height).h =
      (letterbox width height).2.2 + padOf (letterbox width height).2.2 := by
  unfold inPadOf copy_make_border
  simp only
  rw [add_assoc, padHalves_sum]

theorem padded_bounds (d : ℤ) (h0 : 0 ≤ d) (h1 : d ≤ 640) :
    d ≤ d + padOf d ∧ d + padOf d ≤ 640 ∧ (32 : ℤ) ∣ d + padOf d ∧ (d = 640 → d + padOf d = 640) := by
  rw [padOf_eq d h0]
  refine ⟨by omega, by omega, ⟨(d + 31) / 32, by ring⟩, by omega⟩

theorem inPadOf_dims (width height : ℤ) (hw : 1 ≤ width) (hh : 1 ≤ height) :
    ((inPadOf width height).w = 640 ∧ 0 ≤ (inPadOf width height).h ∧
        (inPadOf width height).h ≤ 640 ∨
      (inPadOf width height).h = 640 ∧ 0 ≤ (inPadOf width height).w ∧
        (inPadOf width height).w ≤ 640) ∧
    (32 : ℤ) ∣ (inPadOf width height).w ∧ (32 : ℤ) ∣ (inPadOf width height).h := by
  have hb := letterbox_resized_bounds width height hw hh
  rw [inPadOf_w, inPadOf_h]
  by_cases h : width > height
  · obtain ⟨h1, h2, h3⟩ := hb.1 h
    have pw := padded_bounds (letterbox width height).2.1 (by omega) (by omega)
    have ph := padded_bounds (letterbox width height).2.2 h2 h3
    exact ⟨Or.inl ⟨pw.2.2.2 h1, by omega, ph.2.1⟩, pw.2.2.1, ph.2.2.1⟩
  · obtain ⟨h1, h2, h3⟩ := hb.2 h
    have pw := padded_bounds (letterbox width height).2.1 h2 h3
    have ph := padded_bounds (letterbox width height).2.2 (by omega) (by omega)
    exact ⟨Or.inr ⟨ph.2.2.2 h1, by omega, pw.2.1⟩, pw.2.2.1, ph.2.2.1⟩

theorem gridDims_inPadOf (stride width height : ℤ) (feat_blob : Mat) (hw : 1 ≤ width)
    (hh : 1 ≤ height) (hs : stride = 8 ∨ stride = 16 ∨ stride = 32) :
    ∃ g, gridDims stride (inPadOf width height) feat_blob = some g := by
  have hd := (inPadOf_dims width height hw hh).1
  have hs0 : stride ≠ 0 := by omega
  unfold gridDims
  simp only [hs0, if_false]
  by_cases hgt : (inPadOf width height).w > (inPadOf width height).h
  · have e : (inPadOf width height).w = 640 := by omega
    have hne : (inPadOf width height).w.tdiv stride ≠ 0 := by
      rw [e]
      rcases hs with h | h | h <;> rw [h] <;> decide
    simp only [hgt, if_true, hne, if_false]
    exact ⟨_, rfl⟩
  · have e : (inPadOf width height).h = 640 := by omega
    have hne : (inPadOf width height).h.tdiv stride ≠ 0 := by
      rw [e]
      rcases hs with h | h | h <;> rw [h] <;> decide
    simp only [hgt, if_false, hne]
    exact ⟨_, rfl⟩

theorem decodeAll_returns (sig : ℚ → ℚ) (width height : ℤ) (out8 out16 out32 : Mat)
    (prob_threshold : ℚ) (hw : 1 ≤ width) (hh : 1 ≤ height) :
    ∃ proposals,
      decodeAll sig (inPadOf width height) out8 out16 out32 prob_threshold = some proposals := by
  obtain ⟨g8, e8⟩ := gridDims_inPadOf 8 width height out8 hw hh (Or.inl rfl)
  obtain ⟨g16, e16⟩ := gridDims_inPadOf 16 width height out16 hw hh (Or.inr (Or.inl rfl))
  obtain ⟨g32, e32⟩ := gridDims_inPadOf 32 width height out32 hw hh (Or.inr (Or.inr rfl))
  unfold decodeAll
  simp only [generate_proposals_eq, e8, e16, e32, Option.map_some']
  exact ⟨_, rfl⟩

/-- A request on an image of width and height at least 1 in the supported
pixel format, not asking for an absent accelerator, returns a list. -/
theorem Detect_returns (sig : ℚ → ℚ) (use_gpu : Bool) (gpu_count format width height : ℤ)
    (out8 out16 out32 : Mat) (hw : 1 ≤ width) (hh : 1 ≤ height)
    (h1 : ¬ (use_gpu = true ∧ gpu_count = 0))
    (h2 : format = ANDROID_BITMAP_FORMAT_RGBA_8888) :
    ∃ objs, Detect sig use_gpu gpu_count format width height out8 out16 out32 = .ok objs := by
  obtain ⟨proposals, hd⟩ := decodeAll_returns sig width height out8 out16 out32 (25 / 100) hw hh
  obtain ⟨sorted, _, _, _, hk⟩ := rankSuppress_spec proposals (45 / 100)
  exact ⟨_, Detect_of_decode sig use_gpu gpu_count format width height out8 out16 out32 h1 h2
    proposals _ hd hk⟩

/-! ## A request with two overlapping kept candidates -/

theorem classLoop_zero (f : ℕ → ℚ) (n : ℤ) (hn : 1 ≤ n) (hf : ∀ k, f (5 + k) = 0) :
    classLoop f n = (0, 0) := by
  have hF : -FLT_MAX ≤ (0 : ℚ) := by unfold FLT_MAX; norm_num
  have h := classLoop_range f n.toNat (fun k _ => by rw [hf k]; exact hF)
  simp only at h
  have hcl : classLoop f n = (List.range n.toNat).foldl
      (fun (st : ℤ × ℚ) k => if f (5 + k) > st.2 then ((k : ℤ), f (5 + k)) else st)
      (0, -FLT_MAX) := rfl
  rw [← hcl] at h
  rcases h.2 with ⟨h0, _⟩ | ⟨k0, _, hst, hlt⟩
  · omega
  · have : k0 = 0 := by
      by_contra hne
      have := hlt 0 (by omega)
      rw [hf 0, hf k0] at this
      exact lt_irrefl _ this
    subst this
    rw [hst, hf 0]
    rfl

theorem cellBoxes_quiet (sig : ℚ → ℚ) (h0 : sig 0 = 1 / 2) (h1 : sig (-100) < 1 / 2)
    (anchors : List ℚ) (stride n gx gy : ℤ) :
    cellBoxes sig anchors stride (quietBlob n) (25 / 100) gx gy = [] := by
  rw [List.eq_nil_iff_forall_not_mem]
  intro o ho
  rw [mem_cellBoxes] at ho
  obtain ⟨q, i, j, _, _, _, h⟩ := ho
  rw [mem_decodeCell_nil] at h
  have hc := h.1
  unfold cellConfidence at hc
  have hk : ∀ k : ℕ, (quietBlob n).elem q (((i : ℤ) * gx + (j : ℤ)).toNat) (5 + k) = 0 := by
    intro k
    have : ¬ (5 + k = 4) := by omega
    simp [quietBlob, this]
  have hw : (1 : ℤ) ≤ (quietBlob n).w - 5 := by simp [quietBlob]
  rw [classLoop_zero _ _ hw hk] at hc
  simp only [quietBlob, if_true] at hc
  rw [h0] at hc
  linarith

theorem decodeCell_overlapBlob (sig : ℚ → ℚ) (h0 : sig 0 = 1 / 2) (h1 : sig (-100) < 1 / 2)
    (aw ah : ℚ) (q r i j : ℕ) :
    decodeCell sig aw ah 32 (overlapBlob32.w - 5) (25 / 100) (overlapBlob32.elem q r) i j [] =
      if (q = 1 ∧ r = 42) ∨ (q = 2 ∧ r = 0) then
        [⟨(1 / 2 + (j : ℚ)) * 32 - aw / 2, (1 / 2 + (i : ℚ)) * 32 - ah / 2, aw, ah, 0, 1 / 4⟩]
      else [] := by
  rw [decodeCell_eq]
  have hcl : classLoop (overlapBlob32.elem q r) (overlapBlob32.w - 5) = (0, 0) :=
    classLoop_zero _ _ (by decide) (fun k => by
      have : ¬ (5 + k = 4) := by omega
      simp [overlapBlob32, this])
  unfold cellConfidence specBox
  rw [hcl]
  by_cases ha : (q = 1 ∧ r = 42) ∨ (q = 2 ∧ r = 0)
  · have e4 : overlapBlob32.elem q r 4 = 0 := by simp [overlapBlob32, ha]
    have e0 : overlapBlob32.elem q r 0 = 0 := by simp [overlapBlob32]
    have e1 : overlapBlob32.elem q r 1 = 0 := by simp [overlapBlob32]
    have e2 : overlapBlob32.elem q r 2 = 0 := by simp [overlapBlob32]
    have e3 : overlapBlob32.elem q r 3 = 0 := by simp [overlapBlob32]
    rw [if_pos ha, e4, e0, e1, e2, e3]
    simp only [h0]
    rw [if_pos (by norm_num)]
    simp only [List.nil_append, List.cons.injEq, and_true, Object.mk.injEq]
    refine ⟨by push_cast; ring, by push_cast; ring, by ring, by ring, trivial, by norm_num⟩
  · have e4 : overlapBlob32.elem q r 4 = -100 := by simp [overlapBlob32, ha]
    rw [if_neg ha, e4]
    simp only [h0]
    rw [if_neg (by linarith)]

theorem cellBoxes_overlapBlob (sig : ℚ → ℚ) (h0 : sig 0 = 1 / 2) (h1 : sig (-100) < 1 / 2) :
    cellBoxes sig anchors32 32 overlapBlob32 (25 / 100) 20 20 =
      [⟨2, -19, 156, 198, 0, 1 / 4⟩, ⟨-341 / 2, -147, 373, 326, 0, 1 / 4⟩] := by
  unfold cellBoxes
  simp only [decodeCell_overlapBlob sig h0 h1]
  decide!

theorem decodeAll_overlapBlob (sig : ℚ → ℚ) (h0 : sig 0 = 1 / 2) (h1 : sig (-100) < 1 / 2) :
    decodeAll sig (inPadOf 640 640) (quietBlob 6400) (quietBlob 1600) overlapBlob32 (25 / 100) =
      some [⟨2, -19, 156, 198, 0, 1 / 4⟩, ⟨-341 / 2, -147, 373, 326, 0, 1 / 4⟩] := by
  have g8 : gridDims 8 (inPadOf 640 640) (quietBlob 6400) = some (80, 80) := by decide!
  have g16 : gridDims 16 (inPadOf 640 640) (quietBlob 1600) = some (40, 40) := by decide!
  have g32 : gridDims 32 (inPadOf 640 640) overlapBlob32 = some (20, 20) := by decide!
  have e8 : generate_proposals sig anchors8 8 (inPadOf 640 640) (quietBlob 6400) (25 / 100) []
      = some [] := by
    rw [generate_proposals_eq, g8, Option.map_some', cellBoxes_quiet sig h0 h1]
    rfl
  have e16 : generate_proposals sig anchors16 16 (inPadOf 640 640) (quietBlob 1600) (25 / 100) []
      = some [] := by
    rw [generate_proposals_eq, g16, Option.map_some', cellBoxes_quiet sig h0 h1]
    rfl
  have e32 : generate_proposals sig anchors32 32 (inPadOf 640 640) overlapBlob32 (25 / 100) []
      = some [⟨2, -19, 156, 198, 0, 1 / 4⟩, ⟨-341 / 2, -147, 373, 326, 0, 1 / 4⟩] := by
    rw [generate_proposals_eq, g32, Option.map_some', cellBoxes_overlapBlob sig h0 h1]
    rfl
  unfold decodeAll
  rw [e8, e16, e32]
  rfl

/-- On a 640 x 640 image, with the two active cells of `overlapBlob32` and
any `sigmoid` with `sigmoid(0) = 1/2` and `sigmoid(-100) < 1/2`, the request
returns two Detections. -/
theorem detect_overlapBlob (sig : ℚ → ℚ) (h0 : sig 0 = 1 / 2) (h1 : sig (-100) < 1 / 2) :
    Detect sig false 0 1 640 640 (quietBlob 6400) (quietBlob 1600) overlapBlob32 =
      .ok [⟨0, 0, 405 / 2, 179, 0, 1 / 4⟩, ⟨2, 0, 156, 179, 0, 1 / 4⟩] := by
  rw [Detect_of_decode sig false 0 1 640 640 _ _ _ (by decide) (by decide) _
    [⟨-341 / 2, -147, 373, 326, 0, 1 / 4⟩, ⟨2, -19, 156, 198, 0, 1 / 4⟩]
    (decodeAll_overlapBlob sig h0 h1) (by decide!)]
  exact congrArg Except.ok (by decide!)

theorem sigStandIn_zero : sigStandIn 0 = 1 / 2 := by decide!

theorem sigStandIn_neg : sigStandIn (-100) < 1 / 2 := by decide!

/-! ## Overlap after remapping -/

theorem IoU_le_of_not_exceeds (a b : Object) (t : ℚ) (ht : 0 ≤ t)
    (h : exceedsObj a b t = false) : IoU a b ≤ t := by
  unfold exceedsObj divGt at h
  unfold IoU
  by_cases hd : a.w * a.h + b.w * b.h - intersection_area a b = 0
  · rw [hd, div_zero]; exact ht
  · rw [if_neg hd] at h
    simpa using h

theorem IoU_le_of_not_exceeds_of_ne (a b : Object) (t : ℚ)
    (hd : a.w * a.h + b.w * b.h - intersection_area a b ≠ 0)
    (h : exceedsObj a b t = false) : IoU a b ≤ t := by
  unfold exceedsObj divGt at h
  unfold IoU
  rw [if_neg hd] at h
  simpa using h

theorem intersection_area_affine (a b a' b' : Object) (s cx cy : ℚ) (hs : 0 < s)
    (hax : a'.x = (a.x - cx) / s) (haw : a'.x + a'.w = (a.x + a.w - cx) / s)
    (hay : a'.y = (a.y - cy) / s) (hah : a'.y + a'.h = (a.y + a.h - cy) / s)
    (hbx : b'.x = (b.x - cx) / s) (hbw : b'.x + b'.w = (b.x + b.w - cx) / s)
    (hby : b'.y = (b.y - cy) / s) (hbh : b'.y + b'.h = (b.y + b.h - cy) / s) :
    intersection_area a' b' = intersection_area a b / (s * s) := by
  unfold intersection_area
  rw [haw, hbw, hah, hbh, hax, hbx, hay, hby]
  have hlt : ∀ u v : ℚ, (u - cx) / s < (v - cx) / s ↔ u < v := by
    intro u v
    rw [div_lt_div_iff_of_pos_right hs]
    constructor <;> intro h <;> linarith
  have hlt' : ∀ u v : ℚ, (u - cy) / s < (v - cy) / s ↔ u < v := by
    intro u v
    rw [div_lt_div_iff_of_pos_right hs]
    constructor <;> intro h <;> linarith
  have hmin : ∀ c u v : ℚ, min ((u - c) / s) ((v - c) / s) = (min u v - c) / s := by
    intro c u v
    rw [min_div_div_right (le_of_lt hs), min_sub_sub_right]
  have hmax : ∀ c u v : ℚ, max ((u - c) / s) ((v - c) / s) = (max u v - c) / s := by
    intro c u v
    rw [max_div_div_right (le_of_lt hs), max_sub_sub_right]
  simp only [gt_iff_lt, hlt, hlt', hmin, hmax]
  have hne : s ≠ 0 := ne_of_gt hs
  split
  · simp
  · field_simp

theorem unpadObject_fields (s : ℚ) (wpad hpad : ℤ) (o : Object) :
    (unpadObject s wpad hpad o).x = (o.x - ((wpad.tdiv 2 : ℤ) : ℚ)) / s ∧
    (unpadObject s wpad hpad o).x + (unpadObject s wpad hpad o).w
      = (o.x + o.w - ((wpad.tdiv 2 : ℤ) : ℚ)) / s ∧
    (unpadObject s wpad hpad o).y = (o.y - ((hpad.tdiv 2 : ℤ) : ℚ)) / s ∧
    (unpadObject s wpad hpad o).y + (unpadObject s wpad hpad o).h
      = (o.y + o.h - ((hpad.tdiv 2 : ℤ) : ℚ)) / s ∧
    (unpadObject s wpad hpad o).w = o.w / s ∧ (unpadObject s wpad hpad o).h = o.h / s := by
  unfold unpadObject unpadBox
  refine ⟨rfl, ?_, rfl, ?_, ?_, ?_⟩ <;> simp only <;> ring

theorem IoU_unpadObject (s : ℚ) (hs : 0 < s) (wpad hpad : ℤ) (a b : Object) :
    IoU (unpadObject s wpad hpad a) (unpadObject s wpad hpad b) = IoU a b := by
  obtain ⟨ax, aw, ay, ah, aw', ah'⟩ := unpadObject_fields s wpad hpad a
  obtain ⟨bx, bw, bY, bh, bw', bh'⟩ := unpadObject_fields s wpad hpad b
  unfold IoU
  rw [intersection_area_affine a b _ _ s _ _ hs ax aw ay ah bx bw bY bh, aw', ah', bw', bh']
  have hne : s * s ≠ 0 := ne_of_gt (mul_pos hs hs)
  have e : a.w / s * (a.h / s) + b.w / s * (b.h / s) - intersection_area a b / (s * s)
      = (a.w * a.h + b.w * b.h - intersection_area a b) / (s * s) := by
    field_simp
  rw [e, div_div_div_cancel_right₀ hne]

theorem unionArea_unpadObject (s : ℚ) (hs : 0 < s) (wpad hpad : ℤ) (a b : Object) :
    (unpadObject s wpad hpad a).w * (unpadObject s wpad hpad a).h
        + (unpadObject s wpad hpad b).w * (unpadObject s wpad hpad b).h
        - intersection_area (unpadObject s wpad hpad a) (unpadObject s wpad hpad b)
      = (a.w * a.h + b.w * b.h - intersection_area a b) / (s * s) := by
  obtain ⟨ax, aw, ay, ah, aw', ah'⟩ := unpadObject_fields s wpad hpad a
  obtain ⟨bx, bw, bY, bh, bw', bh'⟩ := unpadObject_fields s wpad hpad b
  rw [intersection_area_affine a b _ _ s _ _ hs ax aw ay ah bx bw bY bh, aw', ah', bw', bh']
  have hne : s ≠ 0 := ne_of_gt hs
  field_simp

theorem kept_pairwise_IoU (sorted : List Object) (width height : ℤ) (hw : 1 ≤ width)
    (hh : 1 ≤ height) :
    (keptCandidates sorted (45 / 100)).Pairwise (fun a b =>
      exceedsObj a b (45 / 100) = false ∧ exceedsObj b a (45 / 100) = false ∧
      (a.w * a.h + b.w * b.h - intersection_area a b ≠ 0 →
        IoU a b ≤ 45 / 100 ∧ IoU b a ≤ 45 / 100 ∧
        (remapOf width height a = unpadOf width height a →
          remapOf width height b = unpadOf width height b →
          (remapOf width height a).w * (remapOf width height a).h
              + (remapOf width height b).w * (remapOf width height b).h
              - intersection_area (remapOf width height a) (remapOf width height b) ≠ 0 ∧
          IoU (remapOf width height a) (remapOf width height b) ≤ 45 / 100 ∧
          IoU (remapOf width height b) (remapOf width height a) ≤ 45 / 100))) := by
  refine List.Pairwise.imp ?_ (keptCandidates_pairwise sorted (45 / 100))
  intro a b hab
  refine ⟨hab.1, hab.2, ?_⟩
  intro hne
  have hne' : b.w * b.h + a.w * a.h - intersection_area b a ≠ 0 := by
    rw [intersection_area_comm b a, add_comm (b.w * b.h)]
    exact hne
  have h1 := IoU_le_of_not_exceeds_of_ne a b (45 / 100) hne hab.1
  have h2 := IoU_le_of_not_exceeds_of_ne b a (45 / 100) hne' hab.2
  refine ⟨h1, h2, ?_⟩
  intro ea eb
  have hs := letterbox_scale_pos width height hw hh
  rw [ea, eb]
  unfold unpadOf
  rw [IoU_unpadObject _ hs, IoU_unpadObject _ hs, unionArea_unpadObject _ hs]
  exact ⟨div_ne_zero hne (ne_of_gt (mul_pos hs hs)), h1, h2⟩

/-! ## Invariants of the returned list -/

/-- C1, counterexample. On a 640 x 640 image (scale 1, no padding) with two
active cells in the stride-32 tensor, every `sigmoid` with `sigmoid(0) = 1/2`
and `sigmoid(-100) < 1/2` makes the request return two Detections whose
boxes, after clipping, have IoU 55848/72495 (about 0.77), above 0.45. -/
theorem overlap_invariant_counterexample :
    (∀ sig : ℚ → ℚ, sig 0 = 1 / 2 → sig (-100) < 1 / 2 →
      Detect sig false 0 1 640 640 (quietBlob 6400) (quietBlob 1600) overlapBlob32 =
        .ok [⟨0, 0, 405 / 2, 179, 0, 1 / 4⟩, ⟨2, 0, 156, 179, 0, 1 / 4⟩]) ∧
    IoU ⟨0, 0, 405 / 2, 179, 0, 1 / 4⟩ ⟨2, 0, 156, 179, 0, 1 / 4⟩ = 55848 / 72495 ∧
    ¬ (IoU ⟨0, 0, 405 / 2, 179, 0, 1 / 4⟩ ⟨2, 0, 156, 179, 0, 1 / 4⟩ ≤ 45 / 100) :=
  ⟨detect_overlapBlob, by decide!, by decide!⟩

/-- C1, amended. For a request on an image of width and height at least 1
that returns a list, the returned Detections are the remapped kept
candidates, in order.  Every two distinct kept candidates fail the overlap
test of the suppression, `inter_area / union_area > 0.45`, on their boxes in
padded-letterbox space (before remapping and clipping), in either argument
order.  When the union area of the two candidates is not 0, their IoU is at
most 0.45 in either order, and if the clip left both remapped boxes
unchanged, the two returned Detections have a union area that is not 0 and an
IoU of at most 0.45 as well. -/
theorem overlap_invariant_unclipped (sig : ℚ → ℚ) (use_gpu : Bool)
    (gpu_count format width height : ℤ) (out8 out16 out32 : Mat) (objs : List Object)
    (hw : 1 ≤ width) (hh : 1 ≤ height)
    (h : Detect sig use_gpu gpu_count format width height out8 out16 out32 = .ok objs) :
    ∃ proposals sorted : List Object,
      decodeAll sig (inPadOf width height) out8 out16 out32 (25 / 100) = some proposals ∧
      qsort_descent_inplace proposals = some sorted ∧
      objs = (keptCandidates sorted (45 / 100)).map (remapOf width height) ∧
      (keptCandidates sorted (45 / 100)).Pairwise (fun a b =>
        exceedsObj a b (45 / 100) = false ∧ exceedsObj b a (45 / 100) = false ∧
        (a.w * a.h + b.w * b.h - intersection_area a b ≠ 0 →
          IoU a b ≤ 45 / 100 ∧ IoU b a ≤ 45 / 100 ∧
          (remapOf width height a = unpadOf width height a →
            remapOf width height b = unpadOf width height b →
            (remapOf width height a).w * (remapOf width height a).h
                + (remapOf width height b).w * (remapOf width height b).h
                - intersection_area (remapOf width height a) (remapOf width height b) ≠ 0 ∧
            IoU (remapOf width height a) (remapOf width height b) ≤ 45 / 100 ∧
            IoU (remapOf width height b) (remapOf width height a) ≤ 45 / 100))) := by
  obtain ⟨proposals, sorted, hd, hq, _, ho⟩ :=
    Detect_ok_elim sig use_gpu gpu_count format width height out8 out16 out32 objs h
  exact ⟨proposals, sorted, hd, hq, ho, kept_pairwise_IoU sorted width height hw hh⟩

/-- Witness of the amended C1: the request of the counterexample, with the
stand-in sigmoid. -/
theorem overlap_invariant_unclipped_witness :
    ∃ proposals sorted : List Object,
      decodeAll sigStandIn (inPadOf 640 640) (quietBlob 6400) (quietBlob 1600) overlapBlob32
        (25 / 100) = some proposals ∧
      qsort_descent_inplace proposals = some sorted ∧
      [(⟨0, 0, 405 / 2, 179, 0, 1 / 4⟩ : Object), ⟨2, 0, 156, 179, 0, 1 / 4⟩]
        = (keptCandidates sorted (45 / 100)).map (remapOf 640 640) ∧
      (keptCandidates sorted (45 / 100)).Pairwise (fun a b =>
        exceedsObj a b (45 / 100) = false ∧ exceedsObj b a (45 / 100) = false ∧
        (a.w * a.h + b.w * b.h - intersection_area a b ≠ 0 →
          IoU a b ≤ 45 / 100 ∧ IoU b a ≤ 45 / 100 ∧
          (remapOf 640 640 a = unpadOf 640 640 a →
            remapOf 640 640 b = unpadOf 640 640 b →
            (remapOf 640 640 a).w * (remapOf 640 640 a).h
                + (remapOf 640 640 b).w * (remapOf 640 640 b).h
                - intersection_area (remapOf 640 640 a) (remapOf 640 640 b) ≠ 0 ∧
            IoU (remapOf 640 640 a) (remapOf 640 640 b) ≤ 45 / 100 ∧
            IoU (remapOf 640 640 b) (remapOf 640 640 a) ≤ 45 / 100))) :=
  overlap_invariant_unclipped sigStandIn false 0 1 640 640 (quietBlob 6400) (quietBlob 1600)
    overlapBlob32 _ (by decide) (by decide)
    (detect_overlapBlob sigStandIn sigStandIn_zero sigStandIn_neg)

/-- C2 (bounds invariant). For an original image of width and height at
least 1: a candidate with `w ≥ 0` and `h ≥ 0` remapped with a scale `> 0` has
`0 ≤ x`, `0 ≤ y`, `w ≥ 0`, `h ≥ 0`, `x + w ≤ width - 1` and
`y + h ≤ height - 1` (hence `x + w ≤ width`, `y + h ≤ height`); and every
Detection that a request returns satisfies the same bounds. -/
theorem bounds_invariant (width height : ℤ) (hw : 1 ≤ width) (hh : 1 ≤ height) :
    (∀ (scale : ℚ) (wpad hpad : ℤ) (o : Object), 0 < scale → 0 ≤ o.w → 0 ≤ o.h →
      0 ≤ (remapBox scale wpad hpad width height o).x ∧
      0 ≤ (remapBox scale wpad hpad width height o).y ∧
      0 ≤ (remapBox scale wpad hpad width height o).w ∧
      0 ≤ (remapBox scale wpad hpad width height o).h ∧
      (remapBox scale wpad hpad width height o).x + (remapBox scale wpad hpad width height o).w
        ≤ (width : ℚ) - 1 ∧
      (remapBox scale wpad hpad width height o).y + (remapBox scale wpad hpad width height o).h
        ≤ (height : ℚ) - 1) ∧
    (∀ (sig : ℚ → ℚ) (use_gpu : Bool) (gpu_count format : ℤ) (out8 out16 out32 : Mat)
      (objs : List Object),
      Detect sig use_gpu gpu_count format width height out8 out16 out32 = .ok objs →
      ∀ o ∈ objs, 0 ≤ o.x ∧ 0 ≤ o.y ∧ 0 ≤ o.w ∧ 0 ≤ o.h ∧
        o.x + o.w ≤ (width : ℚ) - 1 ∧ o.y + o.h ≤ (height : ℚ) - 1 ∧
        o.x + o.w ≤ (width : ℚ) ∧ o.y + o.h ≤ (height : ℚ)) := by
  refine ⟨?_, ?_⟩
  · intro scale wpad hpad o hs h1 h2
    exact remapBox_inImage scale wpad hpad width height o hs h1 h2 hw hh
  · intro sig use_gpu gpu_count format out8 out16 out32 objs h o ho
    obtain ⟨c, rfl, _, hcw, hch⟩ :=
      mem_Detect sig use_gpu gpu_count format width height out8 out16 out32 objs h o ho
    have hb := remapBox_inImage (letterbox width height).1 (padOf (letterbox width height).2.1)
      (padOf (letterbox width height).2.2) width height c
      (letterbox_scale_pos width height hw hh) hcw hch hw hh
    obtain ⟨b1, b2, b3, b4, b5, b6⟩ := hb
    exact ⟨b1, b2, b3, b4, b5, b6, by unfold remapOf; linarith, by unfold remapOf; linarith⟩

/-- Witness of C2 on a 640 x 640 image: the candidate (2, -19, 156, 198),
remapped with scale 1 and no padding, is clipped to (2, 0, 156, 179). -/
theorem bounds_invariant_witness :
    remapBox 1 0 0 640 640 ⟨2, -19, 156, 198, 0, 1 / 4⟩ = ⟨2, 0, 156, 179, 0, 1 / 4⟩ ∧
    0 ≤ (remapBox 1 0 0 640 640 ⟨2, -19, 156, 198, 0, 1 / 4⟩).x ∧
    0 ≤ (remapBox 1 0 0 640 640 ⟨2, -19, 156, 198, 0, 1 / 4⟩).y ∧
    0 ≤ (remapBox 1 0 0 640 640 ⟨2, -19, 156, 198, 0, 1 / 4⟩).w ∧
    0 ≤ (remapBox 1 0 0 640 640 ⟨2, -19, 156, 198, 0, 1 / 4⟩).h ∧
    (remapBox 1 0 0 640 640 ⟨2, -19, 156, 198, 0, 1 / 4⟩).x
      + (remapBox 1 0 0 640 640 ⟨2, -19, 156, 198, 0, 1 / 4⟩).w ≤ ((640 : ℤ) : ℚ) - 1 ∧
    (remapBox 1 0 0 640 640 ⟨2, -19, 156, 198, 0, 1 / 4⟩).y
      + (remapBox 1 0 0 640 640 ⟨2, -19, 156, 198, 0, 1 / 4⟩).h ≤ ((640 : ℤ) : ℚ) - 1 :=
  ⟨by decide!,
   (bounds_invariant 640 640 (by decide) (by decide)).1 1 0 0 ⟨2, -19, 156, 198, 0, 1 / 4⟩
     (by norm_num) (by norm_num) (by norm_num)⟩

/-- C3 (threshold invariant). Every Detection that a request returns has
`prob ≥ 0.25`; and the cell body of `generate_proposals` appends the box of a
cell exactly when `sigmoid(objectness) * sigmoid(max class score)` is at least
`prob_threshold`, leaving the list unchanged otherwise. -/
theorem threshold_invariant (sig : ℚ → ℚ) (use_gpu : Bool) (gpu_count format width height : ℤ)
    (out8 out16 out32 : Mat) (objs : List Object)
    (h : Detect sig use_gpu gpu_count format width height out8 out16 out32 = .ok objs) :
    (∀ o ∈ objs, 25 / 100 ≤ o.prob) ∧
    (∀ (anchor_w anchor_h : ℚ) (stride num_class : ℤ) (prob_threshold : ℚ) (featptr : ℕ → ℚ)
      (i j : ℕ) (objects : List Object),
      decodeCell sig anchor_w anchor_h stride num_class prob_threshold featptr i j objects =
        if prob_threshold ≤ sig (featptr 4) * sig (classLoop featptr num_class).2 then
          objects ++ [specBox sig anchor_w anchor_h stride featptr i j
            (classLoop featptr num_class).1
            (sig (featptr 4) * sig (classLoop featptr num_class).2)]
        else objects) := by
  refine ⟨?_, ?_⟩
  · intro o ho
    obtain ⟨c, rfl, hc, _, _⟩ :=
      mem_Detect sig use_gpu gpu_count format width height out8 out16 out32 objs h o ho
    exact hc
  · intro anchor_w anchor_h stride num_class prob_threshold featptr i j objects
    exact decodeCell_eq sig anchor_w anchor_h stride num_class prob_threshold featptr i j objects

/-- Witness of C3: the two Detections returned for the two-cell tensor have
confidence 1/4. -/
theorem threshold_invariant_witness :
    25 / 100 ≤ (⟨0, 0, 405 / 2, 179, 0, 1 / 4⟩ : Object).prob ∧
    25 / 100 ≤ (⟨2, 0, 156, 179, 0, 1 / 4⟩ : Object).prob :=
  have h := (threshold_invariant sigStandIn false 0 1 640 640 (quietBlob 6400) (quietBlob 1600)
    overlapBlob32 _ (detect_overlapBlob sigStandIn sigStandIn_zero sigStandIn_neg)).1
  ⟨h _ (by simp), h _ (by simp)⟩

/-! ## Ranking and suppression, stage by stage -/

/-- C15 (sort correctness). For every list of Detections the ranking returns
a list that is a permutation of the input (same multiset of records, same
length) whose `prob` values are non-increasing from first to last: every
earlier element has `prob` at least that of every later one, in particular
each element at least that of its successor. -/
theorem sort_correct (faceobjects : List Object) :
    ∃ sorted, qsort_descent_inplace faceobjects = some sorted ∧
      sorted.Perm faceobjects ∧ sorted.length = faceobjects.length ∧
      (∀ o : Object, sorted.count o = faceobjects.count o) ∧
      sorted.Pairwise (fun a b => b.prob ≤ a.prob) ∧
      (∀ k : ℕ, k + 1 < sorted.length →
        (sorted.getD (k + 1) Object.zero).prob ≤ (sorted.getD k Object.zero).prob) := by
  obtain ⟨sorted, e, hp, hl, hs⟩ := qsort_descent_inplace_spec faceobjects
  refine ⟨sorted, e, hp, hl, fun o => hp.count_eq o, hs, ?_⟩
  intro k hk
  have h := List.pairwise_iff_getElem.mp hs k (k + 1) (by omega) hk (by omega)
  simpa [List.getD_eq_getElem?_getD, List.getElem?_eq_getElem hk,
    List.getElem?_eq_getElem (show k < sorted.length by omega)] using h

theorem keptCandidates_sorted (sorted : List Object) (t : ℚ)
    (hs : sorted.Pairwise (fun a b => b.prob ≤ a.prob)) :
    (keptCandidates sorted t).Pairwise (fun a b => b.prob ≤ a.prob) := by
  unfold keptCandidates
  rw [List.pairwise_map]
  have hp : (nms_sorted_bboxes sorted t).Pairwise (· < ·) := nmsPrefix_pairwise _ _ _
  refine List.Pairwise.imp_of_mem ?_ hp
  intro a b ha hb hab
  have hb' := ((mem_nms_iff sorted t b).mp hb).1
  have h := List.pairwise_iff_getElem.mp hs a b (by omega) hb' hab
  simpa [List.getD_eq_getElem?_getD, List.getElem?_eq_getElem hb',
    List.getElem?_eq_getElem (show a < sorted.length by omega)] using h

theorem pairwise_consecutive (l : List Object)
    (h : l.Pairwise (fun a b => b.prob ≤ a.prob)) (k : ℕ) (hk : k + 1 < l.length) :
    (l.getD (k + 1) Object.zero).prob ≤ (l.getD k Object.zero).prob := by
  have h' := List.pairwise_iff_getElem.mp h k (k + 1) (by omega) hk (by omega)
  simpa [List.getD_eq_getElem?_getD, List.getElem?_eq_getElem hk,
    List.getElem?_eq_getElem (show k < l.length by omega)] using h'

theorem rankSuppressRemap_elim (proposals : List Object) (t scale : ℚ)
    (wpad hpad width height : ℤ) (objs : List Object)
    (h : rankSuppressRemap proposals t scale wpad hpad width height = some objs) :
    ∃ sorted, qsort_descent_inplace proposals = some sorted ∧ sorted.Perm proposals ∧
      sorted.Pairwise (fun a b => b.prob ≤ a.prob) ∧
      objs = (nms_sorted_bboxes sorted t).map
        (fun k => remapBox scale wpad hpad width height (sorted.getD k Object.zero)) := by
  obtain ⟨sorted, e, hp, _, hs⟩ := qsort_descent_inplace_spec proposals
  refine ⟨sorted, e, hp, hs, ?_⟩
  unfold rankSuppressRemap at h
  rw [e] at h
  simp only [Option.some.injEq] at h
  exact h.symm

/-- C11 (output order). The picked indices are strictly increasing, so the
list that sort, suppression and remapping return for any candidate list is in
descending order of confidence: each Detection has `prob` at least that of
every later one, in particular of its successor; the same holds for the list
returned by a request. -/
theorem output_order (proposals : List Object) (nms_threshold scale : ℚ)
    (wpad hpad width height : ℤ) :
    (∀ faceobjects : List Object,
      (nms_sorted_bboxes faceobjects nms_threshold).Pairwise (· < ·)) ∧
    (∃ objs, rankSuppressRemap proposals nms_threshold scale wpad hpad width height = some objs ∧
      objs.Pairwise (fun a b => b.prob ≤ a.prob) ∧
      ∀ k : ℕ, k + 1 < objs.length →
        (objs.getD (k + 1) Object.zero).prob ≤ (objs.getD k Object.zero).prob) ∧
    (∀ (sig : ℚ → ℚ) (use_gpu : Bool) (gpu_count format : ℤ) (out8 out16 out32 : Mat)
      (objs : List Object),
      Detect sig use_gpu gpu_count format width height out8 out16 out32 = .ok objs →
      objs.Pairwise (fun a b => b.prob ≤ a.prob) ∧
      ∀ k : ℕ, k + 1 < objs.length →
        (objs.getD (k + 1) Object.zero).prob ≤ (objs.getD k Object.zero).prob) := by
  refine ⟨fun v => nmsPrefix_pairwise _ _ _, ?_, ?_⟩
  · obtain ⟨sorted, e, _, _, hs⟩ := qsort_descent_inplace_spec proposals
    have hk := keptCandidates_sorted sorted nms_threshold hs
    have hm : ((keptCandidates sorted nms_threshold).map
        (remapBox scale wpad hpad width height)).Pairwise (fun a b => b.prob ≤ a.prob) := by
      rw [List.pairwise_map]
      exact hk
    refine ⟨_, ?_, hm, fun k hlt => pairwise_consecutive _ hm k hlt⟩
    rw [rankSuppressRemap_eq]
    simp [rankSuppress, e]
  · intro sig use_gpu gpu_count format out8 out16 out32 objs h
    obtain ⟨proposals', sorted, _, e, _, rfl⟩ :=
      Detect_ok_elim sig use_gpu gpu_count format width height out8 out16 out32 objs h
    obtain ⟨s2, e2, _, _, hs⟩ := qsort_descent_inplace_spec proposals'
    rw [e] at e2
    cases e2
    have hk := keptCandidates_sorted sorted (45 / 100) hs
    have hm : ((keptCandidates sorted (45 / 100)).map (remapOf width height)).Pairwise
        (fun a b => b.prob ≤ a.prob) := by
      rw [List.pairwise_map]
      exact hk
    exact ⟨hm, fun k hlt => pairwise_consecutive _ hm k hlt⟩

/-! ## Intersection area -/

theorem inter_extent_bounds (ax aw bx bw : ℚ) (haw : 0 ≤ aw) (hbw : 0 ≤ bw)
    (h1 : ¬ ax > bx + bw) (h2 : ¬ ax + aw < bx) :
    0 ≤ min (ax + aw) (bx + bw) - max ax bx ∧
    min (ax + aw) (bx + bw) - max ax bx ≤ aw ∧
    min (ax + aw) (bx + bw) - max ax bx ≤ bw := by
  have h1' : ax ≤ bx + bw := not_lt.mp h1
  have h2' : bx ≤ ax + aw := not_lt.mp h2
  refine ⟨?_, ?_, ?_⟩
  · rw [sub_nonneg]
    exact max_le (le_min (by linarith) h1') (le_min h2' (by linarith))
  · have := min_le_left (ax + aw) (bx + bw)
    have := le_max_left ax bx
    linarith
  · have := min_le_right (ax + aw) (bx + bw)
    have := le_max_right ax bx
    linarith

theorem inter_extent_neg (ax aw bx bw : ℚ) (h : ax > bx + bw ∨ ax + aw < bx) :
    max 0 (min (ax + aw) (bx + bw) - max ax bx) = 0 := by
  apply max_eq_left
  rcases h with h | h
  · have := min_le_right (ax + aw) (bx + bw)
    have := le_max_left ax bx
    linarith
  · have := min_le_left (ax + aw) (bx + bw)
    have := le_max_right ax bx
    linarith

/-- C16 (intersection area). For two boxes with non-negative width and
height, `intersection_area` is the product of the two overlap extents
`max(0, min(right edges) - max(left edges))` and
`max(0, min(bottom edges) - max(top edges))`; it is 0 when the boxes are
separated on an axis, it is symmetric, and it lies between 0 and the smaller
of the two areas. -/
theorem intersection_area_overlap (a b : Object) (haw : 0 ≤ a.w) (hah : 0 ≤ a.h)
    (hbw : 0 ≤ b.w) (hbh : 0 ≤ b.h) :
    intersection_area a b =
      max 0 (min (a.x + a.w) (b.x + b.w) - max a.x b.x) *
        max 0 (min (a.y + a.h) (b.y + b.h) - max a.y b.y) ∧
    ((a.x > b.x + b.w ∨ a.x + a.w < b.x ∨ a.y > b.y + b.h ∨ a.y + a.h < b.y) →
      intersection_area a b = 0) ∧
    ((min (a.x + a.w) (b.x + b.w) - max a.x b.x < 0 ∨
        min (a.y + a.h) (b.y + b.h) - max a.y b.y < 0) → intersection_area a b = 0) ∧
    intersection_area a b = intersection_area b a ∧
    0 ≤ intersection_area a b ∧
    intersection_area a b ≤ min (a.w * a.h) (b.w * b.h) := by
  have hform : intersection_area a b =
      max 0 (min (a.x + a.w) (b.x + b.w) - max a.x b.x) *
        max 0 (min (a.y + a.h) (b.y + b.h) - max a.y b.y) := by
    unfold intersection_area
    by_cases hx : a.x > b.x + b.w ∨ a.x + a.w < b.x
    · rw [if_pos (by rcases hx with h | h <;> simp [h]),
        inter_extent_neg a.x a.w b.x b.w hx, zero_mul]
    · by_cases hy : a.y > b.y + b.h ∨ a.y + a.h < b.y
      · rw [if_pos (by rcases hy with h | h <;> simp [h]),
          inter_extent_neg a.y a.h b.y b.h hy, mul_zero]
      · have hx' := not_or.mp hx
        have hy' := not_or.mp hy
        rw [if_neg (by
          rintro (h | h | h | h)
          · exact hx'.1 h
          · exact hx'.2 h
          · exact hy'.1 h
          · exact hy'.2 h)]
        have bx := inter_extent_bounds a.x a.w b.x b.w haw hbw hx'.1 hx'.2
        have by' := inter_extent_bounds a.y a.h b.y b.h hah hbh hy'.1 hy'.2
        simp only [max_eq_right bx.1, max_eq_right by'.1]
  have hnn : 0 ≤ intersection_area a b := by
    rw [hform]
    exact mul_nonneg (le_max_left _ _) (le_max_left _ _)
  have hxa : max 0 (min (a.x + a.w) (b.x + b.w) - max a.x b.x) ≤ a.w := by
    apply max_le haw
    have := min_le_left (a.x + a.w) (b.x + b.w)
    have := le_max_left a.x b.x
    linarith
  have hxb : max 0 (min (a.x + a.w) (b.x + b.w) - max a.x b.x) ≤ b.w := by
    apply max_le hbw
    have := min_le_right (a.x + a.w) (b.x + b.w)
    have := le_max_right a.x b.x
    linarith
  have hya : max 0 (min (a.y + a.h) (b.y + b.h) - max a.y b.y) ≤ a.h := by
    apply max_le hah
    have := min_le_left (a.y + a.h) (b.y + b.h)
    have := le_max_left a.y b.y
    linarith
  have hyb : max 0 (min (a.y + a.h) (b.y + b.h) - max a.y b.y) ≤ b.h := by
    apply max_le hbh
    have := min_le_right (a.y + a.h) (b.y + b.h)
    have := le_max_right a.y b.y
    linarith
  refine ⟨hform, ?_, ?_, intersection_area_comm a b, hnn, ?_⟩
  · intro h
    unfold intersection_area
    rw [if_pos h]
  · intro h
    rw [hform]
    rcases h with h | h
    · rw [max_eq_left (le_of_lt h), zero_mul]
    · rw [max_eq_left (le_of_lt h), mul_zero]
  · rw [hform]
    exact le_min (mul_le_mul hxa hya (le_max_left _ _) haw)
      (mul_le_mul hxb hyb (le_max_left _ _) hbw)

/-- Witness of C16: the boxes (0, 0, 10, 10) and (5, 5, 10, 10) overlap in a
5 x 5 square. -/
theorem intersection_area_overlap_witness :
    intersection_area ⟨0, 0, 10, 10, 0, 1⟩ ⟨5, 5, 10, 10, 0, 1⟩ = 25 ∧
    intersection_area ⟨0, 0, 10, 10, 0, 1⟩ ⟨5, 5, 10, 10, 0, 1⟩ =
      intersection_area ⟨5, 5, 10, 10, 0, 1⟩ ⟨0, 0, 10, 10, 0, 1⟩ ∧
    0 ≤ intersection_area ⟨0, 0, 10, 10, 0, 1⟩ ⟨5, 5, 10, 10, 0, 1⟩ :=
  have h := intersection_area_overlap ⟨0, 0, 10, 10, 0, 1⟩ ⟨5, 5, 10, 10, 0, 1⟩
    (by norm_num) (by norm_num) (by norm_num) (by norm_num)
  ⟨by decide!, h.2.2.2.1, h.2.2.2.2.1⟩

/-! ## Grid and padded size -/

theorem tdiv_mul_cancel (a b : ℤ) (ha : 0 ≤ a) (hb : 0 < b) : (b * a).tdiv b = a := by
  rw [Int.tdiv_eq_ediv (by positivity) (le_of_lt hb)]
  exact Int.mul_ediv_cancel_left a (ne_of_gt hb)

/-- C17 (grid dimensions). For a stride of 8, 16 or 32, a padded input whose
width `W` and height `H` are positive multiples of 32 and an output tensor
with `feat_blob.h = (W / s) * (H / s)`, the decoder derives
`num_grid_x = W / s` and `num_grid_y = H / s` without dividing by zero; their
product is `feat_blob.h`, both are positive, and the larger grid axis is the
larger padded axis. -/
theorem grid_dimensions (stride : ℤ) (in_pad feat_blob : Mat)
    (hs : stride = 8 ∨ stride = 16 ∨ stride = 32)
    (hW : 0 < in_pad.w) (hW32 : (32 : ℤ) ∣ in_pad.w) (hH : 0 < in_pad.h)
    (hH32 : (32 : ℤ) ∣ in_pad.h)
    (hf : feat_blob.h = in_pad.w.tdiv stride * in_pad.h.tdiv stride) :
    gridDims stride in_pad feat_blob = some (in_pad.w.tdiv stride, in_pad.h.tdiv stride) ∧
    in_pad.w.tdiv stride * in_pad.h.tdiv stride = feat_blob.h ∧
    0 < in_pad.w.tdiv stride ∧ 0 < in_pad.h.tdiv stride ∧
    in_pad.w.tdiv stride * stride = in_pad.w ∧ in_pad.h.tdiv stride * stride = in_pad.h ∧
    (in_pad.h ≤ in_pad.w → in_pad.h.tdiv stride ≤ in_pad.w.tdiv stride) ∧
    (in_pad.w ≤ in_pad.h → in_pad.w.tdiv stride ≤ in_pad.h.tdiv stride) := by
  have hs0 : 0 < stride := by omega
  have ew : in_pad.w.tdiv stride = in_pad.w / stride :=
    Int.tdiv_eq_ediv (le_of_lt hW) (le_of_lt hs0)
  have eh : in_pad.h.tdiv stride = in_pad.h / stride :=
    Int.tdiv_eq_ediv (le_of_lt hH) (le_of_lt hs0)
  have hsd : stride ∣ 32 := by
    rcases hs with h | h | h <;> rw [h] <;> decide
  have dw : stride ∣ in_pad.w := dvd_trans hsd hW32
  have dh : stride ∣ in_pad.h := dvd_trans hsd hH32
  have mw : in_pad.w / stride * stride = in_pad.w := Int.ediv_mul_cancel dw
  have mh : in_pad.h / stride * stride = in_pad.h := Int.ediv_mul_cancel dh
  have pw : 0 < in_pad.w / stride := by
    by_contra hc
    have : in_pad.w / stride * stride ≤ 0 := by nlinarith
    omega
  have ph : 0 < in_pad.h / stride := by
    by_contra hc
    have : in_pad.h / stride * stride ≤ 0 := by nlinarith
    omega
  have hgrid : gridDims stride in_pad feat_blob =
      some (in_pad.w.tdiv stride, in_pad.h.tdiv stride) := by
    unfold gridDims
    simp only [ne_of_gt hs0, if_false, hf]
    by_cases hgt : in_pad.w > in_pad.h
    · rw [if_pos hgt, if_neg (by rw [ew]; exact ne_of_gt pw)]
      rw [tdiv_mul_cancel _ _ (by rw [eh]; exact le_of_lt ph) (by rw [ew]; exact pw)]
    · rw [if_neg hgt, if_neg (by rw [eh]; exact ne_of_gt ph)]
      rw [mul_comm, tdiv_mul_cancel _ _ (by rw [ew]; exact le_of_lt pw) (by rw [eh]; exact ph)]
  refine ⟨hgrid, hf.symm, by rw [ew]; exact pw, by rw [eh]; exact ph, by rw [ew]; exact mw,
    by rw [eh]; exact mh, ?_, ?_⟩
  · intro hle
    rw [ew, eh]
    exact Int.ediv_le_ediv hs0 hle
  · intro hle
    rw [ew, eh]
    exact Int.ediv_le_ediv hs0 hle

/-- Witness of C17: a 640 x 384 padded input at stride 32 has a 20 x 12
grid. -/
theorem grid_dimensions_witness :
    gridDims 32 ⟨640, 384, 3, fun _ _ _ => 0⟩ ⟨85, 240, 3, fun _ _ _ => 0⟩ = some (20, 12) :=
  (grid_dimensions 32 ⟨640, 384, 3, fun _ _ _ => 0⟩ ⟨85, 240, 3, fun _ _ _ => 0⟩
    (Or.inr (Or.inr rfl)) (by decide) (by decide) (by decide) (by decide) (by decide)).1

/-- C19, counterexample. For the square original 610 x 610 the width is
resized to 639, so the pad on the width axis, a longest axis of the image, is
1 and not 0: the borders on that axis are 0 on the left and 1 on the right. -/
theorem padded_size_counterexample :
    (610 : ℤ) ≤ 610 ∧ (letterbox 610 610).2.1 = 639 ∧ padOf (letterbox 610 610).2.1 = 1 ∧
    padOf (letterbox 610 610).2.1 ≠ 0 ∧
    padHalves (padOf (letterbox 610 610).2.1) = (0, 1) := by
  decide!

/-- C19, amended. For an image of width and height at least 1 the pad is 0
on the axis that the code resizes to 640 by assignment, the width when
`width > height` and the height otherwise, and the padded side on that axis
is exactly 640.  For equal sides the pad on the width axis is 0 or 1 and the
padded width is 640 as well.  Each padded side is the resized side plus its
pad, a multiple of 32, at least the resized side and at most 640. -/
theorem padded_size_assigned_axis (width height : ℤ) (hw : 1 ≤ width) (hh : 1 ≤ height) :
    (width > height →
      padOf (letterbox width height).2.1 = 0 ∧ (inPadOf width height).w = 640) ∧
    (width ≤ height →
      padOf (letterbox width height).2.2 = 0 ∧ (inPadOf width height).h = 640) ∧
    (width = height →
      (padOf (letterbox width height).2.1 = 0 ∨ padOf (letterbox width height).2.1 = 1) ∧
      (inPadOf width height).w = 640) ∧
    (inPadOf width height).w = (letterbox width height).2.1 + padOf (letterbox width height).2.1 ∧
    (inPadOf width height).h = (letterbox width height).2.2 + padOf (letterbox width height).2.2 ∧
    (32 : ℤ) ∣ (inPadOf width height).w ∧ (32 : ℤ) ∣ (inPadOf width height).h ∧
    (letterbox width height).2.1 ≤ (inPadOf width height).w ∧
    (letterbox width height).2.2 ≤ (inPadOf width height).h ∧
    (inPadOf width height).w ≤ 640 ∧ (inPadOf width height).h ≤ 640 := by
  have hb := letterbox_resized_bounds width height hw hh
  rw [inPadOf_w, inPadOf_h]
  have hwb : 0 ≤ (letterbox width height).2.1 ∧ (letterbox width height).2.1 ≤ 640 := by
    by_cases h : width > height
    · have := (hb.1 h).1; omega
    · have := hb.2 h; omega
  have hhb : 0 ≤ (letterbox width height).2.2 ∧ (letterbox width height).2.2 ≤ 640 := by
    by_cases h : width > height
    · have := hb.1 h; omega
    · have := (hb.2 h).1; omega
  have pw := padded_bounds (letterbox width height).2.1 hwb.1 hwb.2
  have ph := padded_bounds (letterbox width height).2.2 hhb.1 hhb.2
  refine ⟨?_, ?_, ?_, rfl, rfl, pw.2.2.1, ph.2.2.1, pw.1, ph.1, pw.2.1, ph.2.1⟩
  · intro hgt
    have e := (hb.1 hgt).1
    have := pw.2.2.2 e
    exact ⟨by omega, this⟩
  · intro hle
    have e := (hb.2 (not_lt.mpr hle)).1
    have := ph.2.2.2 e
    exact ⟨by omega, this⟩
  · intro he
    subst he
    rcases (letterbox_square width hw).1 with e | e
    · rw [e]
      exact ⟨Or.inr (by decide), by decide⟩
    · rw [e]
      exact ⟨Or.inl (by decide), by decide⟩

/-- Witness of the amended C19 at the original size 1280 x 720: the padded
input is 640 x 384. -/
theorem padded_size_assigned_axis_witness :
    padOf (letterbox 1280 720).2.1 = 0 ∧ (inPadOf 1280 720).w = 640 ∧
    (inPadOf 1280 720).h = 384 ∧ (32 : ℤ) ∣ (inPadOf 1280 720).h ∧ (inPadOf 1280 720).h ≤ 640 :=
  have h := padded_size_assigned_axis 1280 720 (by decide) (by decide)
  ⟨(h.1 (by decide)).1, (h.1 (by decide)).2, by decide!, h.2.2.2.2.2.2.1,
    h.2.2.2.2.2.2.2.2.2.2⟩

/-! ## Request checks, empty input and the remapping frame -/

/-- C13 (request-level failures). The request returns the null result
exactly when accelerated execution is asked for with an accelerator count of
0, or the pixel format is not RGBA_8888.  In these two cases the result is
null whatever the image size, the tensors and `sigmoid` are (no letterbox,
inference or decode result enters it); in every other case the request does
not return null. -/
theorem request_failures (sig : ℚ → ℚ) (use_gpu : Bool) (gpu_count format width height : ℤ)
    (out8 out16 out32 : Mat) :
    (use_gpu = true ∧ gpu_count = 0 →
      ∀ (sig' : ℚ → ℚ) (format' width' height' : ℤ) (o8 o16 o32 : Mat),
        Detect sig' use_gpu gpu_count format' width' height' o8 o16 o32
          = .error .nullResult) ∧
    (format ≠ ANDROID_BITMAP_FORMAT_RGBA_8888 →
      ∀ (sig' : ℚ → ℚ) (use_gpu' : Bool) (gpu_count' width' height' : ℤ) (o8 o16 o32 : Mat),
        Detect sig' use_gpu' gpu_count' format width' height' o8 o16 o32
          = .error .nullResult) ∧
    (Detect sig use_gpu gpu_count format width height out8 out16 out32 = .error .nullResult ↔
      (use_gpu = true ∧ gpu_count = 0) ∨ format ≠ ANDROID_BITMAP_FORMAT_RGBA_8888) ∧
    (¬ (use_gpu = true ∧ gpu_count = 0) → format = ANDROID_BITMAP_FORMAT_RGBA_8888 →
      1 ≤ width → 1 ≤ height →
      ∃ objs, Detect sig use_gpu gpu_count format width height out8 out16 out32 = .ok objs) := by
  have hnull : ∀ (s : ℚ → ℚ) (u : Bool) (g f w h : ℤ) (o8 o16 o32 : Mat),
      ((u = true ∧ g = 0) ∨ f ≠ ANDROID_BITMAP_FORMAT_RGBA_8888) →
      Detect s u g f w h o8 o16 o32 = .error .nullResult := by
    intro s u g f w h o8 o16 o32 hc
    unfold Detect
    by_cases h1 : u = true ∧ g = 0
    · rw [if_pos h1]
    · rw [if_neg h1]
      rcases hc with hc | hc
      · exact absurd hc h1
      · rw [if_pos hc]
  refine ⟨?_, ?_, ?_, ?_⟩
  · intro h sig' format' width' height' o8 o16 o32
    exact hnull _ _ _ _ _ _ _ _ _ (Or.inl h)
  · intro h sig' use_gpu' gpu_count' width' height' o8 o16 o32
    exact hnull _ _ _ _ _ _ _ _ _ (Or.inr h)
  · constructor
    · intro h
      by_contra hc
      rw [not_or, not_not] at hc
      rw [Detect_unfold sig use_gpu gpu_count format width height out8 out16 out32 hc.1 hc.2]
        at h
      cases hd : decodeAll sig (inPadOf width height) out8 out16 out32 (25 / 100) with
      | none => rw [hd] at h; simp at h
      | some proposals =>
        rw [hd] at h
        simp only at h
        cases hr : rankSuppressRemap proposals (45 / 100) (letterbox width height).1
            (padOf (letterbox width height).2.1) (padOf (letterbox width height).2.2)
            width height with
        | none => rw [hr] at h; simp at h
        | some objs => rw [hr] at h; simp at h
    · intro hc
      exact hnull _ _ _ _ _ _ _ _ _ hc
  · intro h1 h2 hw hh
    exact Detect_returns sig use_gpu gpu_count format width height out8 out16 out32 hw hh h1 h2

theorem cellBoxes_eq_nil (sig : ℚ → ℚ) (anchors : List ℚ) (stride : ℤ) (feat_blob : Mat)
    (prob_threshold : ℚ) (gx gy : ℤ)
    (hq : ∀ q i j : ℕ, (q : ℤ) < (anchors.length : ℤ).tdiv 2 → (i : ℤ) < gy → (j : ℤ) < gx →
      cellConfidence sig (feat_blob.elem q (((i : ℤ) * gx + (j : ℤ)).toNat)) (feat_blob.w - 5)
        < prob_threshold) :
    cellBoxes sig anchors stride feat_blob prob_threshold gx gy = [] := by
  rw [List.eq_nil_iff_forall_not_mem]
  intro o ho
  rw [mem_cellBoxes] at ho
  obtain ⟨q, i, j, h1, h2, h3, h⟩ := ho
  rw [mem_decodeCell_nil] at h
  exact absurd h.1 (not_le.mpr (hq q i j h1 h2 h3))

theorem generate_proposals_quiet (sig : ℚ → ℚ) (anchors : List ℚ) (stride : ℤ)
    (in_pad feat_blob : Mat) (prob_threshold : ℚ) (objects : List Object)
    (hq : ∀ gx gy : ℤ, gridDims stride in_pad feat_blob = some (gx, gy) →
      ∀ q i j : ℕ, (q : ℤ) < (anchors.length : ℤ).tdiv 2 → (i : ℤ) < gy → (j : ℤ) < gx →
      cellConfidence sig (feat_blob.elem q (((i : ℤ) * gx + (j : ℤ)).toNat)) (feat_blob.w - 5)
        < prob_threshold) :
    generate_proposals sig anchors stride in_pad feat_blob prob_threshold objects =
      (gridDims stride in_pad feat_blob).map fun _ => objects := by
  rw [generate_proposals_eq]
  cases hg : gridDims stride in_pad feat_blob with
  | none => rfl
  | some g =>
    obtain ⟨gx, gy⟩ := g
    simp only [Option.map_some']
    rw [cellBoxes_eq_nil sig anchors stride feat_blob prob_threshold gx gy (hq gx gy hg),
      List.append_nil]

theorem anchors_count : (anchors8.length : ℤ).tdiv 2 = 3 ∧ (anchors16.length : ℤ).tdiv 2 = 3 ∧
    (anchors32.length : ℤ).tdiv 2 = 3 := by decide

/-- C12 (empty input). When no cell of a tensor reaches the threshold,
`generate_proposals` returns the list it was given; the ranking of the empty
list returns the empty list, the suppression picks nothing and the remapped
list is empty; and a request that passes the request checks on an image of
width and height at least 1, in which no grid cell of the three tensors
reaches 0.25, returns the empty list, not a failure. -/
theorem empty_input (sig : ℚ → ℚ) (use_gpu : Bool) (gpu_count format width height : ℤ)
    (out8 out16 out32 : Mat) (hw : 1 ≤ width) (hh : 1 ≤ height)
    (h1 : ¬ (use_gpu = true ∧ gpu_count = 0))
    (h2 : format = ANDROID_BITMAP_FORMAT_RGBA_8888)
    (q8 : ∀ gx gy : ℤ, gridDims 8 (inPadOf width height) out8 = some (gx, gy) →
      ∀ q i j : ℕ, (q : ℤ) < 3 → (i : ℤ) < gy → (j : ℤ) < gx →
      cellConfidence sig (out8.elem q (((i : ℤ) * gx + (j : ℤ)).toNat)) (out8.w - 5) < 25 / 100)
    (q16 : ∀ gx gy : ℤ, gridDims 16 (inPadOf width height) out16 = some (gx, gy) →
      ∀ q i j : ℕ, (q : ℤ) < 3 → (i : ℤ) < gy → (j : ℤ) < gx →
      cellConfidence sig (out16.elem q (((i : ℤ) * gx + (j : ℤ)).toNat)) (out16.w - 5)
        < 25 / 100)
    (q32 : ∀ gx gy : ℤ, gridDims 32 (inPadOf width height) out32 = some (gx, gy) →
      ∀ q i j : ℕ, (q : ℤ) < 3 → (i : ℤ) < gy → (j : ℤ) < gx →
      cellConfidence sig (out32.elem q (((i : ℤ) * gx + (j : ℤ)).toNat)) (out32.w - 5)
        < 25 / 100) :
    (∀ (anchors : List ℚ) (stride : ℤ) (in_pad feat_blob : Mat) (prob_threshold : ℚ)
      (objects : List Object) (gx gy : ℤ), gridDims stride in_pad feat_blob = some (gx, gy) →
      (∀ q i j : ℕ, (q : ℤ) < (anchors.length : ℤ).tdiv 2 → (i : ℤ) < gy → (j : ℤ) < gx →
        cellConfidence sig (feat_blob.elem q (((i : ℤ) * gx + (j : ℤ)).toNat)) (feat_blob.w - 5)
          < prob_threshold) →
      generate_proposals sig anchors stride in_pad feat_blob prob_threshold objects
        = some objects) ∧
    generate_proposals sig anchors8 8 (inPadOf width height) out8 (25 / 100) [] = some [] ∧
    generate_proposals sig anchors16 16 (inPadOf width height) out16 (25 / 100) [] = some [] ∧
    generate_proposals sig anchors32 32 (inPadOf width height) out32 (25 / 100) [] = some [] ∧
    qsort_descent_inplace [] = some [] ∧
    (∀ t : ℚ, nms_sorted_bboxes [] t = []) ∧
    (∀ (t scale : ℚ) (wpad hpad w h : ℤ), rankSuppressRemap [] t scale wpad hpad w h = some []) ∧
    Detect sig use_gpu gpu_count format width height out8 out16 out32 = .ok [] := by
  obtain ⟨g8, e8⟩ := gridDims_inPadOf 8 width height out8 hw hh (Or.inl rfl)
  obtain ⟨g16, e16⟩ := gridDims_inPadOf 16 width height out16 hw hh (Or.inr (Or.inl rfl))
  obtain ⟨g32, e32⟩ := gridDims_inPadOf 32 width height out32 hw hh (Or.inr (Or.inr rfl))
  have p8 : generate_proposals sig anchors8 8 (inPadOf width height) out8 (25 / 100) []
      = some [] := by
    rw [generate_proposals_quiet sig anchors8 8 _ out8 _ []
      (fun gx gy hg q i j hq => q8 gx gy hg q i j (by rw [anchors_count.1] at hq; exact hq)), e8]
    rfl
  have p16 : generate_proposals sig anchors16 16 (inPadOf width height) out16 (25 / 100) []
      = some [] := by
    rw [generate_proposals_quiet sig anchors16 16 _ out16 _ []
      (fun gx gy hg q i j hq => q16 gx gy hg q i j (by rw [anchors_count.2.1] at hq; exact hq)),
      e16]
    rfl
  have p32 : generate_proposals sig anchors32 32 (inPadOf width height) out32 (25 / 100) []
      = some [] := by
    rw [generate_proposals_quiet sig anchors32 32 _ out32 _ []
      (fun gx gy hg q i j hq => q32 gx gy hg q i j (by rw [anchors_count.2.2] at hq; exact hq)),
      e32]
    rfl
  have hs : qsort_descent_inplace [] = some [] := rfl
  have hn : ∀ t : ℚ, nms_sorted_bboxes [] t = [] := fun _ => rfl
  have hgen : ∀ (anchors : List ℚ) (stride : ℤ) (in_pad feat_blob : Mat) (prob_threshold : ℚ)
      (objects : List Object) (gx gy : ℤ), gridDims stride in_pad feat_blob = some (gx, gy) →
      (∀ q i j : ℕ, (q : ℤ) < (anchors.length : ℤ).tdiv 2 → (i : ℤ) < gy → (j : ℤ) < gx →
        cellConfidence sig (feat_blob.elem q (((i : ℤ) * gx + (j : ℤ)).toNat)) (feat_blob.w - 5)
          < prob_threshold) →
      generate_proposals sig anchors stride in_pad feat_blob prob_threshold objects
        = some objects := by
    intro anchors stride in_pad feat_blob prob_threshold objects gx gy hg hq
    rw [generate_proposals_eq, hg, Option.map_some',
      cellBoxes_eq_nil sig anchors stride feat_blob prob_threshold gx gy hq, List.append_nil]
  refine ⟨hgen, p8, p16, p32, hs, hn, fun _ _ _ _ _ _ => rfl, ?_⟩
  have hd : decodeAll sig (inPadOf width height) out8 out16 out32 (25 / 100) = some [] := by
    unfold decodeAll
    rw [p8, p16, p32]
    rfl
  have hk : rankSuppress [] (45 / 100) = some [] := rfl
  rw [Detect_of_decode sig use_gpu gpu_count format width height out8 out16 out32 h1 h2 [] []
    hd hk]
  rfl

/-- Witness of C12: a 640 x 640 request whose three tensors have objectness
-100 in every cell returns the empty list. -/
theorem empty_input_witness :
    Detect sigStandIn false 0 1 640 640 (quietBlob 6400) (quietBlob 1600) (quietBlob 400)
      = .ok [] :=
  have hq : ∀ (n : ℤ) (q r : ℕ),
      cellConfidence sigStandIn ((quietBlob n).elem q r) ((quietBlob n).w - 5) < 25 / 100 := by
    intro n q r
    unfold cellConfidence
    have hk : ∀ k : ℕ, (quietBlob n).elem q r (5 + k) = 0 := by
      intro k
      have : ¬ (5 + k = 4) := by omega
      simp [quietBlob, this]
    rw [classLoop_zero _ _ (by simp [quietBlob]) hk]
    simp only [quietBlob, if_true]
    rw [sigStandIn_zero]
    have := sigStandIn_neg
    linarith
  (empty_input sigStandIn false 0 1 640 640 (quietBlob 6400) (quietBlob 1600) (quietBlob 400)
    (by decide) (by decide) (by decide) (by decide)
    (fun _ _ _ q i j _ _ _ => hq _ _ _) (fun _ _ _ q i j _ _ _ => hq _ _ _)
    (fun _ _ _ q i j _ _ _ => hq _ _ _)).2.2.2.2.2.2.2

/-- C20 (remapping frame). The list returned by sort, suppression and
remapping has exactly as many Detections as indices were picked, and its k-th
Detection has the label and the confidence of the sorted candidate at index
`picked[k]`: the remapping loop changes only `x`, `y`, `w`, `h`. -/
theorem remap_frame (proposals : List Object) (nms_threshold scale : ℚ)
    (wpad hpad width height : ℤ) (objs : List Object)
    (h : rankSuppressRemap proposals nms_threshold scale wpad hpad width height = some objs) :
    ∃ sorted, qsort_descent_inplace proposals = some sorted ∧
      objs.length = (nms_sorted_bboxes sorted nms_threshold).length ∧
      ∀ k : ℕ, k < objs.length →
        (nms_sorted_bboxes sorted nms_threshold).getD k 0 < sorted.length ∧
        (objs.getD k Object.zero).label =
          (sorted.getD ((nms_sorted_bboxes sorted nms_threshold).getD k 0) Object.zero).label ∧
        (objs.getD k Object.zero).prob =
          (sorted.getD ((nms_sorted_bboxes sorted nms_threshold).getD k 0) Object.zero).prob ∧
        objs.getD k Object.zero =
          remapBox scale wpad hpad width height
            (sorted.getD ((nms_sorted_bboxes sorted nms_threshold).getD k 0) Object.zero) := by
  obtain ⟨sorted, e, _, _, rfl⟩ :=
    rankSuppressRemap_elim proposals nms_threshold scale wpad hpad width height objs h
  refine ⟨sorted, e, by simp, ?_⟩
  intro k hk
  have hk' : k < (nms_sorted_bboxes sorted nms_threshold).length := by simpa using hk
  have hmem : (nms_sorted_bboxes sorted nms_threshold).getD k 0 ∈
      nms_sorted_bboxes sorted nms_threshold := by
    rw [List.getD_eq_getElem?_getD, List.getElem?_eq_getElem hk']
    exact List.getElem_mem hk'
  have e1 : (List.map (fun k => remapBox scale wpad hpad width height (sorted.getD k Object.zero))
      (nms_sorted_bboxes sorted nms_threshold)).getD k Object.zero =
      remapBox scale wpad hpad width height
        (sorted.getD ((nms_sorted_bboxes sorted nms_threshold).getD k 0) Object.zero) := by
    simp [List.getD_eq_getElem?_getD, List.getElem?_eq_getElem hk']
  rw [e1]
  exact ⟨((mem_nms_iff sorted nms_threshold _).mp hmem).1, rfl, rfl, rfl⟩

/-- Witness of C20 on the three example candidates: two Detections are
returned, with the labels and confidences of the candidates 0 and 2. -/
theorem remap_frame_witness :
    rankSuppressRemap nmsExample (45 / 100) 1 0 0 640 640 =
      some [⟨0, 0, 10, 10, 0, 9 / 10⟩, ⟨100, 100, 5, 5, 1, 5 / 10⟩] ∧
    ∃ sorted, qsort_descent_inplace nmsExample = some sorted ∧
      ([⟨0, 0, 10, 10, 0, 9 / 10⟩, ⟨100, 100, 5, 5, 1, 5 / 10⟩] : List Object).length =
        (nms_sorted_bboxes sorted (45 / 100)).length :=
  ⟨by decide!,
   have h := remap_frame nmsExample (45 / 100) 1 0 0 640 640
     [⟨0, 0, 10, 10, 0, 9 / 10⟩, ⟨100, 100, 5, 5, 1, 5 / 10⟩] (by decide!)
   h.elim fun sorted hs => ⟨sorted, hs.1, hs.2.1⟩⟩

/-! ## Overlap of the kept candidates -/

theorem IoU_comm (a b : Object) : IoU a b = IoU b a := by
  unfold IoU
  rw [intersection_area_comm a b, add_comm (a.w * a.h)]

/-- C14, counterexample. Two candidates of area 0 at the same point are both
picked at every threshold, here -1 and 0.45: their intersection and union
areas are 0, the code's test on the ratio 0/0 does not fire, and the ratio
(taken as 0) is not at most -1. -/
theorem kept_overlap_counterexample :
    nms_sorted_bboxes degenerateExample (-1) = [0, 1] ∧
    ¬ (IoU (degenerateExample.getD 0 Object.zero) (degenerateExample.getD 1 Object.zero)
        ≤ -1) ∧
    nms_sorted_bboxes degenerateExample (45 / 100) = [0, 1] ∧
    intersection_area (degenerateExample.getD 1 Object.zero)
      (degenerateExample.getD 0 Object.zero) = 0 ∧
    (areasOf degenerateExample).getD 1 0 + (areasOf degenerateExample).getD 0 0
      - intersection_area (degenerateExample.getD 1 Object.zero)
          (degenerateExample.getD 0 Object.zero) = 0 := by
  decide!

/-- C14, amended. For every candidate list and threshold, two distinct
picked indices fail the code's test
`intersection_area / (area_i + area_j - intersection_area) > t` in either
argument order, the intersection area and the ratio being symmetric; so the
ratio is at most `t` in either order whenever the union area is not 0, and
also (the ratio of an empty union taken as 0) whenever `t ≥ 0`. -/
theorem kept_overlap (faceobjects : List Object) (nms_threshold : ℚ) (i j : ℕ)
    (hi : i ∈ nms_sorted_bboxes faceobjects nms_threshold)
    (hj : j ∈ nms_sorted_bboxes faceobjects nms_threshold) (hij : i ≠ j) :
    overlapExceeds faceobjects nms_threshold i j = false ∧
    overlapExceeds faceobjects nms_threshold j i = false ∧
    intersection_area (faceobjects.getD i Object.zero) (faceobjects.getD j Object.zero) =
      intersection_area (faceobjects.getD j Object.zero) (faceobjects.getD i Object.zero) ∧
    IoU (faceobjects.getD i Object.zero) (faceobjects.getD j Object.zero) =
      IoU (faceobjects.getD j Object.zero) (faceobjects.getD i Object.zero) ∧
    ((areasOf faceobjects).getD i 0 + (areasOf faceobjects).getD j 0
        - intersection_area (faceobjects.getD i Object.zero) (faceobjects.getD j Object.zero)
        ≠ 0 →
      IoU (faceobjects.getD i Object.zero) (faceobjects.getD j Object.zero) ≤ nms_threshold ∧
      IoU (faceobjects.getD j Object.zero) (faceobjects.getD i Object.zero) ≤ nms_threshold) ∧
    (0 ≤ nms_threshold →
      IoU (faceobjects.getD i Object.zero) (faceobjects.getD j Object.zero) ≤ nms_threshold ∧
      IoU (faceobjects.getD j Object.zero) (faceobjects.getD i Object.zero) ≤ nms_threshold) := by
  have hex : exceedsObj (faceobjects.getD i Object.zero) (faceobjects.getD j Object.zero)
      nms_threshold = false := by
    rcases Nat.lt_or_gt_of_ne hij with hlt | hgt
    · have h := ((mem_nms_iff faceobjects nms_threshold j).mp hj).2 i hi hlt
      rw [overlapExceeds_eq] at h
      rw [exceedsObj_comm]
      exact h
    · have h := ((mem_nms_iff faceobjects nms_threshold i).mp hi).2 j hj hgt
      rw [overlapExceeds_eq] at h
      exact h
  have hex' := hex
  rw [exceedsObj_comm] at hex'
  have harea : ∀ n, (areasOf faceobjects).getD n 0 =
      (faceobjects.getD n Object.zero).w * (faceobjects.getD n Object.zero).h := by
    intro n
    unfold areasOf
    by_cases hn : n < faceobjects.length
    · simp [List.getD_eq_getElem?_getD, List.getElem?_eq_getElem, hn]
    · simp [List.getD_eq_getElem?_getD, List.getElem?_eq_none (not_lt.mp hn), Object.zero]
  refine ⟨by rw [overlapExceeds_eq]; exact hex, by rw [overlapExceeds_eq]; exact hex',
    intersection_area_comm _ _, IoU_comm _ _, ?_, ?_⟩
  · intro hne
    rw [harea i, harea j] at hne
    have h1 := IoU_le_of_not_exceeds_of_ne _ _ nms_threshold hne hex
    exact ⟨h1, by rw [IoU_comm]; exact h1⟩
  · intro ht
    have h1 := IoU_le_of_not_exceeds _ _ nms_threshold ht hex
    exact ⟨h1, by rw [IoU_comm]; exact h1⟩

/-- Witness of the amended C14 on the three example candidates: the picked
indices 0 and 2 do not overlap. -/
theorem kept_overlap_witness :
    overlapExceeds nmsExample (45 / 100) 0 2 = false ∧
    overlapExceeds nmsExample (45 / 100) 2 0 = false ∧
    IoU (nmsExample.getD 0 Object.zero) (nmsExample.getD 2 Object.zero) ≤ 45 / 100 :=
  have h := kept_overlap nmsExample (45 / 100) 0 2 (by decide!) (by decide!) (by decide)
  ⟨h.1, h.2.1, (h.2.2.2.2.2 (by norm_num)).1⟩

/-! ## Safety and termination of the sort -/

theorem scanUp_ge (v : List Object) (p : ℚ) :
    ∀ (fuel : ℕ) (i i1 : ℤ), scanUp v p fuel i = some i1 → i ≤ i1 := by
  intro fuel
  induction fuel with
  | zero => intro i i1 h; simp [scanUp] at h
  | succ fuel ih =>
    intro i i1 h
    unfold scanUp at h
    cases hg : vecGet v i with
    | none => rw [hg] at h; simp at h
    | some o =>
      rw [hg] at h
      simp only at h
      split at h
      · have := ih (i + 1) i1 h; omega
      · simp only [Option.some.injEq] at h; omega

theorem scanDown_le (v : List Object) (p : ℚ) :
    ∀ (fuel : ℕ) (j j1 : ℤ), scanDown v p fuel j = some j1 → j1 ≤ j := by
  intro fuel
  induction fuel with
  | zero => intro j j1 h; simp [scanDown] at h
  | succ fuel ih =>
    intro j j1 h
    unfold scanDown at h
    cases hg : vecGet v j with
    | none => rw [hg] at h; simp at h
    | some o =>
      rw [hg] at h
      simp only at h
      split at h
      · have := ih (j - 1) j1 h; omega
      · simp only [Option.some.injEq] at h; omega

theorem scanUpIn_eq (lo hi : ℤ) (v : List Object) (p : ℚ) :
    ∀ (fuel : ℕ) (i i1 : ℤ), scanUp v p fuel i = some i1 → lo ≤ i → i1 ≤ hi →
      scanUpIn lo hi v p fuel i = some i1 := by
  intro fuel
  induction fuel with
  | zero => intro i i1 h; simp [scanUp] at h
  | succ fuel ih =>
    intro i i1 h hlo hhi
    have hge := scanUp_ge v p _ i i1 h
    unfold scanUp at h
    unfold scanUpIn vecGetIn
    rw [if_pos ⟨hlo, by omega⟩]
    cases hg : vecGet v i with
    | none => rw [hg] at h; simp at h
    | some o =>
      rw [hg] at h
      simp only at h ⊢
      by_cases hp : o.prob > p
      · rw [if_pos hp] at h ⊢
        exact ih (i + 1) i1 h (by omega) hhi
      · rw [if_neg hp] at h ⊢
        exact h

theorem scanDownIn_eq (lo hi : ℤ) (v : List Object) (p : ℚ) :
    ∀ (fuel : ℕ) (j j1 : ℤ), scanDown v p fuel j = some j1 → j ≤ hi → lo ≤ j1 →
      scanDownIn lo hi v p fuel j = some j1 := by
  intro fuel
  induction fuel with
  | zero => intro j j1 h; simp [scanDown] at h
  | succ fuel ih =>
    intro j j1 h hhi hlo
    have hle := scanDown_le v p _ j j1 h
    unfold scanDown at h
    unfold scanDownIn vecGetIn
    rw [if_pos ⟨by omega, hhi⟩]
    cases hg : vecGet v j with
    | none => rw [hg] at h; simp at h
    | some o =>
      rw [hg] at h
      simp only at h ⊢
      by_cases hp : o.prob < p
      · rw [if_pos hp] at h ⊢
        exact ih (j - 1) j1 h (by omega) hlo
      · rw [if_neg hp] at h ⊢
        exact h

theorem partitionLoopIn_eq (p : ℚ) (left right : ℤ) :
    ∀ (fuel : ℕ) (v : List Object) (i j : ℤ),
      0 ≤ left → right < v.length → left ≤ i → j ≤ right →
      (i ≤ j → ∃ k, i ≤ k ∧ k ≤ right ∧ (objAt v k).prob ≤ p) →
      (i ≤ j → ∃ k, left ≤ k ∧ k ≤ j ∧ p ≤ (objAt v k).prob) →
      partitionLoopIn left right p fuel v i j = partitionLoop p fuel v i j := by
  intro fuel
  induction fuel with
  | zero => intro v i j _ _ _ _ _ _; rfl
  | succ fuel ih =>
    intro v i j h0 hr hli hjr hsu hsd
    by_cases hij : i ≤ j
    · obtain ⟨ku, hku1, hku2, hku3⟩ := hsu hij
      obtain ⟨kd, hkd1, hkd2, hkd3⟩ := hsd hij
      obtain ⟨i1, hi1, hi2, hi3, hi4, _⟩ :=
        scanUp_spec v p (v.length + 1) i ku (by omega) hku1 (by omega) hku3 (by omega)
      obtain ⟨j1, hj1, hj2, hj3, hj4, _⟩ :=
        scanDown_spec v p (v.length + 1) j kd (by omega) hkd2 (by omega) hkd3 (by omega)
      have hi1' := scanUpIn_eq left right v p _ i i1 hi1 hli (by omega)
      have hj1' := scanDownIn_eq left right v p _ j j1 hj1 hjr (by omega)
      by_cases hs : i1 ≤ j1
      · obtain ⟨v1, hsw, hrp, hsa, hsb, _⟩ :=
          vecSwap_rangePerm v i1 j1 left right h0 hr (by omega) (by omega) (by omega) (by omega)
        have hlen : v1.length = v.length := hrp.1
        have hrec := ih v1 (i1 + 1) (j1 - 1) h0 (by omega) (by omega) (by omega)
          (fun _ => ⟨j1, by omega, by omega, by rw [hsb]; exact hi4⟩)
          (fun _ => ⟨i1, by omega, by omega, by rw [hsa]; exact hj4⟩)
        simp only [partitionLoopIn, partitionLoop, hij, if_true, hi1, hj1, hi1', hj1', hs, hsw,
          hrec]
      · have hrec := ih v i1 j1 h0 hr (by omega) (by omega)
          (fun h => absurd h hs) (fun h => absurd h hs)
        simp only [partitionLoopIn, partitionLoop, hij, if_true, hi1, hj1, hi1', hj1', hs,
          if_false, hrec]
    · simp only [partitionLoopIn, partitionLoop, hij, if_false]

theorem qsortRangeIn_eq :
    ∀ (fuel : ℕ) (v : List Object) (left right : ℤ),
      0 ≤ left → left ≤ right → right < v.length → (right - left).toNat < fuel →
      qsortRangeIn fuel v left right = qsortRange fuel v left right := by
  intro fuel
  induction fuel with
  | zero => intro v left right _ _ _ hf; omega
  | succ fuel ih =>
    intro v left right h0 hlr hr hf
    have hmid : (left + right).tdiv 2 = (left + right) / 2 :=
      Int.tdiv_eq_ediv (by omega) (by decide)
    have hget : vecGet v ((left + right).tdiv 2) = some (objAt v ((left + right) / 2)) := by
      rw [hmid]
      exact vecGet_eq (by omega) (by omega)
    have hsent : ∃ k, left ≤ k ∧ k ≤ right ∧
        (objAt v k).prob = (objAt v ((left + right) / 2)).prob :=
      ⟨(left + right) / 2, by omega, by omega, rfl⟩
    obtain ⟨v1, i, j, hpart, hrp1, _, _, _, _, _, hprog, _, _⟩ :=
      partitionLoop_spec (objAt v ((left + right) / 2)).prob left right (v.length + 1) v
        left right h0 hr (le_refl _) (le_refl _) (by omega) (by omega)
        (fun _ => ⟨(left + right) / 2, by omega, by omega, le_refl _⟩)
        (fun _ => ⟨(left + right) / 2, by omega, by omega, le_refl _⟩)
        (fun m hm1 hm2 => by omega) (fun m hm1 hm2 => by omega) (by omega)
    obtain ⟨hil, hjr⟩ := hprog ⟨(left + right) / 2, by omega, by omega, rfl⟩
    have hpartIn := partitionLoopIn_eq (objAt v ((left + right) / 2)).prob left right
      (v.length + 1) v left right h0 hr (le_refl _) (le_refl _)
      (fun _ => ⟨(left + right) / 2, by omega, by omega, le_refl _⟩)
      (fun _ => ⟨(left + right) / 2, by omega, by omega, le_refl _⟩)
    rw [hpart] at hpartIn
    have hlen1 : v1.length = v.length := hrp1.1
    have e2 : (if left < j then
          (if j < right then qsortRangeIn fuel v1 left j else none) else some v1) =
        (if left < j then qsortRange fuel v1 left j else some v1) := by
      by_cases hlj : left < j
      · rw [if_pos hlj, if_pos hlj, if_pos hjr]
        exact ih v1 left j h0 (by omega) (by omega) (by omega)
      · rw [if_neg hlj, if_neg hlj]
    have hv2 : ∃ v2, (if left < j then qsortRange fuel v1 left j else some v1) = some v2 ∧
        v2.length = v.length := by
      by_cases hlj : left < j
      · obtain ⟨v2, e, hrp, _⟩ := qsortRange_spec fuel v1 left j h0 (by omega) (by omega)
          (by omega)
        exact ⟨v2, by rw [if_pos hlj]; exact e, hrp.1.trans hlen1⟩
      · exact ⟨v1, by rw [if_neg hlj], hlen1⟩
    obtain ⟨v2, hv2e, hlen2⟩ := hv2
    have e3 : (if i < right then
          (if left < i then qsortRangeIn fuel v2 i right else none) else some v2) =
        (if i < right then qsortRange fuel v2 i right else some v2) := by
      by_cases hir : i < right
      · rw [if_pos hir, if_pos hir, if_pos hil]
        exact ih v2 i right (by omega) (by omega) (by omega) (by omega)
      · rw [if_neg hir, if_neg hir]
    simp only [qsortRangeIn, qsortRange, hget, hpartIn, hpart, e2, hv2e, e3]

/-- C18 (sort safety and termination). For a call
`qsort_descent_inplace(v, left, right)` with `0 ≤ left ≤ right < size`: the
partition loop returns, and with the reads of its two scanning loops checked
against `left .. right` it returns the same, with final `left < i`,
`j < right` and `j < i`; the recursive sort with these read checks and with
every recursive call checked to be on a non-empty range strictly inside the
current one returns the same vector as the unchecked sort, for every budget
above `right - left`; so the sort of a non-empty vector terminates with
every check passed. -/
theorem sort_safety (v : List Object) (left right : ℤ) (fuel : ℕ) (h0 : 0 ≤ left)
    (hlr : left ≤ right) (hr : right < v.length) (hf : (right - left).toNat < fuel) :
    (∃ v1 i j,
      partitionLoopIn left right (objAt v ((left + right).tdiv 2)).prob (v.length + 1) v
        left right = some (v1, i, j) ∧
      partitionLoop (objAt v ((left + right).tdiv 2)).prob (v.length + 1) v left right
        = some (v1, i, j) ∧
      left < i ∧ j < right ∧ j < i ∧ i ≤ right + 1 ∧ left - 1 ≤ j ∧ v1.length = v.length) ∧
    (∃ v', qsortRangeIn fuel v left right = some v' ∧ qsortRange fuel v left right = some v' ∧
      v'.length = v.length ∧ v'.Perm v) ∧
    (∃ v', qsort_descent_inplace v = some v' ∧
      qsortRangeIn v.length v 0 ((v.length : ℤ) - 1) = some v') := by
  have hmid : (left + right).tdiv 2 = (left + right) / 2 :=
    Int.tdiv_eq_ediv (by omega) (by decide)
  refine ⟨?_, ?_, ?_⟩
  · rw [hmid]
    obtain ⟨v1, i, j, hpart, hrp1, _, _, hji, hi2, hj2, hprog, _, _⟩ :=
      partitionLoop_spec (objAt v ((left + right) / 2)).prob left right (v.length + 1) v
        left right h0 hr (le_refl _) (le_refl _) (by omega) (by omega)
        (fun _ => ⟨(left + right) / 2, by omega, by omega, le_refl _⟩)
        (fun _ => ⟨(left + right) / 2, by omega, by omega, le_refl _⟩)
        (fun m hm1 hm2 => by omega) (fun m hm1 hm2 => by omega) (by omega)
    obtain ⟨hil, hjr⟩ := hprog ⟨(left + right) / 2, by omega, by omega, rfl⟩
    have hpartIn := partitionLoopIn_eq (objAt v ((left + right) / 2)).prob left right
      (v.length + 1) v left right h0 hr (le_refl _) (le_refl _)
      (fun _ => ⟨(left + right) / 2, by omega, by omega, le_refl _⟩)
      (fun _ => ⟨(left + right) / 2, by omega, by omega, le_refl _⟩)
    rw [hpart] at hpartIn
    exact ⟨v1, i, j, hpartIn, hpart, hil, hjr, hji, hi2, hj2, hrp1.1⟩
  · obtain ⟨v', e, hrp, _⟩ := qsortRange_spec fuel v left right h0 hlr hr hf
    refine ⟨v', ?_, e, hrp.1, hrp.2.1⟩
    rw [qsortRangeIn_eq fuel v left right h0 hlr hr hf]
    exact e
  · have hne : v ≠ [] := by
      intro h
      rw [h] at hr
      simp at hr
      omega
    have hpos : 0 < v.length := List.length_pos.mpr hne
    obtain ⟨v', e, _, _⟩ :=
      qsortRange_spec v.length v 0 ((v.length : ℤ) - 1) (le_refl _) (by omega) (by omega)
        (by omega)
    refine ⟨v', ?_, ?_⟩
    · simp [qsort_descent_inplace, hne, e]
    · rw [qsortRangeIn_eq v.length v 0 ((v.length : ℤ) - 1) (le_refl _) (by omega) (by omega)
        (by omega)]
      exact e

/-- Witness of C18 on a vector of three candidates in ascending order of
confidence. -/
theorem sort_safety_witness :
    qsortRangeIn 3 nmsExample.reverse 0 2 = some nmsExample ∧
    (∃ v', qsortRangeIn 3 nmsExample.reverse 0 2 = some v' ∧
      qsortRange 3 nmsExample.reverse 0 2 = some v' ∧
      v'.length = nmsExample.reverse.length ∧ v'.Perm nmsExample.reverse) :=
  ⟨by decide!,
   (sort_safety nmsExample.reverse 0 2 3 (by decide) (by decide) (by decide) (by decide)).2.1⟩

end NcnnYolov5
